import Mathlib

/-!
The libxslt transformation engine (`libxslt/transform.c`).

A shallow embedding of the transformation part of the XSLT engine:
the transformation context, the built-in template rule
(`xsltDefaultProcessOneNode`), the `apply-templates` dispatcher
(`xsltApplyTemplates`), the template walker (`xsltProcessOneNode`) and the run
driver (`xsltApplyStylesheet`).

Modelling conventions.

* Source and stylesheet documents are read-only trees (`xmlNode`).  A pointer
  into the stylesheet document is the list of child indices leading to the
  node, innermost index first (`xmlNodePtr`), so that `cur->parent`,
  `cur->next` and `cur->children` are computed from the pointer alone and
  pointer equality is equality of lists.
* The output tree is built in a heap of cells (`outNode`); an output pointer is
  an index into that heap, `none` is `NULL`.
* A `NULL` dereference and a read of a local variable that was never assigned
  have no defined result in C; they are the faults `segfault` and
  `uninitialized`.  Recursion and loops are bounded by a fuel counter; running
  out of it is the fault `outOfFuel`.
* The functions whose name ends in `Log` are the processing functions with, in
  addition, the list of the contexts met at each function entry and loop
  iteration; `run_erasure` proves that they compute the same results.
-/

namespace LibXslt

/-! ## Tree library data (libxml/tree.h) -/

/-- Node type tags (`xmlElementType`). -/
inductive xmlElementType where
  | XML_ELEMENT_NODE
  | XML_ATTRIBUTE_NODE
  | XML_TEXT_NODE
  | XML_CDATA_SECTION_NODE
  | XML_ENTITY_REF_NODE
  | XML_ENTITY_NODE
  | XML_PI_NODE
  | XML_COMMENT_NODE
  | XML_DOCUMENT_NODE
  | XML_DOCUMENT_TYPE_NODE
  | XML_DOCUMENT_FRAG_NODE
  | XML_NOTATION_NODE
  | XML_HTML_DOCUMENT_NODE
  | XML_DTD_NODE
  | XML_ELEMENT_DECL
  | XML_ATTRIBUTE_DECL
  | XML_ENTITY_DECL
  deriving DecidableEq, Repr

open xmlElementType

/-- An attribute of a node: name, namespace URI (if any) and value. -/
structure xmlAttr where
  name : String
  ns : Option String
  value : String
  deriving DecidableEq, Repr

/-- The fields of a node that a shallow copy carries over: type tag, name,
namespace URI (`ns->href`, `none` when `ns == NULL`), text content and
attributes. -/
structure xmlNodeData where
  type : xmlElementType
  name : String
  ns : Option String
  content : Option String
  properties : List xmlAttr
  deriving DecidableEq, Repr

/-- A node of a source or stylesheet document together with its children in
document order (the `children` / `next` chain). -/
inductive xmlNode where
  | mk (data : xmlNodeData) (children : List xmlNode)
  deriving Repr

/-- The copied fields of a node. -/
def xmlNode.data : xmlNode → xmlNodeData
  | .mk d _ => d

/-- The children of a node, in document order. -/
def xmlNode.children : xmlNode → List xmlNode
  | .mk _ cs => cs

/-- The type tag of a node (`n->type`). -/
def xmlNode.type (n : xmlNode) : xmlElementType := n.data.type

/-- A pointer to a node of the stylesheet document: the child indices from the
document node down to the node, innermost first.  `[]` is the document node. -/
abbrev xmlNodePtr := List Nat

/-- The node a stylesheet pointer designates, if it designates one. -/
def nodeAt (doc : xmlNode) : xmlNodePtr → Option xmlNode
  | [] => some doc
  | i :: p =>
    match nodeAt doc p with
    | some n => n.children[i]?
    | none => none

/-- Pointer `cur->next`: the following sibling, `none` when there is none. -/
def nextSibling (doc : xmlNode) : xmlNodePtr → Option xmlNodePtr
  | [] => none
  | i :: p =>
    match nodeAt doc ((i + 1) :: p) with
    | some _ => some ((i + 1) :: p)
    | none => none

/-! ## Output heap -/

/-- A cell of the output heap: the copied fields, the `parent` link and the
children in order. -/
structure outNode where
  data : xmlNodeData
  parent : Option Nat
  children : List Nat
  deriving DecidableEq, Repr

/-- The output heap; an output pointer is an index into it. -/
abbrev Heap := List outNode

/-- Replace the cell at index `i` by its image under `f`; an index outside the
heap leaves the heap unchanged. -/
def Heap.update : Heap → Nat → (outNode → outNode) → Heap
  | [], _, _ => []
  | c :: cs, 0, f => f c :: cs
  | c :: cs, i + 1, f => c :: Heap.update cs i f

/-- Conditions without a defined result, and exhaustion of the fuel. -/
inductive Fault where
  | segfault
  | uninitialized
  | outOfFuel
  deriving DecidableEq, Repr

/-- Outcome of a run: a value, or a fault. -/
inductive Result (α : Type) where
  | ok (a : α)
  | fault (f : Fault)
  deriving DecidableEq, Repr

/-- Which allocations of the run succeed. -/
structure Allocator where
  /-- `xmlMalloc` in `xsltNewTransformContext` succeeds. -/
  context : Bool
  /-- `xmlNewDoc` / `htmlNewDoc` succeed. -/
  document : Bool
  /-- `xmlCopyNode` succeeds on a node with these fields. -/
  copy : xmlNodeData → Bool

/-- Modelled from the spec: the tree library's shallow node copy
(`xmlCopyNode(node, 0)`, libxml2, not part of this repository).  The copy is a
fresh, unattached cell carrying the fields of `node`; `none` is the `NULL`
returned when the allocation fails. -/
def xmlCopyNode (mem : Allocator) (heap : Heap) (node : xmlNode) : Option (Nat × Heap) :=
  if mem.copy node.data then
    some (heap.length, heap ++ [{ data := node.data, parent := none, children := [] }])
  else none

/-- Modelled from the spec: the tree library's child attachment
(`xmlAddChild(parent, cur)`, libxml2, not part of this repository): `cur`
becomes the last child of `parent`; nothing happens when `parent` is `NULL`.
The merging of adjacent text nodes that the library may perform on attachment
is not modelled: every attached copy stays a cell of its own. -/
def xmlAddChild (heap : Heap) (parent : Option Nat) (cur : Nat) : Heap :=
  match parent with
  | none => heap
  | some p =>
    (heap.update p (fun c => { c with children := c.children ++ [cur] })).update cur
      (fun c => { c with parent := some p })

/-- Read `insert->parent`.  A `NULL` pointer (or one outside the heap) cannot be
dereferenced. -/
def derefParent (heap : Heap) (insert : Option Nat) : Result (Option Nat) :=
  match insert with
  | none => .fault .segfault
  | some p =>
    match heap[p]? with
    | some c => .ok c.parent
    | none => .fault .segfault

/-! ## Macros of transform.c -/

/-- Modelled from the spec: the instruction namespace `XSLT_NAMESPACE`
(declared in xslt.h, not part of the sources at hand). -/
def XSLT_NAMESPACE : String := "http://www.w3.org/1999/XSL/Transform"

/-- Macro `IS_XSLT_ELEM(n)`: `n->ns != NULL` and `n->ns->href` equals
`XSLT_NAMESPACE`. -/
def IS_XSLT_ELEM (n : xmlNode) : Bool :=
  match n.data.ns with
  | some href => href == XSLT_NAMESPACE
  | none => false

/-- Macro `IS_XSLT_NAME(n, val)`: `n->name` equals `val`. -/
def IS_XSLT_NAME (n : xmlNode) (val : String) : Bool := n.data.name == val

/-- Blank characters: space, tab, line feed, carriage return. -/
def IS_BLANK (c : Char) : Bool :=
  c.toNat == 0x20 || c.toNat == 0x9 || c.toNat == 0xA || c.toNat == 0xD

/-- Modelled from the spec: `xsltIsBlank` (defined outside transform.c): the
content consists solely of whitespace; a missing content counts as blank. -/
def xsltIsBlank (content : Option String) : Bool :=
  match content with
  | none => true
  | some s => s.data.all IS_BLANK

/-- Macro `IS_BLANK_NODE(n)`: a text node whose content is blank. -/
def IS_BLANK_NODE (n : xmlNode) : Bool :=
  n.type == XML_TEXT_NODE && xsltIsBlank n.data.content

/-- Modelled from the spec: attribute lookup of the tree library
(`xmlGetNsProp(node, name, nameSpace)`): the value of the attribute called
`name` in namespace `nameSpace`, `none` when the node has none. -/
def xmlGetNsProp (node : xmlNode) (name : String) (nameSpace : String) : Option String :=
  (node.data.properties.find? (fun a => a.name == name && a.ns == some nameSpace)).map
    (fun a => a.value)

/-! ## Private types of transform.c -/

/-- The kind of output (`xsltOutputType`). -/
inductive xsltOutputType where
  | XSLT_OUTPUT_XML
  | XSLT_OUTPUT_HTML
  | XSLT_OUTPUT_TEXT
  deriving DecidableEq, Repr

open xsltOutputType

/-- The integer value of an enumerator: `XSLT_OUTPUT_XML = 0`, then 1 and 2. -/
def xsltOutputType.toNat : xsltOutputType → Nat
  | XSLT_OUTPUT_XML => 0
  | XSLT_OUTPUT_HTML => 1
  | XSLT_OUTPUT_TEXT => 2

/-- A template of the stylesheet: its compiled match pattern, consumed as a
predicate on source nodes, and the `content` pointer into the stylesheet
document (`NULL` for an empty template). -/
structure xsltTemplate where
  pattern : xmlNode → Bool
  content : Option xmlNodePtr

/-- A parsed stylesheet: its document, its templates in decreasing order of
precedence, and the output settings. -/
structure xsltStylesheet where
  doc : xmlNode
  templates : List xsltTemplate
  method : Option String
  version : Option String
  encoding : Option String
  doctypePublic : Option String
  doctypeSystem : Option String

/-- Modelled from the spec: the template matcher `xsltGetTemplate` (pattern.c,
not part of the sources at hand): the best matching template of the
stylesheet for a source node, or no match. -/
def xsltGetTemplate (style : Option xsltStylesheet) (node : xmlNode) : Option xsltTemplate :=
  match style with
  | none => none
  | some s => s.templates.find? (fun t => t.pattern node)

/-- The transformation context (`struct _xsltTransformContext`). -/
structure xsltTransformContext where
  /-- The stylesheet used; `none` right after creation. -/
  style : Option xsltStylesheet
  /-- The type of output. -/
  type : xsltOutputType
  /-- The current node. -/
  node : Option xmlNode
  /-- The current node list. -/
  nodeList : Option (List xmlNode)
  /-- The resulting document (its document node in the heap). -/
  output : Option Nat
  /-- The insertion node. -/
  insert : Option Nat

/-! ## The built-in rule, the dispatcher and the template walker -/

/-- State threaded through the transformation: the context and the output
heap. -/
abbrev State := xsltTransformContext × Heap

/-- The body of the `while (node != NULL)` loop of `xsltDefaultProcessOneNode`
(the `switch` of transform.c:164-185) for one child `node`, `process` being
the call `xsltProcessOneNode(ctxt, node)`.  A blank text child leaves the
`switch`; any other text child falls through to the CDATA case. -/
def defaultBody (process : xsltTransformContext → xmlNode → Heap → Result State)
    (mem : Allocator) (node : xmlNode) (ctxt : xsltTransformContext) (heap : Heap) :
    Result State :=
  match node.type with
  | XML_DOCUMENT_NODE | XML_HTML_DOCUMENT_NODE | XML_ELEMENT_NODE => process ctxt node heap
  | XML_TEXT_NODE =>
    if IS_BLANK_NODE node then .ok (ctxt, heap)
    else
      match xmlCopyNode mem heap node with
      | some (copy, heap1) => .ok (ctxt, xmlAddChild heap1 ctxt.insert copy)
      | none => .ok (ctxt, heap)
  | XML_CDATA_SECTION_NODE =>
    match xmlCopyNode mem heap node with
    | some (copy, heap1) => .ok (ctxt, xmlAddChild heap1 ctxt.insert copy)
    | none => .ok (ctxt, heap)
  | _ => .ok (ctxt, heap)

/-- The `while (node != NULL)` loop of `xsltDefaultProcessOneNode` over the
children of the node, in document order (`node = node->next`). -/
def defaultLoop (process : xsltTransformContext → xmlNode → Heap → Result State)
    (mem : Allocator) : List xmlNode → xsltTransformContext → Heap → Result State
  | [], ctxt, heap => .ok (ctxt, heap)
  | node :: rest, ctxt, heap =>
    match defaultBody process mem node ctxt heap with
    | .ok (ctxt1, heap1) => defaultLoop process mem rest ctxt1 heap1
    | .fault f => .fault f

/-- The `do ... while (cur != NULL)` loop at the end of the walker's loop body:
climb from `cur`, moving `insert` to its parent at each level, until the
document is left, `template->content` is reached or a following sibling is
found.  Returns the new `cur` and `insert`. -/
def ascend (doc : xmlNode) (content : Option xmlNodePtr) (heap : Heap) :
    xmlNodePtr → Option Nat → Result (Option xmlNodePtr × Option Nat)
  | [], insert =>
    match derefParent heap insert with
    | .ok up => .ok (none, up)
    | .fault f => .fault f
  | _ :: p, insert =>
    match derefParent heap insert with
    | .ok up =>
      if some p = content then .ok (none, up)
      else
        match nextSibling doc p with
        | some nx => .ok (some nx, up)
        | none => ascend doc content heap p up
    | .fault f => .fault f

/-- The "skip to next node" part of the walker's loop body (transform.c:281-306):
descend to the first child unless it is an entity declaration, else move to the
following sibling, else climb.  `copy` is the local variable of that name,
`none` while it has never been assigned. -/
def skipToNext (doc : xmlNode) (content : Option xmlNodePtr) (heap : Heap)
    (cur : xmlNodePtr) (curNode : xmlNode) (insert copy : Option Nat) :
    Result (Option xmlNodePtr × Option Nat) :=
  match curNode.children with
  | child :: _ =>
    if child.type ≠ XML_ENTITY_DECL then
      match copy with
      | some c => .ok (some (0 :: cur), some c)
      | none => .fault .uninitialized
    else
      match nextSibling doc cur with
      | some nx => .ok (some nx, insert)
      | none => ascend doc content heap cur insert
  | [] =>
    match nextSibling doc cur with
    | some nx => .ok (some nx, insert)
    | none => ascend doc content heap cur insert

/-- The first part of the walker's loop body (transform.c:251-276) for the
template node `curNode`: dispatch an `apply-templates` instruction, report any
other instruction, skip a blank text node, copy anything else under `insert`.
`apply` is the call `xsltApplyTemplates(ctxt, node, cur)`.  The value is `none`
when the function returns because the copy failed, else the local `copy`, the
context and the heap. -/
def processCur (apply : xsltTransformContext → xmlNode → Heap → Result State)
    (mem : Allocator) (oldInsert : Option Nat) (curNode : xmlNode) (insert copy : Option Nat)
    (ctxt : xsltTransformContext) (heap : Heap) :
    Result (Option (Option Nat × xsltTransformContext × Heap)) :=
  if IS_XSLT_ELEM curNode then
    if IS_XSLT_NAME curNode "apply-templates" then
      match apply { ctxt with insert := insert } curNode heap with
      | .ok (ctxt1, heap1) => .ok (some (copy, { ctxt1 with insert := oldInsert }, heap1))
      | .fault f => .fault f
    else .ok (some (copy, ctxt, heap))
  else if !(IS_BLANK_NODE curNode) then
    match xmlCopyNode mem heap curNode with
    | some (c, heap1) => .ok (some (some c, ctxt, xmlAddChild heap1 insert c))
    | none => .ok none
  else .ok (some (copy, ctxt, heap))

/-- What one run of the walker's loop yields: the state, and the pairs
`(cur, insert)` seen at the start of each iteration, in order. -/
structure WalkResult where
  ctxt : xsltTransformContext
  heap : Heap
  visited : List (xmlNodePtr × Option Nat)

/-- The `while (cur != NULL)` loop of `xsltProcessOneNode` (transform.c:250-307).
`apply` is the call `xsltApplyTemplates(ctxt, node, cur)`; `doc` is the
stylesheet document, `content` is `template->content`.  The first argument
bounds the number of iterations. -/
def walkLoop (apply : xsltTransformContext → xmlNode → Heap → Result State)
    (mem : Allocator) (doc : xmlNode) (content : Option xmlNodePtr) (oldInsert : Option Nat) :
    Nat → Option xmlNodePtr → Option Nat → Option Nat → xsltTransformContext → Heap →
    List (xmlNodePtr × Option Nat) → Result WalkResult
  | _, none, _, _, ctxt, heap, seen => .ok { ctxt := ctxt, heap := heap, visited := seen }
  | 0, some _, _, _, _, _, _ => .fault .outOfFuel
  | fuel + 1, some cur, insert, copy, ctxt, heap, seen =>
    match nodeAt doc cur with
    | none => .fault .segfault
    | some curNode =>
      match processCur apply mem oldInsert curNode insert copy ctxt heap with
      | .fault f => .fault f
      | .ok none => .ok { ctxt := ctxt, heap := heap, visited := seen ++ [(cur, insert)] }
      | .ok (some (copy1, ctxt1, heap1)) =>
        match skipToNext doc content heap1 cur curNode insert copy1 with
        | .ok (cur1, insert1) =>
          walkLoop apply mem doc content oldInsert fuel cur1 insert1 copy1 ctxt1 heap1
            (seen ++ [(cur, insert)])
        | .fault f => .fault f

/-- The stylesheet document the walker moves in; the walker is only entered
with a stylesheet in the context. -/
def styleDoc (ctxt : xsltTransformContext) : xmlNode :=
  match ctxt.style with
  | some s => s.doc
  | none => .mk { type := XML_DOCUMENT_NODE, name := "", ns := none, content := none,
                  properties := [] } []

mutual

/-- Function `xsltDefaultProcessOneNode` (transform.c:151-188): process the
source node with the built-in template rule. -/
def xsltDefaultProcessOneNode : Nat → Allocator → xsltTransformContext → xmlNode → Heap →
    Result State
  | 0, _, _, _, _ => .fault .outOfFuel
  | fuel + 1, mem, ctxt, node, heap =>
    match node.type with
    | XML_DOCUMENT_NODE | XML_HTML_DOCUMENT_NODE | XML_ELEMENT_NODE =>
      defaultLoop (xsltProcessOneNode fuel mem) mem node.children ctxt heap
    | _ => .ok (ctxt, heap)

/-- Function `xsltApplyTemplates` (transform.c:198-216): process the
apply-templates node `inst` on the source node. -/
def xsltApplyTemplates : Nat → Allocator → Option xsltTransformContext → Option xmlNode →
    Option xmlNode → Heap → Result (Option xsltTransformContext × Heap)
  | 0, _, _, _, _, _ => .fault .outOfFuel
  | fuel + 1, mem, ctxt, node, inst, heap =>
    match ctxt, node, inst with
    | some c, some n, some i =>
      match xmlGetNsProp i "select" XSLT_NAMESPACE with
      | some _ => .ok (some c, heap)
      | none =>
        match xsltDefaultProcessOneNode fuel mem c n heap with
        | .ok (c1, heap1) => .ok (some c1, heap1)
        | .fault f => .fault f
    | _, _, _ => .ok (ctxt, heap)

/-- Function `xsltProcessOneNode` (transform.c:225-308): process the source
node. -/
def xsltProcessOneNode : Nat → Allocator → xsltTransformContext → xmlNode → Heap →
    Result State
  | 0, _, _, _, _ => .fault .outOfFuel
  | fuel + 1, mem, ctxt, node, heap =>
    match xsltGetTemplate ctxt.style node with
    | none => xsltDefaultProcessOneNode fuel mem ctxt node heap
    | some template =>
      match walkLoop
          (fun c inst h =>
            match xsltApplyTemplates fuel mem (some c) (some node) (some inst) h with
            | .ok (c1, h1) => .ok (c1.getD c, h1)
            | .fault f => .fault f)
          mem (styleDoc ctxt) template.content ctxt.insert
          fuel template.content ctxt.insert none ctxt heap [] with
      | .ok r => .ok (r.ctxt, r.heap)
      | .fault f => .fault f

end

/-! ## The run driver -/

/-- An internal subset declaration: the name it declares and the public and
system identifiers. -/
structure xmlDtd where
  name : String
  ExternalID : Option String
  SystemID : Option String
  deriving DecidableEq, Repr

/-- Character encodings known to the tree library (only the one the driver
sets is needed). -/
inductive xmlCharEncoding where
  | XML_CHAR_ENCODING_NONE
  | XML_CHAR_ENCODING_UTF8
  deriving DecidableEq, Repr

/-- An output document: the flavour of its document node, the declared version,
the identifiers an HTML shell was seeded with (in argument order), the
character set and encoding, the internal subset and the node heap, whose cell 0
is the document node itself. -/
structure xmlDoc where
  type : xmlElementType
  version : Option String
  seed : Option (Option String × Option String)
  charset : xmlCharEncoding
  encoding : Option String
  intSubset : Option xmlDtd
  nodes : Heap
  deriving DecidableEq, Repr

/-- The heap cell of a fresh document node. -/
def docCell (type : xmlElementType) : outNode :=
  { data := { type := type, name := "", ns := none, content := none, properties := [] },
    parent := none, children := [] }

/-- Modelled from the spec: `xmlNewDoc(version)` of the tree library: a new
XML-flavoured document with the given version, `none` when the allocation
fails. -/
def xmlNewDoc (mem : Allocator) (version : Option String) : Option xmlDoc :=
  if mem.document then
    some { type := XML_DOCUMENT_NODE, version := version, seed := none,
           charset := .XML_CHAR_ENCODING_NONE, encoding := none, intSubset := none,
           nodes := [docCell XML_DOCUMENT_NODE] }
  else none

/-- Modelled from the spec: `htmlNewDoc(a, b)` of the tree library: a new
HTML-flavoured document seeded with the two doctype identifiers, `none` when
the allocation fails. -/
def htmlNewDoc (mem : Allocator) (a b : Option String) : Option xmlDoc :=
  if mem.document then
    some { type := XML_HTML_DOCUMENT_NODE, version := none, seed := some (a, b),
           charset := .XML_CHAR_ENCODING_NONE, encoding := none, intSubset := none,
           nodes := [docCell XML_HTML_DOCUMENT_NODE] }
  else none

/-- Modelled from the spec: `xmlStrEqual` of the tree library: equality of two
strings, either of which may be `NULL`. -/
def xmlStrEqual (a b : Option String) : Bool := a == b

/-- Modelled from the spec: `xmlDocGetRootElement` of the tree library on a
source document: its first child that is an element. -/
def xmlDocGetRootElement (doc : xmlNode) : Option xmlNode :=
  doc.children.find? (fun n => n.type == XML_ELEMENT_NODE)

/-- Modelled from the spec: `xmlDocGetRootElement` on an output document: the
first child of the document node that is an element. -/
def outDocGetRootElement (heap : Heap) : Option outNode :=
  match heap[0]? with
  | none => none
  | some d => (d.children.filterMap (fun i => heap[i]?)).find?
      (fun c => c.data.type == XML_ELEMENT_NODE)

/-- Modelled from the spec: `xmlCreateIntSubset(doc, name, ExternalID, SystemID)`
of the tree library: the internal subset declaration with that name and those
identifiers. -/
def xmlCreateIntSubset (name : String) (ExternalID SystemID : Option String) : xmlDtd :=
  { name := name, ExternalID := ExternalID, SystemID := SystemID }

/-- Function `xsltNewTransformContext` (transform.c:105-117): a zeroed context,
`none` when the allocation fails. -/
def xsltNewTransformContext (mem : Allocator) : Option xsltTransformContext :=
  if mem.context then
    some { style := none, type := XSLT_OUTPUT_XML, node := none, nodeList := none,
           output := none, insert := none }
  else none

/-- The choice of the output document in `xsltApplyStylesheet`
(transform.c:332-354): the context with its output type set and the new
document, or `none` where the code jumps to `error`. -/
def outputShell (mem : Allocator) (style : xsltStylesheet) (ctxt : xsltTransformContext) :
    Option (xsltTransformContext × xmlDoc) :=
  if style.method ≠ none && !(xmlStrEqual style.method (some "xml")) then
    if xmlStrEqual style.method (some "html") then
      match htmlNewDoc mem style.doctypePublic style.doctypeSystem with
      | some res => some ({ ctxt with type := XSLT_OUTPUT_HTML }, res)
      | none => none
    else if xmlStrEqual style.method (some "text") then
      none
    else
      none
  else
    match xmlNewDoc mem style.version with
    | some res => some ({ ctxt with type := XSLT_OUTPUT_XML }, res)
    | none => none

/-- The doctype step of `xsltApplyStylesheet` (transform.c:375-382).  The
condition assigns `XSLT_OUTPUT_XML` to `ctxt->type` and tests the assigned
value. -/
def finalize (style : xsltStylesheet) (ctxt : xsltTransformContext) (res : xmlDoc) :
    xsltTransformContext × xmlDoc :=
  let ctxt1 := { ctxt with type := XSLT_OUTPUT_XML }
  if ctxt1.type.toNat ≠ 0 && (style.doctypePublic ≠ none || style.doctypeSystem ≠ none) then
    match outDocGetRootElement res.nodes with
    | some root =>
      let dtd := xmlCreateIntSubset root.data.name style.doctypePublic style.doctypeSystem
      (ctxt1, { res with intSubset := some dtd })
    | none => (ctxt1, res)
  else (ctxt1, res)

/-- Function `xsltApplyStylesheet` (transform.c:320-393): apply the stylesheet
to the document.  The value is the returned document, `none` for `NULL`. -/
def xsltApplyStylesheet (fuel : Nat) (mem : Allocator) (style : Option xsltStylesheet)
    (doc : Option xmlNode) : Result (Option xmlDoc) :=
  match style, doc with
  | some style, some doc =>
    match xsltNewTransformContext mem with
    | none => .ok none
    | some ctxt0 =>
      match outputShell mem style { ctxt0 with style := some style } with
      | none => .ok none
      | some (ctxt1, res0) =>
        let res1 := { res0 with
          charset := xmlCharEncoding.XML_CHAR_ENCODING_UTF8,
          encoding := if style.encoding ≠ none then style.encoding else res0.encoding }
        match xmlDocGetRootElement doc with
        | none => .ok none
        | some root =>
          let ctxt2 := { ctxt1 with output := some 0, insert := some 0, node := some root,
                                    nodeList := some [root] }
          match xsltProcessOneNode fuel mem ctxt2 root res1.nodes with
          | .fault f => .fault f
          | .ok (ctxt3, heap) => .ok (some (finalize style ctxt3 { res1 with nodes := heap }).2)
  | _, _ => .ok none

/-- The state in which `xsltApplyStylesheet` calls `xsltProcessOneNode`
(transform.c:327-371): the context it has seeded, the root element of the
source document and the new output document; `none` where the code jumps to
`error`. -/
def driverStart (mem : Allocator) (style : xsltStylesheet) (doc : xmlNode) :
    Option (xsltTransformContext × xmlNode × xmlDoc) :=
  match xsltNewTransformContext mem with
  | none => none
  | some ctxt0 =>
    match outputShell mem style { ctxt0 with style := some style } with
    | none => none
    | some (ctxt1, res0) =>
      let res1 := { res0 with
        charset := xmlCharEncoding.XML_CHAR_ENCODING_UTF8,
        encoding := if style.encoding ≠ none then style.encoding else res0.encoding }
      match xmlDocGetRootElement doc with
      | none => none
      | some root =>
        some ({ ctxt1 with output := some 0, insert := some 0, node := some root,
                           nodeList := some [root] }, root, res1)

/-! ## The contexts in flight

The `node` field of the context is read by none of the three processing
functions, so no result of theirs depends on it.  To observe it while a node
is being processed, the functions are given a record: the same code, which in
addition lists the context at each entry of a function and at each iteration
of a loop. -/

/-- The places of the processing functions at which the context in flight is
recorded. -/
inductive Site where
  /-- Entry of `xsltProcessOneNode`. -/
  | processEntry
  /-- Start of an iteration of the walker's loop in `xsltProcessOneNode`. -/
  | walkIteration
  /-- Entry of `xsltApplyTemplates`, past the `NULL` tests. -/
  | applyEntry
  /-- Entry of `xsltDefaultProcessOneNode`. -/
  | defaultEntry
  /-- Start of an iteration of the loop of `xsltDefaultProcessOneNode`. -/
  | defaultIteration
  deriving DecidableEq, Repr

/-- One recorded moment of a run: the place, the context as it is at that
moment, and the source node the function or the iteration is processing. -/
structure Event where
  site : Site
  ctxt : xsltTransformContext
  node : xmlNode

/-- The body of the loop of `xsltDefaultProcessOneNode` (`defaultBody`) with
the record of the call it makes. -/
def defaultBodyLog
    (process : xsltTransformContext → xmlNode → Heap → List Event × Result State)
    (mem : Allocator) (node : xmlNode) (ctxt : xsltTransformContext) (heap : Heap) :
    List Event × Result State :=
  match node.type with
  | XML_DOCUMENT_NODE | XML_HTML_DOCUMENT_NODE | XML_ELEMENT_NODE => process ctxt node heap
  | XML_TEXT_NODE =>
    if IS_BLANK_NODE node then ([], .ok (ctxt, heap))
    else
      match xmlCopyNode mem heap node with
      | some (copy, heap1) => ([], .ok (ctxt, xmlAddChild heap1 ctxt.insert copy))
      | none => ([], .ok (ctxt, heap))
  | XML_CDATA_SECTION_NODE =>
    match xmlCopyNode mem heap node with
    | some (copy, heap1) => ([], .ok (ctxt, xmlAddChild heap1 ctxt.insert copy))
    | none => ([], .ok (ctxt, heap))
  | _ => ([], .ok (ctxt, heap))

/-- The loop of `xsltDefaultProcessOneNode` (`defaultLoop`) with the record of
the context at the start of each iteration and of the calls made. -/
def defaultLoopLog
    (process : xsltTransformContext → xmlNode → Heap → List Event × Result State)
    (mem : Allocator) : List xmlNode → xsltTransformContext → Heap → List Event × Result State
  | [], ctxt, heap => ([], .ok (ctxt, heap))
  | node :: rest, ctxt, heap =>
    match defaultBodyLog process mem node ctxt heap with
    | (log, .ok (ctxt1, heap1)) =>
      let r := defaultLoopLog process mem rest ctxt1 heap1
      ({ site := .defaultIteration, ctxt := ctxt, node := node } :: (log ++ r.1), r.2)
    | (log, .fault f) =>
      ({ site := .defaultIteration, ctxt := ctxt, node := node } :: log, .fault f)

/-- The first part of the walker's loop body (`processCur`) with the record of
the call it makes. -/
def processCurLog
    (apply : xsltTransformContext → xmlNode → Heap → List Event × Result State)
    (mem : Allocator) (oldInsert : Option Nat) (curNode : xmlNode) (insert copy : Option Nat)
    (ctxt : xsltTransformContext) (heap : Heap) :
    List Event × Result (Option (Option Nat × xsltTransformContext × Heap)) :=
  if IS_XSLT_ELEM curNode then
    if IS_XSLT_NAME curNode "apply-templates" then
      match apply { ctxt with insert := insert } curNode heap with
      | (log, .ok (ctxt1, heap1)) =>
        (log, .ok (some (copy, { ctxt1 with insert := oldInsert }, heap1)))
      | (log, .fault f) => (log, .fault f)
    else ([], .ok (some (copy, ctxt, heap)))
  else if !(IS_BLANK_NODE curNode) then
    match xmlCopyNode mem heap curNode with
    | some (c, heap1) => ([], .ok (some (some c, ctxt, xmlAddChild heap1 insert c)))
    | none => ([], .ok none)
  else ([], .ok (some (copy, ctxt, heap)))

/-- The walker's loop (`walkLoop`) for the source node `node`, with the record
of the context at the start of each iteration and of the calls made. -/
def walkLoopLog
    (apply : xsltTransformContext → xmlNode → Heap → List Event × Result State)
    (mem : Allocator) (doc : xmlNode) (content : Option xmlNodePtr) (oldInsert : Option Nat)
    (node : xmlNode) :
    Nat → Option xmlNodePtr → Option Nat → Option Nat → xsltTransformContext → Heap →
    List Event × Result State
  | _, none, _, _, ctxt, heap => ([], .ok (ctxt, heap))
  | 0, some _, _, _, _, _ => ([], .fault .outOfFuel)
  | fuel + 1, some cur, insert, copy, ctxt, heap =>
    match nodeAt doc cur with
    | none => ([{ site := .walkIteration, ctxt := ctxt, node := node }], .fault .segfault)
    | some curNode =>
      match processCurLog apply mem oldInsert curNode insert copy ctxt heap with
      | (log, .fault f) => ({ site := .walkIteration, ctxt := ctxt, node := node } :: log, .fault f)
      | (log, .ok none) =>
        ({ site := .walkIteration, ctxt := ctxt, node := node } :: log, .ok (ctxt, heap))
      | (log, .ok (some (copy1, ctxt1, heap1))) =>
        match skipToNext doc content heap1 cur curNode insert copy1 with
        | .ok (cur1, insert1) =>
          let r := walkLoopLog apply mem doc content oldInsert node fuel cur1 insert1 copy1
            ctxt1 heap1
          ({ site := .walkIteration, ctxt := ctxt, node := node } :: (log ++ r.1), r.2)
        | .fault f =>
          ({ site := .walkIteration, ctxt := ctxt, node := node } :: log, .fault f)

mutual

/-- Function `xsltDefaultProcessOneNode` (transform.c:151-188) with the record
of the contexts in flight. -/
def xsltDefaultProcessOneNodeLog : Nat → Allocator → xsltTransformContext → xmlNode → Heap →
    List Event × Result State
  | 0, _, _, _, _ => ([], .fault .outOfFuel)
  | fuel + 1, mem, ctxt, node, heap =>
    match node.type with
    | XML_DOCUMENT_NODE | XML_HTML_DOCUMENT_NODE | XML_ELEMENT_NODE =>
      let r := defaultLoopLog (xsltProcessOneNodeLog fuel mem) mem node.children ctxt heap
      ({ site := .defaultEntry, ctxt := ctxt, node := node } :: r.1, r.2)
    | _ => ([{ site := .defaultEntry, ctxt := ctxt, node := node }], .ok (ctxt, heap))

/-- Function `xsltApplyTemplates` (transform.c:198-216) with the record of the
contexts in flight. -/
def xsltApplyTemplatesLog : Nat → Allocator → Option xsltTransformContext → Option xmlNode →
    Option xmlNode → Heap → List Event × Result (Option xsltTransformContext × Heap)
  | 0, _, _, _, _, _ => ([], .fault .outOfFuel)
  | fuel + 1, mem, ctxt, node, inst, heap =>
    match ctxt, node, inst with
    | some c, some n, some i =>
      match xmlGetNsProp i "select" XSLT_NAMESPACE with
      | some _ => ([{ site := .applyEntry, ctxt := c, node := n }], .ok (some c, heap))
      | none =>
        match xsltDefaultProcessOneNodeLog fuel mem c n heap with
        | (log, .ok (c1, heap1)) =>
          ({ site := .applyEntry, ctxt := c, node := n } :: log, .ok (some c1, heap1))
        | (log, .fault f) => ({ site := .applyEntry, ctxt := c, node := n } :: log, .fault f)
    | _, _, _ => ([], .ok (ctxt, heap))

/-- Function `xsltProcessOneNode` (transform.c:225-308) with the record of the
contexts in flight. -/
def xsltProcessOneNodeLog : Nat → Allocator → xsltTransformContext → xmlNode → Heap →
    List Event × Result State
  | 0, _, _, _, _ => ([], .fault .outOfFuel)
  | fuel + 1, mem, ctxt, node, heap =>
    match xsltGetTemplate ctxt.style node with
    | none =>
      let r := xsltDefaultProcessOneNodeLog fuel mem ctxt node heap
      ({ site := .processEntry, ctxt := ctxt, node := node } :: r.1, r.2)
    | some template =>
      let r := walkLoopLog
        (fun c inst h =>
          match xsltApplyTemplatesLog fuel mem (some c) (some node) (some inst) h with
          | (log, .ok (c1, h1)) => (log, .ok (c1.getD c, h1))
          | (log, .fault f) => (log, .fault f))
        mem (styleDoc ctxt) template.content ctxt.insert node
        fuel template.content ctxt.insert none ctxt heap
      ({ site := .processEntry, ctxt := ctxt, node := node } :: r.1, r.2)

end

/-! ## Node constructors -/

/-- A literal element without namespace. -/
def elem (name : String) (cs : List xmlNode) : xmlNode :=
  .mk { type := XML_ELEMENT_NODE, name := name, ns := none, content := none, properties := [] } cs

/-- An element of the instruction namespace. -/
def instr (name : String) (cs : List xmlNode) : xmlNode :=
  .mk { type := XML_ELEMENT_NODE, name := name, ns := some XSLT_NAMESPACE, content := none,
        properties := [] } cs

/-- A text node. -/
def text (s : String) : xmlNode :=
  .mk { type := XML_TEXT_NODE, name := "text", ns := none, content := some s, properties := [] } []

/-- A CDATA section. -/
def cdata (s : String) : xmlNode :=
  .mk { type := XML_CDATA_SECTION_NODE, name := "", ns := none, content := some s,
        properties := [] } []

/-- A document node. -/
def document (cs : List xmlNode) : xmlNode :=
  .mk { type := XML_DOCUMENT_NODE, name := "", ns := none, content := none, properties := [] } cs

/-- The cell of a copy. -/
def cell (type : xmlElementType) (name : String) (content : Option String)
    (parent : Option Nat) (children : List Nat) : outNode :=
  { data := { type := type, name := name, ns := none, content := content, properties := [] },
    parent := parent, children := children }

/-! ## Specification vocabulary -/

/-- A cell that is not a whitespace-only text node. -/
def NonBlank (d : xmlNodeData) : Prop := ¬ (d.type = XML_TEXT_NODE ∧ xsltIsBlank d.content = true)

/-- Heap `h2` extends heap `h1`: every old cell is still there with the same
fields and the same parent, and no new cell is a whitespace-only text node. -/
def Heap.Extends (h1 h2 : Heap) : Prop :=
  h1.length ≤ h2.length ∧
  (∀ (i : Nat) (c : outNode), h1[i]? = some c →
    ∃ c2 : outNode, h2[i]? = some c2 ∧ c2.data = c.data ∧ c2.parent = c.parent) ∧
  (∀ (i : Nat) (c2 : outNode), h1.length ≤ i → h2[i]? = some c2 → NonBlank c2.data)

mutual
/-- Number of levels of a tree: 1 for a node without children. -/
def xmlNode.height : xmlNode → Nat
  | .mk _ cs => heightList cs + 1
/-- The largest height among a list of trees, 0 for the empty list. -/
def heightList : List xmlNode → Nat
  | [] => 0
  | c :: cs => max c.height (heightList cs)
end

mutual
/-- The node and all its descendants, in document order. -/
def xmlNode.subtree : xmlNode → List xmlNode
  | .mk d cs => .mk d cs :: subtreeList cs
/-- The nodes of a list of trees, in document order. -/
def subtreeList : List xmlNode → List xmlNode
  | [] => []
  | c :: cs => c.subtree ++ subtreeList cs
end

mutual
/-- Reference for the built-in rule, following the specification: over the
children of the node in document order, a shallow copy of each non-blank text
child and of each CDATA child, the result for each element or document child,
nothing for any other child; nothing at all when the node is not a document,
an HTML document or an element.  The value is the sequence of copies to append
to the insertion point. -/
def defaultReference : xmlNode → List xmlNodeData
  | .mk d cs =>
    if d.type = XML_DOCUMENT_NODE ∨ d.type = XML_HTML_DOCUMENT_NODE ∨ d.type = XML_ELEMENT_NODE
    then defaultReferenceList cs else []
/-- The reference for the built-in rule over a list of children. -/
def defaultReferenceList : List xmlNode → List xmlNodeData
  | [] => []
  | c :: cs =>
    (if c.type = XML_TEXT_NODE then (if xsltIsBlank c.data.content then [] else [c.data])
     else if c.type = XML_CDATA_SECTION_NODE then [c.data]
     else defaultReference c) ++ defaultReferenceList cs
end

/-- The heap after fresh cells with the given fields have been appended, one
after the other, as last children of the insertion point. -/
def appendNodes : Heap → Option Nat → List xmlNodeData → Heap
  | heap, _, [] => heap
  | heap, insert, d :: ds =>
    appendNodes
      (xmlAddChild (heap ++ [{ data := d, parent := none, children := [] }]) insert heap.length)
      insert ds

/-- The heap of a document whose document node carries the given fields as
children, in order, each a childless cell. -/
def flatDocument (type : xmlElementType) (ds : List xmlNodeData) : Heap :=
  { docCell type with children := List.range' 1 ds.length }
    :: ds.map (fun d => { data := d, parent := some 0, children := [] })

/-- The conditions under which the run driver goes on to process the source:
both arguments are present, the output method is absent, "xml" or "html", and
the source document has a root element. -/
def Runnable (style : Option xsltStylesheet) (doc : Option xmlNode) : Prop :=
  ∃ s d, style = some s ∧ doc = some d ∧
    (s.method = none ∨ s.method = some "xml" ∨ s.method = some "html") ∧
    (xmlDocGetRootElement d).isSome = true

/-- The walker's loop as `xsltProcessOneNode` runs it for the template found:
`cur` starts at `template->content`, `insert` and `oldInsert` at `ctxt->insert`,
`copy` is unassigned. -/
def templateWalk (fuel : Nat) (mem : Allocator) (ctxt : xsltTransformContext) (node : xmlNode)
    (heap : Heap) (template : xsltTemplate) : Result WalkResult :=
  walkLoop
    (fun c inst h =>
      match xsltApplyTemplates fuel mem (some c) (some node) (some inst) h with
      | .ok (c1, h1) => .ok (c1.getD c, h1)
      | .fault f => .fault f)
    mem (styleDoc ctxt) template.content ctxt.insert
    fuel template.content ctxt.insert none ctxt heap []

mutual
/-- The pointers to the nodes of the tree `n` located at `p`, in document
order (pre-order). -/
def preorderPtrs (p : xmlNodePtr) : xmlNode → List xmlNodePtr
  | .mk _ cs => p :: preorderPtrsList p 0 cs
/-- The pointers to the nodes of the trees `cs`, the children of the node at
`p` from index `i` on, in document order. -/
def preorderPtrsList (p : xmlNodePtr) (i : Nat) : List xmlNode → List xmlNodePtr
  | [] => []
  | c :: cs => preorderPtrs (i :: p) c ++ preorderPtrsList p (i + 1) cs
end

/-- The pointers to the nodes of the content subtree of a template, in document
order; empty when the content pointer is `NULL` or designates nothing. -/
def contentPtrs (doc : xmlNode) (content : Option xmlNodePtr) : List xmlNodePtr :=
  match content with
  | none => []
  | some p =>
    match nodeAt doc p with
    | some n => preorderPtrs p n
    | none => []

/-- The walker descends from a node: `cur->children != NULL` and the first
child is not an entity declaration. -/
def descends (n : xmlNode) : Bool :=
  match n.children with
  | child :: _ => child.type != XML_ENTITY_DECL
  | [] => false

/-- The step taken from a node that is not descended from: to the following
sibling when there is one, else the climb. -/
def stepOver (doc : xmlNode) (content : Option xmlNodePtr) (heap : Heap) (cur : xmlNodePtr)
    (insert : Option Nat) : Result (Option xmlNodePtr × Option Nat) :=
  match nextSibling doc cur with
  | some nx => .ok (some nx, insert)
  | none => ascend doc content heap cur insert

mutual
/-- Reference for the walker, following section 4.2 of the specification as a
recursive pre-order descent over a template node: an `apply-templates`
instruction is dispatched with the insertion point bound to the enclosing
output parent `insert` and the prior insertion point restored afterwards; any
other instruction and a blank text node produce nothing and their children are
skipped; any other node is copied under `insert` and its children, when the
first is not an entity declaration, are mirrored under the copy.  Copies are
taken to succeed. -/
def mirrorNode (apply : xsltTransformContext → xmlNode → Heap → Result State)
    (oldInsert : Option Nat) : xmlNode → Option Nat → xsltTransformContext → Heap → Result State
  | .mk d cs, insert, ctxt, heap =>
    if IS_XSLT_ELEM (.mk d cs) then
      if IS_XSLT_NAME (.mk d cs) "apply-templates" then
        match apply { ctxt with insert := insert } (.mk d cs) heap with
        | .ok (ctxt1, heap1) => .ok ({ ctxt1 with insert := oldInsert }, heap1)
        | .fault f => .fault f
      else .ok (ctxt, heap)
    else if IS_BLANK_NODE (.mk d cs) then .ok (ctxt, heap)
    else if descends (.mk d cs) then
      mirrorList apply oldInsert cs (some heap.length) ctxt
        (xmlAddChild (heap ++ [{ data := d, parent := none, children := [] }]) insert heap.length)
    else
      .ok (ctxt,
        xmlAddChild (heap ++ [{ data := d, parent := none, children := [] }]) insert heap.length)
/-- The reference for the walker over a list of sibling template nodes, all
mirrored under the same output parent, in document order. -/
def mirrorList (apply : xsltTransformContext → xmlNode → Heap → Result State)
    (oldInsert : Option Nat) : List xmlNode → Option Nat → xsltTransformContext → Heap →
    Result State
  | [], _, ctxt, heap => .ok (ctxt, heap)
  | c :: cs, insert, ctxt, heap =>
    match mirrorNode apply oldInsert c insert ctxt heap with
    | .ok (ctxt1, heap1) => mirrorList apply oldInsert cs insert ctxt1 heap1
    | .fault f => .fault f
end

mutual
/-- A template tree in which every node for which the walker makes no copy (an
instruction, a blank text node) is not descended from; below a copied node
that is not descended from nothing is required. -/
def walkable : xmlNode → Bool
  | .mk d cs =>
    if IS_XSLT_ELEM (.mk d cs) || IS_BLANK_NODE (.mk d cs) then !descends (.mk d cs)
    else !descends (.mk d cs) || walkableList cs
/-- All trees of the list are walkable. -/
def walkableList : List xmlNode → Bool
  | [] => true
  | c :: cs => walkable c && walkableList cs
end

mutual
/-- The number of iterations the walker spends on a walkable tree. -/
def visits : xmlNode → Nat
  | .mk d cs =>
    if IS_XSLT_ELEM (.mk d cs) || IS_BLANK_NODE (.mk d cs) || !descends (.mk d cs) then 1
    else visitsList cs + 1
/-- The number of iterations the walker spends on a list of walkable trees. -/
def visitsList : List xmlNode → Nat
  | [] => 0
  | c :: cs => visits c + visitsList cs
end

/-- The state a run of the walker's loop ends in, without the trace. -/
def walkState (r : Result WalkResult) : Result State :=
  match r with
  | .ok w => .ok (w.ctxt, w.heap)
  | .fault f => .fault f

/-- What the walker does on the template node `t` located at `cur`, strictly
below the content root `c0`: started there with enough fuel, it reaches the
state in which the reference has mirrored `t` under the insertion cursor and
the walk has stepped over `t`, and goes on from that state (whatever the value
of the local `copy` and of the trace); a fault of the reference or of the step
is the outcome of the walk. -/
def WalkNodeSpec (apply : xsltTransformContext → xmlNode → Heap → Result State)
    (mem : Allocator) (doc : xmlNode) (c0 : xmlNodePtr) (oldInsert : Option Nat)
    (t : xmlNode) : Prop :=
  ∀ (cur : xmlNodePtr) (F : Nat) (I cp : Option Nat) (ctxt : xsltTransformContext)
    (heap : Heap) (seen : List (xmlNodePtr × Option Nat)) (R : Result State),
    nodeAt doc cur = some t → c0.length < cur.length →
    (match mirrorNode apply oldInsert t I ctxt heap with
      | .fault f => R = .fault f
      | .ok (ctxt1, heap1) =>
        match stepOver doc (some c0) heap1 cur I with
        | .fault f => R = .fault f
        | .ok (cur1, ins1) => ∀ cp1 seen1,
            walkState (walkLoop apply mem doc (some c0) oldInsert F cur1 ins1 cp1 ctxt1 heap1
              seen1) = R) →
    walkState (walkLoop apply mem doc (some c0) oldInsert (visits t + F) (some cur) I cp ctxt
      heap seen) = R

/-- The call `xsltApplyTemplates(ctxt, node, cur)` made by the walker, as a
function of the context, the instruction and the heap. -/
def dispatch (fuel : Nat) (mem : Allocator) (node : xmlNode) :
    xsltTransformContext → xmlNode → Heap → Result State :=
  fun c inst h =>
    match xsltApplyTemplates fuel mem (some c) (some node) (some inst) h with
    | .ok (c1, h1) => .ok (c1.getD c, h1)
    | .fault f => .fault f

/-- A content root the walker handles as the specification describes: it is
copied (neither an instruction nor a blank text node), it is descended from,
and its children are walkable. -/
def walkableRoot (t : xmlNode) : Bool :=
  !IS_XSLT_ELEM t && !IS_BLANK_NODE t && descends t && walkableList t.children

mutual
/-- The number of nodes of a tree. -/
def xmlNode.size : xmlNode → Nat
  | .mk _ cs => sizeList cs + 1
/-- The number of nodes of a list of trees. -/
def sizeList : List xmlNode → Nat
  | [] => 0
  | c :: cs => c.size + sizeList cs
end

mutual
/-- Literal-only template content: no node is in the instruction namespace, and
a node that has children is not a blank text node and its first child is not
an entity declaration. -/
def plain : xmlNode → Bool
  | .mk d cs =>
    !IS_XSLT_ELEM (.mk d cs) &&
    (cs.isEmpty || (!IS_BLANK_NODE (.mk d cs) && descends (.mk d cs))) &&
    plainList cs
/-- All trees of the list are literal-only. -/
def plainList : List xmlNode → Bool
  | [] => true
  | c :: cs => plain c && plainList cs
end

mutual
/-- The tree with every whitespace-only text node removed from the children
lists. -/
def prune : xmlNode → xmlNode
  | .mk d cs => .mk d (pruneList cs)
/-- The list of trees without its blank text nodes, each remaining tree
pruned. -/
def pruneList : List xmlNode → List xmlNode
  | [] => []
  | c :: cs => if IS_BLANK_NODE c then pruneList cs else prune c :: pruneList cs
end

/-- The heap indices of sibling trees laid out one after the other from index
`base` on, each tree taking as many cells as it has nodes. -/
def childIds (base : Nat) : List xmlNode → List Nat
  | [] => []
  | c :: cs => base :: childIds (base + c.size) cs

mutual
/-- The cells of a tree laid out in document order from heap index `base` on,
its root having the given parent. -/
def layout (base : Nat) (parent : Option Nat) : xmlNode → List outNode
  | .mk d cs =>
    { data := d, parent := parent, children := childIds (base + 1) cs }
      :: layoutList (base + 1) (some base) cs
/-- The cells of sibling trees laid out one after the other from `base` on. -/
def layoutList (base : Nat) (parent : Option Nat) : List xmlNode → List outNode
  | [] => []
  | c :: cs => layout base parent c ++ layoutList (base + c.size) parent cs
end

/-- The tree found in the heap below the cell `i`, read along the `children`
lists down to the given number of levels. -/
def subtreeOf (heap : Heap) : Nat → Nat → xmlNode
  | 0, _ => document []
  | f + 1, i =>
    match heap[i]? with
    | some c => .mk c.data (c.children.map (subtreeOf heap f))
    | none => document []

/-- The closed form of mirroring the literal-only tree `t` under the cell `p`:
the index of the copy of the root is appended to the children of `p`, and the
cells of the pruned tree are appended to the heap in document order. -/
def MirrorsPlain (apply : xsltTransformContext → xmlNode → Heap → Result State)
    (oldInsert : Option Nat) (t : xmlNode) : Prop :=
  ∀ (p : Nat) (ctxt : xsltTransformContext) (heap : Heap), p < heap.length →
    mirrorNode apply oldInsert t (some p) ctxt heap
      = .ok (ctxt,
          Heap.update heap p (fun c => { c with children := c.children ++ [heap.length] })
            ++ layout heap.length (some p) (prune t))

/-- The trace of a run of the walker's loop, `none` for a fault. -/
def walkVisited (r : Result WalkResult) : Option (List (xmlNodePtr × Option Nat)) :=
  match r with
  | .ok w => some w.visited
  | .fault _ => none

/-- The heap a run of the walker's loop ends with, `none` for a fault. -/
def walkHeap (r : Result WalkResult) : Option Heap :=
  match r with
  | .ok w => some w.heap
  | .fault _ => none

/-- What a record shows of each moment: the place, the name of the context's
current node and the name of the source node being processed. -/
def logView (log : List Event) : List (Site × Option String × String) :=
  log.map (fun e => (e.site, e.ctxt.node.map (fun n => n.data.name), e.node.data.name))

/-! ## Concrete inputs -/

/-- The allocator under which every allocation succeeds. -/
def okMem : Allocator := { context := true, document := true, copy := fun _ => true }

/-- The root element `<a><b/>text<c/></a>` of scenario A. -/
def rootA : xmlNode := elem "a" [elem "b" [], text "text", elem "c" []]

/-- The source document of scenario A. -/
def sourceA : xmlNode := document [rootA]

/-- A template matching the elements called `a`, with the given `content`
pointer. -/
def templateA (content : Option xmlNodePtr) : xsltTemplate :=
  { pattern := fun n => n.data.name == "a", content := content }

/-- A stylesheet made of one template matching the elements called `a`, with
the given stylesheet document and `content` pointer. -/
def styleFor (doc : xmlNode) (content : Option xmlNodePtr) : xsltStylesheet :=
  { doc := doc, templates := [templateA content],
    method := none, version := none, encoding := none, doctypePublic := none,
    doctypeSystem := none }

/-- The stylesheet without templates and without output settings. -/
def styleEmpty : xsltStylesheet :=
  { doc := document [instr "stylesheet" []], templates := [], method := none, version := none,
    encoding := none, doctypePublic := none, doctypeSystem := none }

/-- The stylesheet document
`<xsl:stylesheet><xsl:template match="a"><b/></xsl:template></xsl:stylesheet>`. -/
def sheetLeaf : xmlNode := document [instr "stylesheet" [instr "template" [elem "b" []]]]

/-- The stylesheet of `sheetLeaf`; the content of its template is the element
`b`, the first child of the template element. -/
def styleLeaf : xsltStylesheet := styleFor sheetLeaf (some [0, 0, 0])

/-- A context as the run driver seeds it before processing: output and
insertion point are the document node, cell 0 of the heap. -/
def ctxtFor (style : xsltStylesheet) : xsltTransformContext :=
  { style := some style, type := XSLT_OUTPUT_XML, node := none, nodeList := none,
    output := some 0, insert := some 0 }

/-- The stylesheet document whose only template has the content
`<x><y/></x>`. -/
def sheetXY : xmlNode :=
  document [instr "stylesheet" [instr "template" [elem "x" [elem "y" []]]]]

/-- The stylesheet of `sheetXY` with a public doctype identifier and no output
method; the content of its template is the element `x`. -/
def styleDoctype : xsltStylesheet :=
  { styleFor sheetXY (some [0, 0, 0]) with doctypePublic := some "-//EXAMPLE//DTD X//EN" }

/-- The root element `<a> <b/>text<![CDATA[ ]]></a>`: a blank text child, an
element, a text child and a blank CDATA section. -/
def rootB : xmlNode := elem "a" [text " ", elem "b" [], text "text", cdata " "]

/-- The stylesheet document whose only template has the content
`<x> <xsl:apply-templates/>t</x>`, the first child of `x` being a blank text
node. -/
def sheetBlank : xmlNode :=
  document [instr "stylesheet" [instr "template"
    [elem "x" [text "  ", instr "apply-templates" [], text "t"]]]]

/-- The stylesheet of `sheetBlank`; the content of its template is the element
`x`. -/
def styleBlank : xsltStylesheet := styleFor sheetBlank (some [0, 0, 0])

/-- The document the run driver returns for scenario A with the stylesheet
without templates: the document node with a single child, the copy of the text
node. -/
def docScenarioA : xmlDoc :=
  { type := XML_DOCUMENT_NODE, version := none, seed := none,
    charset := xmlCharEncoding.XML_CHAR_ENCODING_UTF8, encoding := none, intSubset := none,
    nodes := [cell XML_DOCUMENT_NODE "" none none [1],
              cell XML_TEXT_NODE "text" (some "text") (some 0) []] }

/-- The document the run driver returns for `styleDoctype`: the copy of `x` is
the root element, the copy of `y` its child, and there is no internal
subset. -/
def docDoctype : xmlDoc :=
  { type := XML_DOCUMENT_NODE, version := none, seed := none,
    charset := xmlCharEncoding.XML_CHAR_ENCODING_UTF8, encoding := none, intSubset := none,
    nodes := [cell XML_DOCUMENT_NODE "" none none [1],
              cell XML_ELEMENT_NODE "x" none (some 0) [2],
              cell XML_ELEMENT_NODE "y" none (some 1) []] }

/-- The heap after processing `rootB` with `styleBlank` from an empty
document. -/
def heapBlank : Heap :=
  [cell XML_DOCUMENT_NODE "" none none [1],
   cell XML_ELEMENT_NODE "x" none (some 0) [2, 3, 4],
   cell XML_TEXT_NODE "text" (some "text") (some 1) [],
   cell XML_CDATA_SECTION_NODE "" (some " ") (some 1) [],
   cell XML_TEXT_NODE "text" (some "t") (some 1) []]

/-- The stylesheet document with three templates: the first has the content
`<x><y><z><xsl:apply-templates/></z></y></x>`, the second the leaf content
`<b/>`, the third the content `<d/>`. -/
def sheetNested : xmlNode :=
  document [instr "stylesheet"
    [instr "template" [elem "x" [elem "y" [elem "z" [instr "apply-templates" []]]]],
     instr "template" [elem "b" []],
     instr "template" [elem "d" []]]]

/-- The second template of `sheetNested`: it matches the elements called `c`;
its content is the leaf `b`. -/
def templateB : xsltTemplate :=
  { pattern := fun n => n.data.name == "c", content := some [0, 1, 0] }

/-- The stylesheet of `sheetNested`: the first template matches the elements
called `a`, the second those called `c`, the third those called `never`. -/
def styleNested : xsltStylesheet :=
  { doc := sheetNested,
    templates := [{ pattern := fun n => n.data.name == "a", content := some [0, 0, 0] },
                  templateB,
                  { pattern := fun n => n.data.name == "never", content := some [0, 2, 0] }],
    method := none, version := none, encoding := none, doctypePublic := none,
    doctypeSystem := none }

/-- The source document `<a><c/></a>`. -/
def sourceAC : xmlNode := document [elem "a" [elem "c" []]]

/-- The heap when the walker of `styleNested` reaches the `apply-templates`
instruction: the document node and the copies of `x`, `y` and `z`. -/
def heapXYZ : Heap :=
  [cell XML_DOCUMENT_NODE "" none none [1],
   cell XML_ELEMENT_NODE "x" none (some 0) [2],
   cell XML_ELEMENT_NODE "y" none (some 1) [3],
   cell XML_ELEMENT_NODE "z" none (some 2) []]

/-- The document returned for `styleNested` and `sourceAC`. -/
def docNested : xmlDoc :=
  { type := XML_DOCUMENT_NODE, version := none, seed := none,
    charset := xmlCharEncoding.XML_CHAR_ENCODING_UTF8, encoding := none, intSubset := none,
    nodes := [cell XML_DOCUMENT_NODE "" none none [1],
              cell XML_ELEMENT_NODE "x" none (some 0) [2],
              cell XML_ELEMENT_NODE "y" none (some 1) [3],
              cell XML_ELEMENT_NODE "z" none (some 2) [4],
              cell XML_ELEMENT_NODE "b" none (some 3) [5],
              cell XML_ELEMENT_NODE "d" none (some 4) []] }

/-- The stylesheet document whose only template has the content
`<x><xsl:if><b/></xsl:if><c/></x>`. -/
def sheetIf : xmlNode :=
  document [instr "stylesheet" [instr "template"
    [elem "x" [instr "if" [elem "b" []], elem "c" []]]]]

/-- The stylesheet of `sheetIf`; the content of its template is the element
`x`. -/
def styleIf : xsltStylesheet := styleFor sheetIf (some [0, 0, 0])

/-- The stylesheet document whose only template has the content
`<xsl:if><b/></xsl:if>`. -/
def sheetIfRoot : xmlNode :=
  document [instr "stylesheet" [instr "template" [instr "if" [elem "b" []]]]]

/-- The stylesheet of `sheetIfRoot`; the content of its template is the
instruction `xsl:if`. -/
def styleIfRoot : xsltStylesheet := styleFor sheetIfRoot (some [0, 0, 0])

/-- The stylesheet document of scenario E: the only template has the content
`<x><y><xsl:apply-templates/></y></x>`. -/
def sheetE : xmlNode :=
  document [instr "stylesheet" [instr "template"
    [elem "x" [elem "y" [instr "apply-templates" []]]]]]

/-- The template of scenario E, matching the elements called `a`. -/
def templateE : xsltTemplate :=
  { pattern := fun n => n.data.name == "a", content := some [0, 0, 0] }

/-- The stylesheet of scenario E. -/
def styleE : xsltStylesheet :=
  { doc := sheetE, templates := [templateE], method := none, version := none,
    encoding := none, doctypePublic := none, doctypeSystem := none }

/-- The heap scenario E yields on `<a><b/>text<c/></a>` from an empty
document: `x` under the document node, `y` under `x`, and the output of the
built-in rule, the copy of the text node, under `y`. -/
def heapE : Heap :=
  [cell XML_DOCUMENT_NODE "" none none [1],
   cell XML_ELEMENT_NODE "x" none (some 0) [2],
   cell XML_ELEMENT_NODE "y" none (some 1) [3],
   cell XML_TEXT_NODE "text" (some "text") (some 2) []]

/-- The allocator under which every allocation succeeds except the copy of a
node called `y`. -/
def memFailY : Allocator :=
  { context := true, document := true, copy := fun d => d.name != "y" }

/-- The content root `<x><y/> </x>`: an element and a blank text node below
`x`. -/
def contentXY : xmlNode := elem "x" [elem "y" [], text " "]

/-- The stylesheet document whose only template has the content `contentXY`. -/
def sheetPlain : xmlNode := document [instr "stylesheet" [instr "template" [contentXY]]]

/-- The template of `stylePlain`, matching the elements called `a`. -/
def templatePlain : xsltTemplate :=
  { pattern := fun n => n.data.name == "a", content := some [0, 0, 0] }

/-- The stylesheet of `sheetPlain`. -/
def stylePlain : xsltStylesheet :=
  { doc := sheetPlain, templates := [templatePlain], method := none, version := none,
    encoding := none, doctypePublic := none, doctypeSystem := none }

/-- The document returned for `stylePlain` when the copy of `y` fails. -/
def docPlainFailY : xmlDoc :=
  { type := XML_DOCUMENT_NODE, version := none, seed := none,
    charset := xmlCharEncoding.XML_CHAR_ENCODING_UTF8, encoding := none, intSubset := none,
    nodes := [cell XML_DOCUMENT_NODE "" none none [1],
              cell XML_ELEMENT_NODE "x" none (some 0) []] }

/-- The document returned for `styleIf` on scenario A: the copy of `b`, the
child of the instruction `xsl:if`, is a child of the copy of `x`, and the copy
of `c` is a child of the document node. -/
def docIf : xmlDoc :=
  { type := XML_DOCUMENT_NODE, version := none, seed := none,
    charset := xmlCharEncoding.XML_CHAR_ENCODING_UTF8, encoding := none, intSubset := none,
    nodes := [cell XML_DOCUMENT_NODE "" none none [1, 3],
              cell XML_ELEMENT_NODE "x" none (some 0) [2],
              cell XML_ELEMENT_NODE "b" none (some 1) [],
              cell XML_ELEMENT_NODE "c" none (some 0) []] }

/-- The instruction `<xsl:apply-templates xsl:select="b"/>`, whose `select`
attribute is found by the lookup in the instruction namespace. -/
def instSelect : xmlNode :=
  .mk { type := XML_ELEMENT_NODE, name := "apply-templates", ns := some XSLT_NAMESPACE,
        content := none,
        properties := [{ name := "select", ns := some XSLT_NAMESPACE, value := "b" }] } []

/-- The instruction `<xsl:apply-templates/>`, without attributes. -/
def instPlain : xmlNode := instr "apply-templates" []

/-- The stylesheet of `sheetXY` with output method "html" and a public and a
system doctype identifier. -/
def styleHtml : xsltStylesheet :=
  { styleFor sheetXY (some [0, 0, 0]) with
    method := some "html", doctypePublic := some "-//W3C//DTD HTML 4.01//EN",
    doctypeSystem := some "http://www.w3.org/TR/html4/strict.dtd" }

/-- The document returned for `styleHtml` on scenario A. -/
def docHtml : xmlDoc :=
  { type := XML_HTML_DOCUMENT_NODE, version := none,
    seed := some (some "-//W3C//DTD HTML 4.01//EN", some "http://www.w3.org/TR/html4/strict.dtd"),
    charset := xmlCharEncoding.XML_CHAR_ENCODING_UTF8, encoding := none, intSubset := none,
    nodes := [cell XML_HTML_DOCUMENT_NODE "" none none [1],
              cell XML_ELEMENT_NODE "x" none (some 0) [2],
              cell XML_ELEMENT_NODE "y" none (some 1) []] }

/-- The heap of scenario E when the walker reaches `y`: the document node and
the copy of `x`. -/
def heapX : Heap :=
  [cell XML_DOCUMENT_NODE "" none none [1],
   cell XML_ELEMENT_NODE "x" none (some 0) []]

/-- The template node `<y><xsl:apply-templates/></y>` of scenario E. -/
def nodeY : xmlNode := elem "y" [instr "apply-templates" []]

/-- The source document `<a><![CDATA[ ]]></a>`, whose root has a blank CDATA
section as only child. -/
def sourceCdata : xmlNode := document [elem "a" [cdata " "]]

/-- The allocator under which every allocation succeeds except the copy of a
CDATA section. -/
def memFailCdata : Allocator :=
  { context := true, document := true, copy := fun d => d.type != XML_CDATA_SECTION_NODE }

/-- The document returned for `sourceCdata` and the stylesheet without
templates when the copy of the CDATA section fails: the document node
alone. -/
def docEmpty : xmlDoc :=
  { type := XML_DOCUMENT_NODE, version := none, seed := none,
    charset := xmlCharEncoding.XML_CHAR_ENCODING_UTF8, encoding := none, intSubset := none,
    nodes := [cell XML_DOCUMENT_NODE "" none none []] }

/-- The number of nodes of the document that come after the subtree at a
pointer, in document order: the later siblings of the node and of each of its
ancestors, with their descendants. -/
def following (doc : xmlNode) : xmlNodePtr → Nat
  | [] => 0
  | i :: p =>
    (match nodeAt doc p with
     | some n => sizeList (n.children.drop (i + 1))
     | none => 0) + following doc p

/-- The number of nodes of the document from a pointer on, in document order:
the subtree at the pointer and everything after it. -/
def remaining (doc : xmlNode) (ptr : xmlNodePtr) : Nat :=
  (match nodeAt doc ptr with
   | some n => n.size
   | none => 0) + following doc ptr

/-- The context `xsltApplyStylesheet` has seeded when it calls
`xsltProcessOneNode` in scenario E (stylesheet `styleE`, source
`<a><b/>text<c/></a>`): the current node is the root element `a`. -/
def ctxtStartE : xsltTransformContext :=
  { style := some styleE, type := XSLT_OUTPUT_XML, node := some rootA,
    nodeList := some [rootA], output := some 0, insert := some 0 }

/-- The new XML output document at the moment `xsltApplyStylesheet` calls
`xsltProcessOneNode`, for a stylesheet that declares neither version nor
encoding: the document node alone. -/
def docStart : xmlDoc :=
  { type := XML_DOCUMENT_NODE, version := none, seed := none,
    charset := xmlCharEncoding.XML_CHAR_ENCODING_UTF8, encoding := none, intSubset := none,
    nodes := [docCell XML_DOCUMENT_NODE] }

/-! ## Theorems -/

theorem Heap.length_update (h : Heap) (i : Nat) (f : outNode → outNode) :
    (Heap.update h i f).length = h.length := by
  induction h generalizing i with
  | nil => rfl
  | cons c cs ih =>
    cases i with
    | zero => rfl
    | succ i => simp [Heap.update, ih]

theorem Heap.getElem?_update (h : Heap) (i j : Nat) (f : outNode → outNode) :
    (Heap.update h i f)[j]? = if j = i then (h[j]?).map f else h[j]? := by
  induction h generalizing i j with
  | nil => simp [Heap.update]
  | cons c cs ih =>
    cases i with
    | zero =>
      cases j with
      | zero => simp [Heap.update]
      | succ j => simp [Heap.update]
    | succ i =>
      cases j with
      | zero => simp [Heap.update]
      | succ j => simp [Heap.update, ih]

theorem Heap.Extends.refl (h : Heap) : Heap.Extends h h := by
  refine ⟨le_refl _, fun i c hc => ⟨c, hc, rfl, rfl⟩, fun i c2 hi hc => ?_⟩
  have := (List.getElem?_eq_some_iff.mp hc).1
  omega

theorem Heap.Extends.trans {h1 h2 h3 : Heap} (a : Heap.Extends h1 h2) (b : Heap.Extends h2 h3) :
    Heap.Extends h1 h3 := by
  obtain ⟨a1, a2, a3⟩ := a
  obtain ⟨b1, b2, b3⟩ := b
  refine ⟨le_trans a1 b1, ?_, ?_⟩
  · intro i c hc
    obtain ⟨c2, hc2, hd, hp⟩ := a2 i c hc
    obtain ⟨c3, hc3, hd3, hp3⟩ := b2 i c2 hc2
    exact ⟨c3, hc3, hd3.trans hd, hp3.trans hp⟩
  · intro i c3 hi hc3
    by_cases hlt : i < h2.length
    · obtain ⟨c2, hc2⟩ : ∃ c2, h2[i]? = some c2 := ⟨h2[i], List.getElem?_eq_getElem hlt⟩
      obtain ⟨c3', hc3', hd, _⟩ := b2 i c2 hc2
      rw [hc3] at hc3'
      cases hc3'
      unfold NonBlank
      rw [hd]
      exact a3 i c2 hi hc2
    · exact b3 i c3 (by omega) hc3

/-- Copying a node that is not a blank text node and attaching the copy extends
the heap. -/
theorem extends_copy_add (mem : Allocator) (heap heap1 : Heap) (node : xmlNode) (c : Nat)
    (insert : Option Nat) (hb : IS_BLANK_NODE node = false)
    (hc : xmlCopyNode mem heap node = some (c, heap1)) :
    Heap.Extends heap (xmlAddChild heap1 insert c) := by
  unfold xmlCopyNode at hc
  split at hc
  · cases hc
    have hnb : NonBlank node.data := by
      unfold NonBlank
      rintro ⟨h1, h2⟩
      simp [IS_BLANK_NODE, xmlNode.type, h1, h2] at hb
    cases insert with
    | none =>
      refine ⟨by simp [xmlAddChild], ?_, ?_⟩
      · intro i c hc
        refine ⟨c, ?_, rfl, rfl⟩
        have := (List.getElem?_eq_some_iff.mp hc).1
        simp [xmlAddChild, List.getElem?_append_left this, hc]
      · intro i c2 hi hc2
        simp only [xmlAddChild] at hc2
        rcases Nat.lt_or_ge heap.length i with h | h
        · rw [List.getElem?_eq_none (by simp; omega)] at hc2; cases hc2
        · have : i = heap.length := by omega
          subst this
          simp at hc2
          rw [← hc2]; exact hnb
    | some p =>
      refine ⟨by simp [xmlAddChild, Heap.length_update], ?_, ?_⟩
      · intro i c hc
        have hi := (List.getElem?_eq_some_iff.mp hc).1
        simp only [xmlAddChild, Heap.getElem?_update, List.getElem?_append_left hi, hc]
        have hne : i ≠ heap.length := by omega
        simp only [hne, if_false]
        by_cases hp : i = p
        · simp [hp]
        · simp [hp]
      · intro i c2 hi hc2
        simp only [xmlAddChild, Heap.getElem?_update] at hc2
        rcases Nat.lt_or_ge heap.length i with h | h
        · rw [List.getElem?_eq_none (by simp; omega)] at hc2
          simp at hc2
        · have : i = heap.length := by omega
          subst this
          simp at hc2
          by_cases hp : heap.length = p
          · simp [hp] at hc2
            rw [← hc2]; exact hnb
          · simp [hp] at hc2
            rw [← hc2]; exact hnb
  · cases hc

/-- The body of the loop over the children keeps the context and extends the
heap, if the call it makes on element children does. -/
theorem defaultBody_preserves
    (process : xsltTransformContext → xmlNode → Heap → Result State) (mem : Allocator)
    (hp : ∀ ctxt node heap ctxt1 heap1, process ctxt node heap = .ok (ctxt1, heap1) →
      ctxt1 = ctxt ∧ Heap.Extends heap heap1)
    (node : xmlNode) (ctxt : xsltTransformContext) (heap : Heap)
    (ctxt1 : xsltTransformContext) (heap1 : Heap)
    (h : defaultBody process mem node ctxt heap = .ok (ctxt1, heap1)) :
    ctxt1 = ctxt ∧ Heap.Extends heap heap1 := by
  have key : ∀ (hb : IS_BLANK_NODE node = false)
      (h : (match xmlCopyNode mem heap node with
        | some (copy, heap1) => Result.ok (ctxt, xmlAddChild heap1 ctxt.insert copy)
        | none => Result.ok (ctxt, heap)) = Result.ok (ctxt1, heap1)),
      ctxt1 = ctxt ∧ Heap.Extends heap heap1 := by
    intro hb h
    split at h
    · rename_i c h2 hcopy
      simp only [Result.ok.injEq, Prod.mk.injEq] at h
      obtain ⟨e1, e2⟩ := h
      subst e1; subst e2
      exact ⟨rfl, extends_copy_add mem heap h2 node c ctxt.insert hb hcopy⟩
    · simp only [Result.ok.injEq, Prod.mk.injEq] at h
      obtain ⟨e1, e2⟩ := h
      subst e1; subst e2
      exact ⟨rfl, Heap.Extends.refl _⟩
  have triv : ∀ (h : Result.ok (ctxt, heap) = Result.ok (ctxt1, heap1)),
      ctxt1 = ctxt ∧ Heap.Extends heap heap1 := by
    intro h
    simp only [Result.ok.injEq, Prod.mk.injEq] at h
    obtain ⟨e1, e2⟩ := h
    subst e1; subst e2
    exact ⟨rfl, Heap.Extends.refl _⟩
  unfold defaultBody at h
  split at h
  · exact hp _ _ _ _ _ h
  · exact hp _ _ _ _ _ h
  · exact hp _ _ _ _ _ h
  · split at h
    · exact triv h
    · rename_i hb
      exact key (by simpa using hb) h
  · rename_i hty
    exact key (by simp [IS_BLANK_NODE, hty]) h
  · exact triv h

/-- The loop over the children keeps the context and extends the heap, if the
call it makes on element children does. -/
theorem defaultLoop_preserves
    (process : xsltTransformContext → xmlNode → Heap → Result State) (mem : Allocator)
    (hp : ∀ ctxt node heap ctxt1 heap1, process ctxt node heap = .ok (ctxt1, heap1) →
      ctxt1 = ctxt ∧ Heap.Extends heap heap1) :
    ∀ (nodes : List xmlNode) (ctxt : xsltTransformContext) (heap : Heap)
      (ctxt1 : xsltTransformContext) (heap1 : Heap),
      defaultLoop process mem nodes ctxt heap = .ok (ctxt1, heap1) →
      ctxt1 = ctxt ∧ Heap.Extends heap heap1 := by
  intro nodes
  induction nodes with
  | nil =>
    intro ctxt heap ctxt1 heap1 h
    simp only [defaultLoop, Result.ok.injEq, Prod.mk.injEq] at h
    obtain ⟨h1, h2⟩ := h
    subst h1; subst h2
    exact ⟨rfl, Heap.Extends.refl _⟩
  | cons node rest ih =>
    intro ctxt heap ctxt1 heap1 h
    unfold defaultLoop at h
    split at h
    · rename_i c2 h2 hbody
      obtain ⟨e1, e2⟩ := defaultBody_preserves process mem hp _ _ _ _ _ hbody
      obtain ⟨e3, e4⟩ := ih _ _ _ _ h
      exact ⟨e3.trans e1, e2.trans e4⟩
    · cases h

/-- The first part of the walker's loop body extends the heap and leaves the
context with `insert` reset to `oldInsert` or untouched. -/
theorem processCur_preserves
    (apply : xsltTransformContext → xmlNode → Heap → Result State) (mem : Allocator)
    (ha : ∀ ctxt inst heap ctxt1 heap1, apply ctxt inst heap = .ok (ctxt1, heap1) →
      ctxt1 = ctxt ∧ Heap.Extends heap heap1)
    (oldInsert : Option Nat) (curNode : xmlNode) (insert copy : Option Nat)
    (ctxt : xsltTransformContext) (heap : Heap) (hins : ctxt.insert = oldInsert)
    (copy1 : Option Nat) (ctxt1 : xsltTransformContext) (heap1 : Heap)
    (h : processCur apply mem oldInsert curNode insert copy ctxt heap
      = .ok (some (copy1, ctxt1, heap1))) :
    ctxt1 = ctxt ∧ Heap.Extends heap heap1 := by
  unfold processCur at h
  split at h
  · split at h
    · split at h
      · rename_i c2 h2 happ
        obtain ⟨e1, e2⟩ := ha _ _ _ _ _ happ
        simp only [Result.ok.injEq, Option.some.injEq, Prod.mk.injEq] at h
        obtain ⟨_, e3, e4⟩ := h
        subst e4
        refine ⟨?_, e2⟩
        rw [← e3, e1, ← hins]
      · cases h
    · simp only [Result.ok.injEq, Option.some.injEq, Prod.mk.injEq] at h
      obtain ⟨_, e3, e4⟩ := h
      subst e3; subst e4
      exact ⟨rfl, Heap.Extends.refl _⟩
  · split at h
    · rename_i hb
      split at h
      · rename_i c h2 hcopy
        simp only [Result.ok.injEq, Option.some.injEq, Prod.mk.injEq] at h
        obtain ⟨_, e3, e4⟩ := h
        subst e3; subst e4
        exact ⟨rfl, extends_copy_add mem heap h2 curNode c insert (by simpa using hb) hcopy⟩
      · cases h
    · simp only [Result.ok.injEq, Option.some.injEq, Prod.mk.injEq] at h
      obtain ⟨_, e3, e4⟩ := h
      subst e3; subst e4
      exact ⟨rfl, Heap.Extends.refl _⟩

/-- The walker's loop keeps the context and extends the heap, if the dispatcher
call does. -/
theorem walkLoop_preserves
    (apply : xsltTransformContext → xmlNode → Heap → Result State) (mem : Allocator)
    (ha : ∀ ctxt inst heap ctxt1 heap1, apply ctxt inst heap = .ok (ctxt1, heap1) →
      ctxt1 = ctxt ∧ Heap.Extends heap heap1)
    (doc : xmlNode) (content : Option xmlNodePtr) (oldInsert : Option Nat) :
    ∀ (fuel : Nat) (cur : Option xmlNodePtr) (insert copy : Option Nat)
      (ctxt : xsltTransformContext) (heap : Heap) (seen : List (xmlNodePtr × Option Nat))
      (r : WalkResult), ctxt.insert = oldInsert →
      walkLoop apply mem doc content oldInsert fuel cur insert copy ctxt heap seen = .ok r →
      r.ctxt = ctxt ∧ Heap.Extends heap r.heap := by
  intro fuel
  induction fuel with
  | zero =>
    intro cur insert copy ctxt heap seen r hins h
    cases cur with
    | none =>
      simp only [walkLoop, Result.ok.injEq] at h
      subst h
      exact ⟨rfl, Heap.Extends.refl _⟩
    | some cur => simp [walkLoop] at h
  | succ fuel ih =>
    intro cur insert copy ctxt heap seen r hins h
    cases cur with
    | none =>
      simp only [walkLoop, Result.ok.injEq] at h
      subst h
      exact ⟨rfl, Heap.Extends.refl _⟩
    | some cur =>
      simp only [walkLoop] at h
      split at h
      · cases h
      · split at h
        · cases h
        · simp only [Result.ok.injEq] at h
          subst h
          exact ⟨rfl, Heap.Extends.refl _⟩
        · rename_i copy1 ctxt1 heap1 hproc
          obtain ⟨e1, e2⟩ := processCur_preserves apply mem ha oldInsert _ insert copy
            ctxt heap hins copy1 ctxt1 heap1 hproc
          split at h
          · obtain ⟨e3, e4⟩ := ih _ _ _ _ _ _ r (by rw [e1]; exact hins) h
            exact ⟨e3.trans e1, e2.trans e4⟩
          · cases h

/-- Every completed call of the three mutually recursive functions returns the
context it was given and an extension of the heap. -/
theorem run_preserves (mem : Allocator) : ∀ fuel : Nat,
    (∀ ctxt node heap ctxt1 heap1,
      xsltDefaultProcessOneNode fuel mem ctxt node heap = .ok (ctxt1, heap1) →
      ctxt1 = ctxt ∧ Heap.Extends heap heap1) ∧
    (∀ ctxt node inst heap ctxt1 heap1,
      xsltApplyTemplates fuel mem ctxt node inst heap = .ok (ctxt1, heap1) →
      ctxt1 = ctxt ∧ Heap.Extends heap heap1) ∧
    (∀ ctxt node heap ctxt1 heap1,
      xsltProcessOneNode fuel mem ctxt node heap = .ok (ctxt1, heap1) →
      ctxt1 = ctxt ∧ Heap.Extends heap heap1) := by
  intro fuel
  induction fuel with
  | zero =>
    refine ⟨?_, ?_, ?_⟩
    · intro ctxt node heap ctxt1 heap1 h
      simp [xsltDefaultProcessOneNode] at h
    · intro ctxt node inst heap ctxt1 heap1 h
      simp [xsltApplyTemplates] at h
    · intro ctxt node heap ctxt1 heap1 h
      simp [xsltProcessOneNode] at h
  | succ fuel ih =>
    obtain ⟨ihD, ihA, ihP⟩ := ih
    refine ⟨?_, ?_, ?_⟩
    · intro ctxt node heap ctxt1 heap1 h
      unfold xsltDefaultProcessOneNode at h
      split at h
      · exact defaultLoop_preserves _ mem ihP _ _ _ _ _ h
      · exact defaultLoop_preserves _ mem ihP _ _ _ _ _ h
      · exact defaultLoop_preserves _ mem ihP _ _ _ _ _ h
      · simp only [Result.ok.injEq, Prod.mk.injEq] at h
        obtain ⟨e1, e2⟩ := h
        subst e1; subst e2
        exact ⟨rfl, Heap.Extends.refl _⟩
    · intro ctxt node inst heap ctxt1 heap1 h
      unfold xsltApplyTemplates at h
      split at h
      · split at h
        · simp only [Result.ok.injEq, Prod.mk.injEq] at h
          obtain ⟨e1, e2⟩ := h
          subst e1; subst e2
          exact ⟨rfl, Heap.Extends.refl _⟩
        · split at h
          · rename_i hd
            obtain ⟨e1, e2⟩ := ihD _ _ _ _ _ hd
            simp only [Result.ok.injEq, Prod.mk.injEq] at h
            obtain ⟨e3, e4⟩ := h
            subst e3; subst e4
            exact ⟨by rw [e1], e2⟩
          · cases h
      · simp only [Result.ok.injEq, Prod.mk.injEq] at h
        obtain ⟨e1, e2⟩ := h
        subst e1; subst e2
        exact ⟨rfl, Heap.Extends.refl _⟩
    · intro ctxt node heap ctxt1 heap1 h
      unfold xsltProcessOneNode at h
      split at h
      · exact ihD _ _ _ _ _ h
      · split at h
        · rename_i r hw
          simp only [Result.ok.injEq, Prod.mk.injEq] at h
          obtain ⟨e1, e2⟩ := h
          subst e1; subst e2
          refine walkLoop_preserves _ mem ?_ _ _ _ _ _ _ _ _ _ _ r rfl hw
          intro c inst hp c1 h1 happ
          split at happ
          · rename_i c2 h2 hap
            obtain ⟨e1, e2⟩ := ihA _ _ _ _ _ _ hap
            simp only [Result.ok.injEq, Prod.mk.injEq] at happ
            obtain ⟨e3, e4⟩ := happ
            subst e3; subst e4
            subst e1
            exact ⟨rfl, e2⟩
          · cases happ
        · cases h

/-- Induction over trees: a property holds of every node if it holds of a node
whenever it holds of all its children. -/
theorem xmlNode.induct (P : xmlNode → Prop)
    (h : ∀ d cs, (∀ c ∈ cs, P c) → P (.mk d cs)) : ∀ n, P n := by
  intro n
  induction n using xmlNode.rec (motive_2 := fun cs => ∀ c ∈ cs, P c) with
  | mk d cs ih => exact h d cs ih
  | nil => rename_i c hc; cases hc
  | cons a as iha ihas =>
    rename_i c hc
    rcases List.mem_cons.mp hc with h1 | h1
    · subst h1; exact iha
    · exact ihas _ h1

theorem appendNodes_append (heap : Heap) (insert : Option Nat) (a b : List xmlNodeData) :
    appendNodes heap insert (a ++ b) = appendNodes (appendNodes heap insert a) insert b := by
  induction a generalizing heap with
  | nil => rfl
  | cons d ds ih => simp [appendNodes, ih]

theorem height_le_heightList {c : xmlNode} {cs : List xmlNode} (h : c ∈ cs) :
    c.height ≤ heightList cs := by
  induction cs with
  | nil => cases h
  | cons a as ih =>
    rcases List.mem_cons.mp h with h1 | h1
    · subst h1; simp [heightList]
    · have := ih h1
      simp [heightList]; omega

theorem self_mem_subtree (n : xmlNode) : n ∈ n.subtree := by
  cases n with
  | mk d cs => simp [xmlNode.subtree]

theorem subtree_child {d : xmlNodeData} {cs : List xmlNode} {c n : xmlNode}
    (hc : c ∈ cs) (hn : n ∈ c.subtree) : n ∈ (xmlNode.mk d cs).subtree := by
  have : ∀ cs : List xmlNode, c ∈ cs → n ∈ subtreeList cs := by
    intro cs
    induction cs with
    | nil => intro h; cases h
    | cons a as ih =>
      intro h
      rcases List.mem_cons.mp h with h1 | h1
      · subst h1; simp [subtreeList, hn]
      · simp [subtreeList, ih h1]
  simp [xmlNode.subtree, this cs hc]

theorem defaultReference_of_not_container (c : xmlNode)
    (h1 : c.type ≠ XML_DOCUMENT_NODE) (h2 : c.type ≠ XML_HTML_DOCUMENT_NODE)
    (h3 : c.type ≠ XML_ELEMENT_NODE) : defaultReference c = [] := by
  cases c with
  | mk d cs =>
    simp only [xmlNode.type, xmlNode.data] at h1 h2 h3
    simp [defaultReference, h1, h2, h3]

/-- One child in the loop of the built-in rule: the effect is to append the
reference sequence of that child, provided the call on element children does
so. -/
theorem defaultBody_reference
    (process : xsltTransformContext → xmlNode → Heap → Result State) (mem : Allocator)
    (hcopy : ∀ d, mem.copy d = true) (c : xmlNode) (ctxt : xsltTransformContext) (heap : Heap)
    (hp : process ctxt c heap = .ok (ctxt, appendNodes heap ctxt.insert (defaultReference c))) :
    defaultBody process mem c ctxt heap
      = .ok (ctxt, appendNodes heap ctxt.insert
          (if c.type = XML_TEXT_NODE then (if xsltIsBlank c.data.content then [] else [c.data])
           else if c.type = XML_CDATA_SECTION_NODE then [c.data]
           else defaultReference c)) := by
  unfold defaultBody
  cases hty : c.type <;>
    simp [hty, hp, IS_BLANK_NODE, xmlCopyNode, hcopy, appendNodes,
      defaultReference_of_not_container c]
  split <;> simp [appendNodes]

/-- The loop of the built-in rule appends the reference sequence of the
children, provided the call on each child does. -/
theorem defaultLoop_reference
    (process : xsltTransformContext → xmlNode → Heap → Result State) (mem : Allocator)
    (hcopy : ∀ d, mem.copy d = true) (ctxt : xsltTransformContext) :
    ∀ (cs : List xmlNode) (heap : Heap),
      (∀ c ∈ cs, ∀ heap, process ctxt c heap
        = .ok (ctxt, appendNodes heap ctxt.insert (defaultReference c))) →
      defaultLoop process mem cs ctxt heap
        = .ok (ctxt, appendNodes heap ctxt.insert (defaultReferenceList cs)) := by
  intro cs
  induction cs with
  | nil => intro heap _; simp [defaultLoop, defaultReferenceList, appendNodes]
  | cons c cs ih =>
    intro heap hp
    unfold defaultLoop
    rw [defaultBody_reference process mem hcopy c ctxt heap (hp c (List.mem_cons_self _ _) heap)]
    simp only [defaultReferenceList, appendNodes_append]
    exact ih _ (fun c1 h1 => hp c1 (List.mem_cons_of_mem _ h1))

/-- With no template matching in the subtree, processing a node and applying
the built-in rule to it both append the reference sequence. -/
theorem process_reference (mem : Allocator) (hcopy : ∀ d, mem.copy d = true)
    (style : Option xsltStylesheet) :
    ∀ (node : xmlNode), (∀ n ∈ node.subtree, xsltGetTemplate style n = none) →
      ∀ (ctxt : xsltTransformContext) (heap : Heap) (fuel : Nat), ctxt.style = style →
        2 * node.height ≤ fuel + 1 →
        xsltDefaultProcessOneNode fuel mem ctxt node heap
          = .ok (ctxt, appendNodes heap ctxt.insert (defaultReference node)) ∧
        xsltProcessOneNode (fuel + 1) mem ctxt node heap
          = .ok (ctxt, appendNodes heap ctxt.insert (defaultReference node)) := by
  intro node
  induction node using xmlNode.induct with
  | h d cs ih =>
    intro hnt ctxt heap fuel hst hfuel
    have hD : xsltDefaultProcessOneNode fuel mem ctxt (.mk d cs) heap
        = .ok (ctxt, appendNodes heap ctxt.insert (defaultReference (.mk d cs))) := by
      simp only [xmlNode.height] at hfuel
      obtain ⟨f, rfl⟩ : ∃ f, fuel = f + 1 := ⟨fuel - 1, by omega⟩
      have hloop : defaultLoop (xsltProcessOneNode f mem) mem cs ctxt heap
          = .ok (ctxt, appendNodes heap ctxt.insert (defaultReferenceList cs)) := by
        apply defaultLoop_reference _ mem hcopy
        intro c hc heap1
        have hh := height_le_heightList hc
        have h1 : 1 ≤ c.height := by cases c; simp [xmlNode.height]
        obtain ⟨g, rfl⟩ : ∃ g, f = g + 1 := ⟨f - 1, by omega⟩
        exact (ih c hc (fun n hn => hnt n (subtree_child hc hn)) ctxt heap1 g hst (by omega)).2
      unfold xsltDefaultProcessOneNode
      cases hty : d.type <;>
        simp [xmlNode.type, xmlNode.data, xmlNode.children, hty, hloop, defaultReference,
          appendNodes]
    refine ⟨hD, ?_⟩
    unfold xsltProcessOneNode
    rw [hst, hnt _ (self_mem_subtree _)]
    exact hD

theorem Heap.update_append_left (h t : Heap) (i : Nat) (f : outNode → outNode)
    (hi : i < h.length) : Heap.update (h ++ t) i f = Heap.update h i f ++ t := by
  induction h generalizing i with
  | nil => simp at hi
  | cons c cs ih =>
    cases i with
    | zero => rfl
    | succ i =>
      show c :: Heap.update (cs ++ t) i f = c :: (Heap.update cs i f ++ t)
      rw [ih i (by simpa using hi)]

theorem Heap.update_append_length (h : Heap) (c : outNode) (t : Heap) (f : outNode → outNode) :
    Heap.update (h ++ c :: t) h.length f = h ++ f c :: t := by
  induction h with
  | nil => rfl
  | cons a as ih =>
    show a :: Heap.update (as ++ c :: t) as.length f = a :: (as ++ f c :: t)
    rw [ih]

theorem Heap.update_update (h : Heap) (i : Nat) (f g : outNode → outNode) :
    Heap.update (Heap.update h i f) i g = Heap.update h i (fun c => g (f c)) := by
  induction h generalizing i with
  | nil => rfl
  | cons c cs ih =>
    cases i with
    | zero => rfl
    | succ i => simp only [Heap.update, ih]

theorem Heap.update_id (h : Heap) (i : Nat) (f : outNode → outNode) (hf : ∀ c, f c = c) :
    Heap.update h i f = h := by
  induction h generalizing i with
  | nil => rfl
  | cons c cs ih =>
    cases i with
    | zero => simp [Heap.update, hf]
    | succ i => simp only [Heap.update, ih]

/-- Closed form of `appendNodes` at an insertion point inside the heap: the new
cells are appended in order, each with the insertion point as parent, and their
indices are appended to the children of the insertion point. -/
theorem appendNodes_some (ds : List xmlNodeData) : ∀ (heap : Heap) (p : Nat), p < heap.length →
    appendNodes heap (some p) ds
      = Heap.update heap p
          (fun c => { c with children := c.children ++ List.range' heap.length ds.length })
        ++ ds.map (fun d => { data := d, parent := some p, children := [] }) := by
  induction ds with
  | nil =>
    intro heap p _
    simp [appendNodes, Heap.update_id]
  | cons d ds ih =>
    intro heap p hp
    have hne : p ≠ heap.length := by omega
    simp only [appendNodes, xmlAddChild]
    rw [Heap.update_append_left _ _ _ _ hp]
    have hlen : (Heap.update heap p
        (fun c => { c with children := c.children ++ [heap.length] })).length = heap.length :=
      Heap.length_update _ _ _
    have := Heap.update_append_length (Heap.update heap p
        (fun c => { c with children := c.children ++ [heap.length] }))
        { data := d, parent := none, children := [] } []
        (fun c => { c with parent := some p })
    rw [hlen] at this
    rw [this]
    rw [ih _ p (by simp [Heap.length_update]; omega)]
    rw [Heap.update_append_left _ _ _ _ (by simp [Heap.length_update]; exact hp)]
    rw [Heap.update_update]
    simp [Heap.length_update, List.range'_succ]

/-- The doctype step never changes the document: the tested value is the
enumerator `XSLT_OUTPUT_XML`, which is 0. -/
theorem finalize_snd (style : xsltStylesheet) (ctxt : xsltTransformContext) (res : xmlDoc) :
    (finalize style ctxt res).2 = res := by
  simp [finalize, xsltOutputType.toNat]

mutual
theorem defaultReference_types : ∀ (n : xmlNode) (d : xmlNodeData), d ∈ defaultReference n →
    d.type = XML_TEXT_NODE ∨ d.type = XML_CDATA_SECTION_NODE
  | .mk d0 cs, d, h => by
    unfold defaultReference at h
    split at h
    · exact defaultReferenceList_types cs d h
    · cases h
theorem defaultReferenceList_types : ∀ (cs : List xmlNode) (d : xmlNodeData),
    d ∈ defaultReferenceList cs →
    d.type = XML_TEXT_NODE ∨ d.type = XML_CDATA_SECTION_NODE
  | [], d, h => by simp [defaultReferenceList] at h
  | c :: cs, d, h => by
    unfold defaultReferenceList at h
    rcases List.mem_append.mp h with h1 | h1
    · split at h1
      · rename_i ht
        split at h1
        · cases h1
        · simp only [List.mem_singleton] at h1
          subst h1
          exact Or.inl ht
      · split at h1
        · rename_i ht
          simp only [List.mem_singleton] at h1
          subst h1
          exact Or.inr ht
        · exact defaultReference_types c d h1
    · exact defaultReferenceList_types cs d h1
end

theorem flatDocument_no_root (type : xmlElementType) (ds : List xmlNodeData)
    (h : ∀ d ∈ ds, d.type ≠ XML_ELEMENT_NODE) :
    outDocGetRootElement (flatDocument type ds) = none := by
  simp only [outDocGetRootElement, flatDocument, List.getElem?_cons_zero]
  rw [List.find?_eq_none]
  intro c hc
  simp only [List.mem_filterMap, List.mem_range'_1] at hc
  obtain ⟨i, ⟨hi1, _⟩, hget⟩ := hc
  obtain ⟨j, rfl⟩ : ∃ j, i = j + 1 := ⟨i - 1, by omega⟩
  simp only [List.getElem?_cons_succ, List.getElem?_map, Option.map_eq_some'] at hget
  obtain ⟨d, hd, rfl⟩ := hget
  have := h d (List.getElem?_mem hd)
  simpa using this

theorem appendNodes_docCell (type : xmlElementType) (ds : List xmlNodeData) :
    appendNodes [docCell type] (some 0) ds = flatDocument type ds := by
  rw [appendNodes_some ds [docCell type] 0 (by simp)]
  simp [Heap.update, flatDocument, docCell]

/-- When its allocations succeed, the choice of the output document fails
exactly on the methods other than "xml" and "html". -/
theorem outputShell_isSome (mem : Allocator) (hdoc : mem.document = true)
    (style : xsltStylesheet) (ctxt : xsltTransformContext) :
    (outputShell mem style ctxt).isSome = true ↔
      (style.method = none ∨ style.method = some "xml" ∨ style.method = some "html") := by
  unfold outputShell
  cases hm : style.method with
  | none => simp [xmlNewDoc, hdoc]
  | some m =>
    by_cases h1 : m = "xml"
    · simp [xmlStrEqual, h1, xmlNewDoc, hdoc]
    · by_cases h2 : m = "html"
      · simp [xmlStrEqual, h2, htmlNewDoc, hdoc]
      · simp [xmlStrEqual, h1, h2]

/-- Failure handling of the run driver: when the allocations of the context and
of the document succeed, `xsltApplyStylesheet` returns `NULL` exactly when the
conditions for running are not met; when they are met its outcome is that of
processing the root element. -/
theorem xsltApplyStylesheet_null_iff (fuel : Nat) (mem : Allocator)
    (hctx : mem.context = true) (hdoc : mem.document = true)
    (style : Option xsltStylesheet) (doc : Option xmlNode) :
    xsltApplyStylesheet fuel mem style doc = .ok none ↔ ¬ Runnable style doc := by
  cases style with
  | none => simp [xsltApplyStylesheet, Runnable]
  | some s =>
    cases doc with
    | none => simp [xsltApplyStylesheet, Runnable]
    | some d =>
      have hs := outputShell_isSome mem hdoc s
        { style := some s, type := XSLT_OUTPUT_XML, node := none, nodeList := none,
          output := none, insert := none }
      simp only [xsltApplyStylesheet, xsltNewTransformContext, hctx, if_true, Runnable]
      cases hsh : outputShell mem s
        { style := some s, type := XSLT_OUTPUT_XML, node := none, nodeList := none,
          output := none, insert := none } with
      | none =>
        rw [hsh] at hs
        simp at hs
        simp
        intro s1
        rcases s1 with h | h | h
        · exact absurd h hs.1
        · exact absurd h hs.2.1
        · exact absurd h hs.2.2
      | some sh =>
        rw [hsh] at hs
        simp at hs
        cases hr : xmlDocGetRootElement d with
        | none => simp [hr]
        | some root =>
          simp only [hr]
          constructor
          · intro h
            split at h <;> simp at h
          · intro h
            exact absurd ⟨s, d, rfl, rfl, hs, by simp [hr]⟩ h

/-- With a template found, `xsltProcessOneNode` is the walker's loop. -/
theorem xsltProcessOneNode_template (fuel : Nat) (mem : Allocator) (ctxt : xsltTransformContext)
    (node : xmlNode) (heap : Heap) (template : xsltTemplate)
    (h : xsltGetTemplate ctxt.style node = some template) :
    xsltProcessOneNode (fuel + 1) mem ctxt node heap
      = match templateWalk fuel mem ctxt node heap template with
        | .ok r => .ok (r.ctxt, r.heap)
        | .fault f => .fault f := by
  simp only [xsltProcessOneNode, h, templateWalk]

/-- Without a template, `xsltProcessOneNode` is the built-in rule. -/
theorem xsltProcessOneNode_default (fuel : Nat) (mem : Allocator) (ctxt : xsltTransformContext)
    (node : xmlNode) (heap : Heap) (h : xsltGetTemplate ctxt.style node = none) :
    xsltProcessOneNode (fuel + 1) mem ctxt node heap
      = xsltDefaultProcessOneNode fuel mem ctxt node heap := by
  simp only [xsltProcessOneNode, h]

theorem skipToNext_of_descends (doc : xmlNode) (content : Option xmlNodePtr) (heap : Heap)
    (cur : xmlNodePtr) (n : xmlNode) (insert : Option Nat) (c : Nat) (h : descends n = true) :
    skipToNext doc content heap cur n insert (some c) = .ok (some (0 :: cur), some c) := by
  unfold descends at h
  unfold skipToNext
  split
  · rename_i child rest hch
    rw [hch] at h
    simp only [bne_iff_ne, ne_eq] at h
    simp [h]
  · rename_i hch
    rw [hch] at h
    cases h

theorem skipToNext_of_not_descends (doc : xmlNode) (content : Option xmlNodePtr) (heap : Heap)
    (cur : xmlNodePtr) (n : xmlNode) (insert copy : Option Nat) (h : descends n = false) :
    skipToNext doc content heap cur n insert copy = stepOver doc content heap cur insert := by
  unfold descends at h
  unfold skipToNext stepOver
  split
  · rename_i child rest hch
    rw [hch] at h
    simp only [bne_eq_false_iff_eq, beq_iff_eq] at h
    simp [h]
  · rfl

theorem ascend_cons (doc : xmlNode) (content : Option xmlNodePtr) (heap : Heap) (j : Nat)
    (p : xmlNodePtr) (insert : Option Nat) :
    ascend doc content heap (j :: p) insert
      = match derefParent heap insert with
        | .ok up => if some p = content then .ok (none, up) else stepOver doc content heap p up
        | .fault f => .fault f := by
  rw [ascend]
  unfold stepOver
  rfl

/-- The cell of a fresh copy attached under `insert` has `insert` as parent. -/
theorem copy_parent (heap : Heap) (d : xmlNodeData) (insert : Option Nat) :
    ∃ c : outNode, (xmlAddChild (heap ++ [{ data := d, parent := none, children := [] }])
      insert heap.length)[heap.length]? = some c ∧ c.parent = insert := by
  cases insert with
  | none => exact ⟨{ data := d, parent := none, children := [] }, by simp [xmlAddChild], rfl⟩
  | some p =>
    simp only [xmlAddChild, Heap.getElem?_update]
    by_cases hp : heap.length = p
    · simp [hp]
    · simp [hp]

theorem xmlCopyNode_ok (mem : Allocator) (hcopy : ∀ d, mem.copy d = true) (heap : Heap)
    (n : xmlNode) :
    xmlCopyNode mem heap n
      = some (heap.length, heap ++ [{ data := n.data, parent := none, children := [] }]) := by
  simp [xmlCopyNode, hcopy]

theorem mirrorList_extends (apply : xsltTransformContext → xmlNode → Heap → Result State)
    (oldInsert : Option Nat) :
    ∀ (cs : List xmlNode),
      (∀ c ∈ cs, ∀ insert ctxt heap ctxt1 heap1,
        mirrorNode apply oldInsert c insert ctxt heap = .ok (ctxt1, heap1) →
        Heap.Extends heap heap1) →
      ∀ insert ctxt heap ctxt1 heap1,
        mirrorList apply oldInsert cs insert ctxt heap = .ok (ctxt1, heap1) →
        Heap.Extends heap heap1 := by
  intro cs
  induction cs with
  | nil =>
    intro _ insert ctxt heap ctxt1 heap1 h
    simp only [mirrorList, Result.ok.injEq, Prod.mk.injEq] at h
    rw [← h.2]
    exact Heap.Extends.refl _
  | cons c cs ih =>
    intro hc insert ctxt heap ctxt1 heap1 h
    rw [mirrorList] at h
    split at h
    · rename_i c2 h2 hn
      exact (hc c (List.mem_cons_self _ _) _ _ _ _ _ hn).trans
        (ih (fun c1 hc1 => hc c1 (List.mem_cons_of_mem _ hc1)) _ _ _ _ _ h)
    · cases h

/-- The reference walker only extends the heap, if the dispatcher call does. -/
theorem mirrorNode_extends (apply : xsltTransformContext → xmlNode → Heap → Result State)
    (happly : ∀ c inst h c1 h1, apply c inst h = .ok (c1, h1) → Heap.Extends h h1)
    (oldInsert : Option Nat) :
    ∀ (t : xmlNode) insert ctxt heap ctxt1 heap1,
      mirrorNode apply oldInsert t insert ctxt heap = .ok (ctxt1, heap1) →
      Heap.Extends heap heap1 := by
  intro t
  induction t using xmlNode.induct with
  | h d cs ih =>
    intro insert ctxt heap ctxt1 heap1 h
    have hadd : ∀ (hb : IS_BLANK_NODE (.mk d cs) = false), Heap.Extends heap
        (xmlAddChild (heap ++ [{ data := d, parent := none, children := [] }]) insert
          heap.length) := by
      intro hb
      exact extends_copy_add ⟨true, true, fun _ => true⟩ heap _ (.mk d cs) heap.length insert hb
        (xmlCopyNode_ok _ (fun _ => rfl) heap (.mk d cs))
    rw [mirrorNode] at h
    split at h
    · split at h
      · split at h
        · rename_i c2 h2 ha
          simp only [Result.ok.injEq, Prod.mk.injEq] at h
          rw [← h.2]
          exact happly _ _ _ _ _ ha
        · cases h
      · simp only [Result.ok.injEq, Prod.mk.injEq] at h
        rw [← h.2]
        exact Heap.Extends.refl _
    · split at h
      · simp only [Result.ok.injEq, Prod.mk.injEq] at h
        rw [← h.2]
        exact Heap.Extends.refl _
      · rename_i hb
        split at h
        · exact (hadd (by simpa using hb)).trans
            (mirrorList_extends apply oldInsert cs ih _ _ _ _ _ h)
        · simp only [Result.ok.injEq, Prod.mk.injEq] at h
          rw [← h.2]
          exact hadd (by simpa using hb)

theorem nextSibling_cons (doc : xmlNode) (k : Nat) (p : xmlNodePtr) :
    nextSibling doc (k :: p)
      = match nodeAt doc ((k + 1) :: p) with
        | some _ => some ((k + 1) :: p)
        | none => none := rfl

/-- The walker on a non-empty run of siblings `cs`, the children from index `k`
on of the node at `p`: it mirrors them under the same cursor, then climbs from
the last of them. -/
theorem walk_list (apply : xsltTransformContext → xmlNode → Heap → Result State)
    (mem : Allocator) (doc : xmlNode) (c0 : xmlNodePtr) (oldInsert : Option Nat)
    (p : xmlNodePtr) (hp : c0.length ≤ p.length) :
    ∀ (cs : List xmlNode) (k : Nat),
      (∀ c ∈ cs, WalkNodeSpec apply mem doc c0 oldInsert c) → cs ≠ [] →
      (∀ j, nodeAt doc ((k + j) :: p) = cs[j]?) →
      ∀ (F : Nat) (I cp : Option Nat) (ctxt : xsltTransformContext) (heap : Heap)
        (seen : List (xmlNodePtr × Option Nat)) (R : Result State),
        (match mirrorList apply oldInsert cs I ctxt heap with
          | .fault f => R = .fault f
          | .ok (ctxt1, heap1) =>
            match ascend doc (some c0) heap1 ((k + cs.length - 1) :: p) I with
            | .fault f => R = .fault f
            | .ok (cur1, ins1) => ∀ cp1 seen1,
                walkState (walkLoop apply mem doc (some c0) oldInsert F cur1 ins1 cp1 ctxt1 heap1
                  seen1) = R) →
        walkState (walkLoop apply mem doc (some c0) oldInsert (visitsList cs + F)
          (some (k :: p)) I cp ctxt heap seen) = R := by
  intro cs
  induction cs with
  | nil => intro k _ hne; exact absurd rfl hne
  | cons t rest ih =>
    intro k hP _ hsib F I cp ctxt heap seen R hprem
    have ht : nodeAt doc (k :: p) = some t := by simpa using hsib 0
    have hfuel : visitsList (t :: rest) + F = visits t + (visitsList rest + F) := by
      simp only [visitsList]; omega
    rw [hfuel]
    apply hP t (List.mem_cons_self _ _) (k :: p) _ I cp ctxt heap seen R ht
      (by simp only [List.length_cons]; omega)
    rw [mirrorList] at hprem
    cases hm : mirrorNode apply oldInsert t I ctxt heap with
    | fault f =>
      rw [hm] at hprem
      exact hprem
    | ok st =>
      obtain ⟨ctxt1, heap1⟩ := st
      rw [hm] at hprem
      simp only at hprem ⊢
      cases rest with
      | nil =>
        have hnx : nodeAt doc ((k + 1) :: p) = none := by simpa using hsib 1
        simp only [stepOver, nextSibling_cons, hnx]
        simpa [mirrorList, visitsList] using hprem
      | cons t2 rest2 =>
        have hnx : nodeAt doc ((k + 1) :: p) = some t2 := by simpa using hsib 1
        simp only [stepOver, nextSibling_cons, hnx]
        intro cp1 seen1
        apply ih (k + 1) (fun c hc => hP c (List.mem_cons_of_mem _ hc)) (by simp)
          (fun j => by
            have := hsib (j + 1)
            simpa [Nat.add_assoc, Nat.add_comm 1 j] using this)
        have hidx : k + 1 + (t2 :: rest2).length - 1 = k + (t :: t2 :: rest2).length - 1 := by
          simp only [List.length_cons]; omega
        rw [hidx]
        exact hprem

theorem walkable_of_mem {cs : List xmlNode} (h : walkableList cs = true) :
    ∀ c ∈ cs, walkable c = true := by
  induction cs with
  | nil => intro c hc; cases hc
  | cons a as ih =>
    simp only [walkableList, Bool.and_eq_true] at h
    intro c hc
    rcases List.mem_cons.mp hc with h1 | h1
    · subst h1; exact h.1
    · exact ih h.2 c h1

theorem nodeAt_child (doc : xmlNode) (cur : xmlNodePtr) (t : xmlNode)
    (h : nodeAt doc cur = some t) (j : Nat) : nodeAt doc (j :: cur) = t.children[j]? := by
  simp [nodeAt, h]

/-- One iteration of the walker on a node that is not descended from and for
which the first part of the loop body yields the state `(ctxt1, heap1)`. -/
theorem walkLoop_step_over (apply : xsltTransformContext → xmlNode → Heap → Result State)
    (mem : Allocator) (doc : xmlNode) (content : Option xmlNodePtr) (oldInsert : Option Nat)
    (F : Nat) (cur : xmlNodePtr) (t : xmlNode) (I cp cp1 : Option Nat)
    (ctxt ctxt1 : xsltTransformContext) (heap heap1 : Heap)
    (seen : List (xmlNodePtr × Option Nat))
    (hnode : nodeAt doc cur = some t) (hnd : descends t = false)
    (hproc : processCur apply mem oldInsert t I cp ctxt heap = .ok (some (cp1, ctxt1, heap1))) :
    walkLoop apply mem doc content oldInsert (F + 1) (some cur) I cp ctxt heap seen
      = match stepOver doc content heap1 cur I with
        | .ok (cur1, ins1) =>
          walkLoop apply mem doc content oldInsert F cur1 ins1 cp1 ctxt1 heap1
            (seen ++ [(cur, I)])
        | .fault f => .fault f := by
  simp only [walkLoop, hnode, hproc, skipToNext_of_not_descends _ _ _ _ _ _ _ hnd]

/-- One iteration of the walker on a copied node that is descended from. -/
theorem walkLoop_step_down (apply : xsltTransformContext → xmlNode → Heap → Result State)
    (mem : Allocator) (doc : xmlNode) (content : Option xmlNodePtr) (oldInsert : Option Nat)
    (F : Nat) (cur : xmlNodePtr) (t : xmlNode) (I cp : Option Nat) (c : Nat)
    (ctxt ctxt1 : xsltTransformContext) (heap heap1 : Heap)
    (seen : List (xmlNodePtr × Option Nat))
    (hnode : nodeAt doc cur = some t) (hd : descends t = true)
    (hproc : processCur apply mem oldInsert t I cp ctxt heap
      = .ok (some (some c, ctxt1, heap1))) :
    walkLoop apply mem doc content oldInsert (F + 1) (some cur) I cp ctxt heap seen
      = walkLoop apply mem doc content oldInsert F (some (0 :: cur)) (some c) (some c) ctxt1 heap1
          (seen ++ [(cur, I)]) := by
  simp only [walkLoop, hnode, hproc, skipToNext_of_descends _ _ _ _ _ _ _ hd]

/-- The walker on a walkable template node strictly below the content root
refines the reference: see `WalkNodeSpec`. -/
theorem walk_node (apply : xsltTransformContext → xmlNode → Heap → Result State)
    (happly : ∀ c inst h c1 h1, apply c inst h = .ok (c1, h1) → Heap.Extends h h1)
    (mem : Allocator) (hcopy : ∀ d, mem.copy d = true) (doc : xmlNode) (c0 : xmlNodePtr)
    (oldInsert : Option Nat) :
    ∀ t : xmlNode, walkable t = true → WalkNodeSpec apply mem doc c0 oldInsert t := by
  intro t
  induction t using xmlNode.induct with
  | h d cs ih =>
    intro hw cur F I cp ctxt heap seen R hnode hlen hprem
    rw [walkable] at hw
    rw [mirrorNode] at hprem
    by_cases hx : IS_XSLT_ELEM (.mk d cs) = true
    · -- an instruction: no copy, not descended from
      have hnd : descends (.mk d cs) = false := by simpa [hx] using hw
      have hv : visits (.mk d cs) + F = F + 1 := by simp [visits, hx]; omega
      rw [hv]
      simp only [hx, if_true] at hprem
      by_cases hn : IS_XSLT_NAME (.mk d cs) "apply-templates" = true
      · simp only [hn, if_true] at hprem
        cases ha : apply { ctxt with insert := I } (.mk d cs) heap with
        | fault f =>
          rw [ha] at hprem
          simp only at hprem
          simp [walkLoop, hnode, processCur, hx, hn, ha, walkState, hprem]
        | ok st =>
          obtain ⟨ctxt1, heap1⟩ := st
          rw [ha] at hprem
          simp only at hprem
          rw [walkLoop_step_over apply mem doc (some c0) oldInsert F cur _ I cp cp
            ctxt { ctxt1 with insert := oldInsert } heap heap1 seen hnode hnd
            (by simp [processCur, hx, hn, ha])]
          cases hs : stepOver doc (some c0) heap1 cur I with
          | fault f => rw [hs] at hprem; simp only at hprem; simp [walkState, hprem]
          | ok nx =>
            obtain ⟨cur1, ins1⟩ := nx
            rw [hs] at hprem
            exact hprem _ _
      · simp only [hn, Bool.false_eq_true, if_false] at hprem
        rw [walkLoop_step_over apply mem doc (some c0) oldInsert F cur _ I cp cp
          ctxt ctxt heap heap seen hnode hnd (by simp [processCur, hx, hn])]
        cases hs : stepOver doc (some c0) heap cur I with
        | fault f => rw [hs] at hprem; simp only at hprem; simp [walkState, hprem]
        | ok nx =>
          obtain ⟨cur1, ins1⟩ := nx
          rw [hs] at hprem
          exact hprem _ _
    · simp only [hx, Bool.false_eq_true, if_false] at hprem
      by_cases hb : IS_BLANK_NODE (.mk d cs) = true
      · -- a blank text node: no copy, not descended from
        have hnd : descends (.mk d cs) = false := by simpa [hx, hb] using hw
        have hv : visits (.mk d cs) + F = F + 1 := by simp [visits, hb]; omega
        rw [hv]
        simp only [hb, if_true] at hprem
        rw [walkLoop_step_over apply mem doc (some c0) oldInsert F cur _ I cp cp
          ctxt ctxt heap heap seen hnode hnd (by simp [processCur, hx, hb])]
        cases hs : stepOver doc (some c0) heap cur I with
        | fault f => rw [hs] at hprem; simp only at hprem; simp [walkState, hprem]
        | ok nx =>
          obtain ⟨cur1, ins1⟩ := nx
          rw [hs] at hprem
          exact hprem _ _
      · -- a copied node
        simp only [hb, Bool.false_eq_true, if_false] at hprem
        have hproc : processCur apply mem oldInsert (.mk d cs) I cp ctxt heap
            = .ok (some (some heap.length, ctxt,
                xmlAddChild (heap ++ [{ data := d, parent := none, children := [] }]) I
                  heap.length)) := by
          simp [processCur, hx, hb, xmlCopyNode_ok mem hcopy, xmlNode.data]
        by_cases hd : descends (.mk d cs) = true
        · have hwl : walkableList cs = true := by simpa [hx, hb, hd] using hw
          have hv : visits (.mk d cs) + F = (visitsList cs + F) + 1 := by
            simp [visits, hx, hb, hd]; omega
          rw [hv, walkLoop_step_down apply mem doc (some c0) oldInsert _ cur _ I cp heap.length
            ctxt ctxt heap _ seen hnode hd hproc]
          simp only [hd, if_true] at hprem
          have hne : cs ≠ [] := by
            intro h0
            simp [descends, xmlNode.children, h0] at hd
          apply walk_list apply mem doc c0 oldInsert cur (le_of_lt hlen) cs 0
            (fun c hc => ih c hc (walkable_of_mem hwl c hc)) hne
            (fun j => by simpa [xmlNode.children] using nodeAt_child doc cur _ hnode j)
          cases hm : mirrorList apply oldInsert cs (some heap.length) ctxt
              (xmlAddChild (heap ++ [{ data := d, parent := none, children := [] }]) I
                heap.length) with
          | fault f => rw [hm] at hprem; exact hprem
          | ok st =>
            obtain ⟨ctxt1, heap1⟩ := st
            rw [hm] at hprem
            simp only at hprem ⊢
            obtain ⟨c, hc1, hc2⟩ := copy_parent heap d I
            obtain ⟨c2, hc3, _, hc4⟩ := (mirrorList_extends apply oldInsert cs
              (fun c _ => mirrorNode_extends apply happly oldInsert c) _ _ _ _ _ hm).2.1 _ _ hc1
            have hcur : ¬ (some cur = some c0) := by
              intro h0
              simp only [Option.some.injEq] at h0
              rw [h0] at hlen
              exact lt_irrefl _ hlen
            rw [ascend_cons]
            simp only [derefParent, hc3, hc4, hc2, hcur, if_false]
            exact hprem
        · have hnd : descends (.mk d cs) = false := by simpa using hd
          have hv : visits (.mk d cs) + F = F + 1 := by simp [visits, hnd]; omega
          rw [hv, walkLoop_step_over apply mem doc (some c0) oldInsert F cur _ I cp
            (some heap.length) ctxt ctxt heap _ seen hnode hnd hproc]
          simp only [hnd, Bool.false_eq_true, if_false] at hprem
          cases hs : stepOver doc (some c0)
              (xmlAddChild (heap ++ [{ data := d, parent := none, children := [] }]) I
                heap.length) cur I with
          | fault f => rw [hs] at hprem; simp only at hprem; simp [walkState, hprem]
          | ok nx =>
            obtain ⟨cur1, ins1⟩ := nx
            rw [hs] at hprem
            exact hprem _ _

/-- The walker started at a walkable content root refines the reference: with
fuel for its iterations, the loop ends in the state the reference yields. -/
theorem walk_content (apply : xsltTransformContext → xmlNode → Heap → Result State)
    (happly : ∀ c inst h c1 h1, apply c inst h = .ok (c1, h1) → Heap.Extends h h1)
    (mem : Allocator) (hcopy : ∀ d, mem.copy d = true) (doc : xmlNode) (c0 : xmlNodePtr)
    (oldInsert : Option Nat) (t0 : xmlNode) (hnode : nodeAt doc c0 = some t0)
    (hroot : walkableRoot t0 = true) (F : Nat) (I cp : Option Nat)
    (ctxt : xsltTransformContext) (heap : Heap) (seen : List (xmlNodePtr × Option Nat)) :
    walkState (walkLoop apply mem doc (some c0) oldInsert (visits t0 + F) (some c0) I cp ctxt
      heap seen) = mirrorNode apply oldInsert t0 I ctxt heap := by
  cases t0 with
  | mk d cs =>
    simp only [walkableRoot, Bool.and_eq_true, Bool.not_eq_true', xmlNode.children] at hroot
    obtain ⟨⟨⟨hx, hb⟩, hd⟩, hwl⟩ := hroot
    have hproc : processCur apply mem oldInsert (.mk d cs) I cp ctxt heap
        = .ok (some (some heap.length, ctxt,
            xmlAddChild (heap ++ [{ data := d, parent := none, children := [] }]) I
              heap.length)) := by
      simp [processCur, hx, hb, xmlCopyNode_ok mem hcopy, xmlNode.data]
    have hv : visits (.mk d cs) + F = (visitsList cs + F) + 1 := by
      simp [visits, hx, hb, hd]; omega
    rw [hv, walkLoop_step_down apply mem doc (some c0) oldInsert _ c0 _ I cp heap.length
      ctxt ctxt heap _ seen hnode hd hproc]
    have hne : cs ≠ [] := by
      intro h0
      simp [descends, xmlNode.children, h0] at hd
    have hm0 : mirrorNode apply oldInsert (.mk d cs) I ctxt heap
        = mirrorList apply oldInsert cs (some heap.length) ctxt
            (xmlAddChild (heap ++ [{ data := d, parent := none, children := [] }]) I
              heap.length) := by
      rw [mirrorNode]
      simp [hx, hb, hd]
    rw [hm0]
    apply walk_list apply mem doc c0 oldInsert c0 (le_refl _) cs 0
      (fun c hc => walk_node apply happly mem hcopy doc c0 oldInsert c (walkable_of_mem hwl c hc))
      hne (fun j => by simpa [xmlNode.children] using nodeAt_child doc c0 _ hnode j)
    cases hm : mirrorList apply oldInsert cs (some heap.length) ctxt
        (xmlAddChild (heap ++ [{ data := d, parent := none, children := [] }]) I
          heap.length) with
    | fault f => rfl
    | ok st =>
      obtain ⟨ctxt1, heap1⟩ := st
      simp only
      obtain ⟨c, hc1, hc2⟩ := copy_parent heap d I
      obtain ⟨c2, hc3, _, hc4⟩ := (mirrorList_extends apply oldInsert cs
        (fun c _ => mirrorNode_extends apply happly oldInsert c) _ _ _ _ _ hm).2.1 _ _ hc1
      rw [ascend_cons]
      simp only [derefParent, hc3, if_true]
      intro cp1 seen1
      simp [walkLoop, walkState]

/-- The dispatcher call made by the walker only extends the heap. -/
theorem dispatch_extends (fuel : Nat) (mem : Allocator) (node : xmlNode) :
    ∀ c inst h c1 h1, dispatch fuel mem node c inst h = .ok (c1, h1) → Heap.Extends h h1 := by
  intro c inst h c1 h1 hd
  unfold dispatch at hd
  split at hd
  · rename_i c2 h2 ha
    simp only [Result.ok.injEq, Prod.mk.injEq] at hd
    rw [← hd.2]
    exact ((run_preserves mem fuel).2.1 _ _ _ _ _ _ ha).2
  · cases hd

/-- With a template whose content root is walkable, `xsltProcessOneNode`
refines the reference walker. -/
theorem process_template_mirror (mem : Allocator) (hcopy : ∀ d, mem.copy d = true)
    (ctxt : xsltTransformContext) (node : xmlNode) (heap : Heap) (template : xsltTemplate)
    (c0 : xmlNodePtr) (t0 : xmlNode) (fuel : Nat)
    (htemplate : xsltGetTemplate ctxt.style node = some template)
    (hcontent : template.content = some c0)
    (hnode : nodeAt (styleDoc ctxt) c0 = some t0)
    (hroot : walkableRoot t0 = true) (hfuel : visits t0 ≤ fuel) :
    xsltProcessOneNode (fuel + 1) mem ctxt node heap
      = mirrorNode (dispatch fuel mem node) ctxt.insert t0 ctxt.insert ctxt heap := by
  obtain ⟨F, rfl⟩ : ∃ F, fuel = visits t0 + F := ⟨fuel - visits t0, by omega⟩
  rw [xsltProcessOneNode_template _ mem ctxt node heap template htemplate]
  have h := walk_content (dispatch (visits t0 + F) mem node) (dispatch_extends _ mem node) mem
    hcopy (styleDoc ctxt) c0 ctxt.insert t0 hnode hroot F ctxt.insert none ctxt heap []
  rw [← h]
  simp only [templateWalk, hcontent, walkState, dispatch]
  rfl

mutual
theorem layout_length : ∀ (t : xmlNode) (base : Nat) (parent : Option Nat),
    (layout base parent t).length = t.size
  | .mk d cs, base, parent => by
    simp [layout, xmlNode.size, layoutList_length cs (base + 1) (some base)]
theorem layoutList_length : ∀ (cs : List xmlNode) (base : Nat) (parent : Option Nat),
    (layoutList base parent cs).length = sizeList cs
  | [], _, _ => by simp [layoutList, sizeList]
  | c :: cs, base, parent => by
    simp [layoutList, sizeList, layout_length c base parent,
      layoutList_length cs (base + c.size) parent]
end

theorem plain_of_mem {cs : List xmlNode} (h : plainList cs = true) :
    ∀ c ∈ cs, plain c = true := by
  induction cs with
  | nil => intro c hc; cases hc
  | cons a as ih =>
    simp only [plainList, Bool.and_eq_true] at h
    intro c hc
    rcases List.mem_cons.mp hc with h1 | h1
    · subst h1; exact h.1
    · exact ih h.2 c h1

theorem walkableList_of_forall {cs : List xmlNode} (h : ∀ c ∈ cs, walkable c = true) :
    walkableList cs = true := by
  induction cs with
  | nil => rfl
  | cons a as ih =>
    simp only [walkableList, Bool.and_eq_true]
    exact ⟨h a (List.mem_cons_self _ _), ih (fun c hc => h c (List.mem_cons_of_mem _ hc))⟩

/-- Literal-only content is walkable. -/
theorem walkable_of_plain : ∀ t : xmlNode, plain t = true → walkable t = true := by
  intro t
  induction t using xmlNode.induct with
  | h d cs ih =>
    intro hp
    rw [plain] at hp
    simp only [Bool.and_eq_true, Bool.not_eq_true', Bool.or_eq_true, List.isEmpty_iff] at hp
    obtain ⟨⟨hx, hc⟩, hl⟩ := hp
    have hwl : walkableList cs = true :=
      walkableList_of_forall (fun c hc => ih c hc (plain_of_mem hl c hc))
    rw [walkable]
    rcases hc with h0 | ⟨hb, hd⟩
    · subst h0
      simp [hx, descends, xmlNode.children]
    · simp [hx, hb, hwl]

theorem xmlAddChild_append (heap : Heap) (d : xmlNodeData) (p : Nat) (hp : p < heap.length) :
    xmlAddChild (heap ++ [{ data := d, parent := none, children := [] }]) (some p) heap.length
      = Heap.update heap p (fun c => { c with children := c.children ++ [heap.length] })
        ++ [{ data := d, parent := some p, children := [] }] := by
  simp only [xmlAddChild]
  rw [Heap.update_append_left _ _ _ _ hp]
  have hlen : (Heap.update heap p
      (fun c => { c with children := c.children ++ [heap.length] })).length = heap.length :=
    Heap.length_update _ _ _
  have := Heap.update_append_length (Heap.update heap p
      (fun c => { c with children := c.children ++ [heap.length] }))
      { data := d, parent := none, children := [] } []
      (fun c => { c with parent := some p })
  rw [hlen] at this
  rw [this]

theorem mirrorList_plain (apply : xsltTransformContext → xmlNode → Heap → Result State)
    (oldInsert : Option Nat) :
    ∀ (cs : List xmlNode),
      (∀ c ∈ cs, IS_BLANK_NODE c = false → MirrorsPlain apply oldInsert c) →
      (∀ c ∈ cs, IS_XSLT_ELEM c = false) →
      ∀ (p : Nat) (ctxt : xsltTransformContext) (heap : Heap), p < heap.length →
        mirrorList apply oldInsert cs (some p) ctxt heap
          = .ok (ctxt,
              Heap.update heap p
                (fun c => { c with children := c.children ++ childIds heap.length (pruneList cs) })
              ++ layoutList heap.length (some p) (pruneList cs)) := by
  intro cs
  induction cs with
  | nil =>
    intro _ _ p ctxt heap _
    simp [mirrorList, pruneList, childIds, layoutList, Heap.update_id]
  | cons c cs ih =>
    intro hM hX p ctxt heap hp
    have ih1 := ih (fun c1 h1 => hM c1 (List.mem_cons_of_mem _ h1))
      (fun c1 h1 => hX c1 (List.mem_cons_of_mem _ h1))
    rw [mirrorList]
    by_cases hb : IS_BLANK_NODE c = true
    · have hskip : mirrorNode apply oldInsert c (some p) ctxt heap = .ok (ctxt, heap) := by
        cases c with
        | mk d cs1 =>
          rw [mirrorNode]
          simp [hX _ (List.mem_cons_self _ _), hb]
      rw [hskip]
      simp only [pruneList, hb, if_true]
      exact ih1 p ctxt heap hp
    · have hb1 : IS_BLANK_NODE c = false := by simpa using hb
      rw [hM c (List.mem_cons_self _ _) hb1 p ctxt heap hp]
      simp only [pruneList, hb, if_false, Bool.false_eq_true]
      rw [ih1 p ctxt _ (by simp [Heap.length_update]; omega)]
      rw [Heap.update_append_left _ _ _ _ (by simp [Heap.length_update]; exact hp)]
      rw [Heap.update_update]
      simp [Heap.length_update, layout_length, childIds, layoutList, List.append_assoc]

/-- Mirroring a literal-only tree that is not a blank text node has the closed
form `MirrorsPlain`. -/
theorem mirrorNode_plain (apply : xsltTransformContext → xmlNode → Heap → Result State)
    (oldInsert : Option Nat) :
    ∀ t : xmlNode, plain t = true → IS_BLANK_NODE t = false →
      MirrorsPlain apply oldInsert t := by
  intro t
  induction t using xmlNode.induct with
  | h d cs ih =>
    intro hp hb p ctxt heap hlt
    rw [plain] at hp
    simp only [Bool.and_eq_true, Bool.not_eq_true', Bool.or_eq_true, List.isEmpty_iff] at hp
    obtain ⟨⟨hx, hc⟩, hl⟩ := hp
    rw [mirrorNode]
    simp only [hx, hb, Bool.false_eq_true, if_false]
    rw [xmlAddChild_append heap d p hlt]
    rcases hc with h0 | ⟨_, hd⟩
    · subst h0
      simp [descends, xmlNode.children, prune, pruneList, layout, layoutList, childIds]
    · simp only [hd, if_true]
      have hpl := plain_of_mem hl
      rw [mirrorList_plain apply oldInsert cs (fun c hc hbc => ih c hc (hpl c hc) hbc)
        (fun c hc => by
          have := hpl c hc
          cases c with
          | mk d1 cs1 =>
            rw [plain] at this
            simp only [Bool.and_eq_true, Bool.not_eq_true'] at this
            exact this.1.1)
        heap.length ctxt _ (by simp [Heap.length_update])]
      have hlen : (Heap.update heap p
          (fun c => { c with children := c.children ++ [heap.length] })).length = heap.length :=
        Heap.length_update _ _ _
      have := Heap.update_append_length (Heap.update heap p
          (fun c => { c with children := c.children ++ [heap.length] }))
          { data := d, parent := some p, children := [] } []
          (fun c => { c with children := c.children ++ childIds (heap.length + 1) (pruneList cs) })
      rw [hlen] at this
      simp only [List.length_append, List.length_singleton, hlen]
      rw [this]
      simp [prune, layout, List.append_assoc]

theorem subtreeOf_layoutList (H : Heap) (f : Nat) (par : Option Nat) :
    ∀ (cs : List xmlNode),
      (∀ c ∈ cs, ∀ (P S : Heap) (par : Option Nat), H = P ++ layout P.length par c ++ S →
        subtreeOf H f P.length = c) →
      ∀ (Q S : Heap), H = Q ++ layoutList Q.length par cs ++ S →
        (childIds Q.length cs).map (subtreeOf H f) = cs := by
  intro cs
  induction cs with
  | nil => intro _ Q S _; rfl
  | cons c cs ih =>
    intro hc Q S hH
    simp only [childIds, List.map_cons]
    rw [hc c (List.mem_cons_self _ _) Q (layoutList (Q.length + c.size) par cs ++ S) par
      (by rw [hH]; simp [layoutList, List.append_assoc])]
    have := ih (fun c1 h1 => hc c1 (List.mem_cons_of_mem _ h1)) (Q ++ layout Q.length par c) S
      (by rw [hH]; simp [layoutList, List.append_assoc, layout_length])
    simp only [List.length_append, layout_length] at this
    rw [this]

/-- Reading back a laid-out tree from the heap gives the tree. -/
theorem subtreeOf_layout : ∀ (t : xmlNode) (f : Nat), t.height ≤ f →
    ∀ (P S : Heap) (par : Option Nat),
      subtreeOf (P ++ layout P.length par t ++ S) f P.length = t := by
  intro t
  induction t using xmlNode.induct with
  | h d cs ih =>
    intro f hf P S par
    simp only [xmlNode.height] at hf
    obtain ⟨g, rfl⟩ : ∃ g, f = g + 1 := ⟨f - 1, by omega⟩
    have hget : (P ++ layout P.length par (.mk d cs) ++ S)[P.length]?
        = some { data := d, parent := par, children := childIds (P.length + 1) cs } := by
      rw [List.append_assoc, List.getElem?_append_right (le_refl _)]
      simp [layout]
    rw [subtreeOf, hget]
    simp only
    have := subtreeOf_layoutList (P ++ layout P.length par (.mk d cs) ++ S) g (some P.length) cs
      (fun c hc P1 S1 par1 hH => by
        rw [hH]
        exact ih c hc g (by have := height_le_heightList hc; omega) P1 S1 par1)
      (P ++ [{ data := d, parent := par, children := childIds (P.length + 1) cs }]) S
      (by simp [layout, List.append_assoc])
    simp only [List.length_append, List.length_singleton] at this
    rw [this]

/-- An instruction without any attribute called `select` fails the lookup made
by `xsltApplyTemplates`. -/
theorem xmlGetNsProp_absent (inst : xmlNode) (name nameSpace : String)
    (h : ∀ a ∈ inst.data.properties, a.name ≠ name) :
    xmlGetNsProp inst name nameSpace = none := by
  unfold xmlGetNsProp
  rw [Option.map_eq_none', List.find?_eq_none]
  intro a ha
  simp [h a ha]

/-- The output shell, when one is chosen: the XML document of the declared
version for an absent method or "xml", the seeded HTML document for "html". -/
theorem outputShell_some (mem : Allocator) (style : xsltStylesheet)
    (ctxt ctxt1 : xsltTransformContext) (res0 : xmlDoc)
    (h : outputShell mem style ctxt = some (ctxt1, res0)) :
    ((style.method = none ∨ style.method = some "xml") ∧
      res0 = { type := XML_DOCUMENT_NODE, version := style.version, seed := none,
               charset := xmlCharEncoding.XML_CHAR_ENCODING_NONE, encoding := none,
               intSubset := none, nodes := [docCell XML_DOCUMENT_NODE] }) ∨
    (style.method = some "html" ∧
      res0 = { type := XML_HTML_DOCUMENT_NODE, version := none,
               seed := some (style.doctypePublic, style.doctypeSystem),
               charset := xmlCharEncoding.XML_CHAR_ENCODING_NONE, encoding := none,
               intSubset := none, nodes := [docCell XML_HTML_DOCUMENT_NODE] }) := by
  unfold outputShell at h
  cases hd : mem.document <;> cases hm : style.method with
  | none => simp [hm, hd, xmlNewDoc] at h <;> simp [h.2]
  | some m =>
    by_cases h1 : m = "xml"
    · simp [hm, hd, h1, xmlStrEqual, xmlNewDoc] at h <;> simp [h1, h.2]
    · by_cases h2 : m = "html"
      · simp [hm, hd, h2, xmlStrEqual, htmlNewDoc] at h <;> simp [h2, h.2]
      · simp [hm, h1, h2, xmlStrEqual] at h

theorem xmlNode.size_eq (n : xmlNode) : n.size = sizeList n.children + 1 := by
  cases n with
  | mk d cs => simp [xmlNode.size, xmlNode.children]

theorem sizeList_drop_succ : ∀ (cs : List xmlNode) (i : Nat) (c : xmlNode), cs[i]? = some c →
    sizeList (cs.drop i) = c.size + sizeList (cs.drop (i + 1)) := by
  intro cs
  induction cs with
  | nil => intro i c h; simp at h
  | cons a as ih =>
    intro i c h
    cases i with
    | zero =>
      simp only [List.getElem?_cons_zero, Option.some.injEq] at h
      subst h
      simp [sizeList]
    | succ i =>
      simp only [List.getElem?_cons_succ] at h
      simpa using ih i c h

theorem sizeList_drop_le : ∀ (cs : List xmlNode) (i : Nat), sizeList (cs.drop i) ≤ sizeList cs := by
  intro cs
  induction cs with
  | nil => intro i; simp [sizeList]
  | cons a as ih =>
    intro i
    cases i with
    | zero => simp
    | succ i =>
      have := ih i
      simp only [List.drop_succ_cons, sizeList]
      omega

theorem remaining_descend (doc : xmlNode) (cur : xmlNodePtr) (n child : xmlNode)
    (rest : List xmlNode) (h : nodeAt doc cur = some n) (hc : n.children = child :: rest) :
    (∃ m, nodeAt doc (0 :: cur) = some m) ∧ remaining doc (0 :: cur) + 1 = remaining doc cur := by
  have e1 : nodeAt doc (0 :: cur) = some child := by simp [nodeAt, h, hc]
  have e2 : n.size = child.size + sizeList rest + 1 := by
    rw [xmlNode.size_eq, hc]; rfl
  have e3 : following doc (0 :: cur) = sizeList rest + following doc cur := by
    simp [following, h, hc]
  refine ⟨⟨child, e1⟩, ?_⟩
  simp only [remaining, e1, e3, h, e2]
  ring

theorem remaining_next (doc : xmlNode) (i : Nat) (p : xmlNodePtr) (m : xmlNode)
    (h : nodeAt doc ((i + 1) :: p) = some m) :
    remaining doc ((i + 1) :: p) = following doc (i :: p) := by
  have h2 := h
  simp only [nodeAt] at h2
  cases hp : nodeAt doc p with
  | none => simp [hp] at h2
  | some n =>
    simp only [hp] at h2
    have := sizeList_drop_succ n.children (i + 1) m h2
    simp only [remaining, h, following, hp]
    omega

theorem nextSibling_spec (doc : xmlNode) (cur nx : xmlNodePtr)
    (h : nextSibling doc cur = some nx) :
    (∃ m, nodeAt doc nx = some m) ∧ remaining doc nx = following doc cur := by
  cases cur with
  | nil => simp [nextSibling] at h
  | cons i p =>
    cases hm : nodeAt doc ((i + 1) :: p) with
    | none => simp [nextSibling, hm] at h
    | some m =>
      simp only [nextSibling, hm, Option.some.injEq] at h
      subst h
      exact ⟨⟨m, hm⟩, remaining_next doc i p m hm⟩

theorem following_le_cons (doc : xmlNode) (i : Nat) (p : xmlNodePtr) :
    following doc p ≤ following doc (i :: p) := by
  simp [following]

theorem ascend_spec (doc : xmlNode) (content : Option xmlNodePtr) (heap : Heap) :
    ∀ (cur : xmlNodePtr) (insert : Option Nat) (nx : xmlNodePtr) (ins : Option Nat),
      ascend doc content heap cur insert = .ok (some nx, ins) →
      (∃ m, nodeAt doc nx = some m) ∧ remaining doc nx ≤ following doc cur := by
  intro cur
  induction cur with
  | nil =>
    intro insert nx ins h
    unfold ascend at h
    split at h <;> simp at h
  | cons i p ih =>
    intro insert nx ins h
    unfold ascend at h
    split at h
    · split at h
      · simp at h
      · split at h
        · rename_i nx1 hnx
          simp only [Result.ok.injEq, Prod.mk.injEq, Option.some.injEq] at h
          obtain ⟨e1, _⟩ := h
          subst e1
          obtain ⟨hv, hr⟩ := nextSibling_spec doc p nx1 hnx
          exact ⟨hv, by have := following_le_cons doc i p; omega⟩
        · obtain ⟨hv, hr⟩ := ih _ _ _ h
          exact ⟨hv, by have := following_le_cons doc i p; omega⟩
    · cases h

theorem size_pos (n : xmlNode) : 1 ≤ n.size := by
  rw [xmlNode.size_eq]; omega

theorem remaining_pos (doc : xmlNode) (ptr : xmlNodePtr) (n : xmlNode)
    (h : nodeAt doc ptr = some n) : following doc ptr < remaining doc ptr := by
  have := size_pos n
  simp only [remaining, h]
  omega

theorem skipToNext_spec (doc : xmlNode) (content : Option xmlNodePtr) (heap : Heap)
    (cur : xmlNodePtr) (curNode : xmlNode) (insert copy : Option Nat) (nx : xmlNodePtr)
    (ins : Option Nat) (hn : nodeAt doc cur = some curNode)
    (h : skipToNext doc content heap cur curNode insert copy = .ok (some nx, ins)) :
    (∃ m, nodeAt doc nx = some m) ∧ remaining doc nx < remaining doc cur := by
  have hpos := remaining_pos doc cur curNode hn
  have key : (match nextSibling doc cur with
      | some nx => Result.ok (some nx, insert)
      | none => ascend doc content heap cur insert) = .ok (some nx, ins) →
      (∃ m, nodeAt doc nx = some m) ∧ remaining doc nx < remaining doc cur := by
    intro h
    split at h
    · rename_i nx1 hnx
      simp only [Result.ok.injEq, Prod.mk.injEq, Option.some.injEq] at h
      obtain ⟨e1, _⟩ := h
      subst e1
      obtain ⟨hv, hr⟩ := nextSibling_spec doc cur nx1 hnx
      exact ⟨hv, by omega⟩
    · obtain ⟨hv, hr⟩ := ascend_spec doc content heap _ _ _ _ h
      exact ⟨hv, by omega⟩
  unfold skipToNext at h
  split at h
  · rename_i child rest hch
    split at h
    · split at h
      · simp only [Result.ok.injEq, Prod.mk.injEq, Option.some.injEq] at h
        obtain ⟨e1, _⟩ := h
        subst e1
        obtain ⟨hv, hr⟩ := remaining_descend doc cur curNode child rest hn hch
        exact ⟨hv, by omega⟩
      · cases h
    · exact key h
  · exact key h

theorem remaining_le_size (doc : xmlNode) : ∀ (ptr : xmlNodePtr) (n : xmlNode),
    nodeAt doc ptr = some n → remaining doc ptr ≤ doc.size := by
  intro ptr
  induction ptr with
  | nil =>
    intro n h
    simp only [nodeAt, Option.some.injEq] at h
    subst h
    simp [remaining, nodeAt, following]
  | cons i p ih =>
    intro n h
    have h2 := h
    simp only [nodeAt] at h2
    cases hp : nodeAt doc p with
    | none => simp [hp] at h2
    | some m =>
      simp only [hp] at h2
      have h3 := ih m hp
      have h4 := sizeList_drop_succ m.children i n h2
      have h5 := sizeList_drop_le m.children i
      have h6 := xmlNode.size_eq m
      simp only [remaining, hp, h, following] at h3 ⊢
      omega

theorem derefParent_settles (heap : Heap) (insert : Option Nat) :
    derefParent heap insert ≠ .fault .outOfFuel := by
  unfold derefParent
  split
  · simp
  · split <;> simp

theorem ascend_settles (doc : xmlNode) (content : Option xmlNodePtr) (heap : Heap) :
    ∀ (cur : xmlNodePtr) (insert : Option Nat),
      ascend doc content heap cur insert ≠ .fault .outOfFuel := by
  intro cur
  induction cur with
  | nil =>
    intro insert
    unfold ascend
    have := derefParent_settles heap insert
    split
    · simp
    · rename_i f hf
      intro h
      simp only [Result.fault.injEq] at h
      subst h
      exact this hf
  | cons i p ih =>
    intro insert
    unfold ascend
    have := derefParent_settles heap insert
    split
    · split
      · simp
      · split
        · simp
        · exact ih _
    · rename_i f hf
      intro h
      simp only [Result.fault.injEq] at h
      subst h
      exact this hf

theorem skipToNext_settles (doc : xmlNode) (content : Option xmlNodePtr) (heap : Heap)
    (cur : xmlNodePtr) (curNode : xmlNode) (insert copy : Option Nat) :
    skipToNext doc content heap cur curNode insert copy ≠ .fault .outOfFuel := by
  have key : (match nextSibling doc cur with
      | some nx => Result.ok (some nx, insert)
      | none => ascend doc content heap cur insert) ≠ .fault .outOfFuel := by
    split
    · simp
    · exact ascend_settles doc content heap _ _
  unfold skipToNext
  split
  · split
    · split <;> simp
    · exact key
  · exact key

theorem processCur_settles
    (apply : xsltTransformContext → xmlNode → Heap → Result State) (mem : Allocator)
    (oldInsert : Option Nat) (curNode : xmlNode) (insert copy : Option Nat)
    (ctxt : xsltTransformContext) (heap : Heap)
    (ha : apply { ctxt with insert := insert } curNode heap ≠ .fault .outOfFuel) :
    processCur apply mem oldInsert curNode insert copy ctxt heap ≠ .fault .outOfFuel := by
  unfold processCur
  split
  · split
    · split
      · simp
      · rename_i f hf
        intro h
        simp only [Result.fault.injEq] at h
        subst h
        exact ha hf
    · simp
  · split
    · split <;> simp
    · simp

theorem walkLoop_none (apply : xsltTransformContext → xmlNode → Heap → Result State)
    (mem : Allocator) (doc : xmlNode) (content : Option xmlNodePtr) (oldInsert : Option Nat)
    (fuel : Nat) (insert copy : Option Nat) (ctxt : xsltTransformContext) (heap : Heap)
    (seen : List (xmlNodePtr × Option Nat)) :
    walkLoop apply mem doc content oldInsert fuel none insert copy ctxt heap seen
      = .ok { ctxt := ctxt, heap := heap, visited := seen } := by
  cases fuel <;> simp [walkLoop]

/-- The walker's loop ends: with as many iterations allowed as there are nodes
from `cur` on in the stylesheet document, the loop does not run out of
iterations. -/
theorem walkLoop_settles
    (apply : xsltTransformContext → xmlNode → Heap → Result State) (mem : Allocator)
    (doc : xmlNode) (content : Option xmlNodePtr) (oldInsert : Option Nat)
    (ctxt : xsltTransformContext)
    (hp : ∀ ctxt inst heap ctxt1 heap1, apply ctxt inst heap = .ok (ctxt1, heap1) →
      ctxt1 = ctxt ∧ Heap.Extends heap heap1)
    (ha : ∀ (insert : Option Nat) (inst : xmlNode) (heap : Heap),
      apply { ctxt with insert := insert } inst heap ≠ .fault .outOfFuel)
    (hins : ctxt.insert = oldInsert) :
    ∀ (fuel : Nat) (cur : xmlNodePtr) (insert copy : Option Nat) (heap : Heap)
      (seen : List (xmlNodePtr × Option Nat)),
      (∀ n, nodeAt doc cur = some n → remaining doc cur ≤ fuel) → 1 ≤ fuel →
      walkLoop apply mem doc content oldInsert fuel (some cur) insert copy ctxt heap seen
        ≠ .fault .outOfFuel := by
  intro fuel
  induction fuel with
  | zero => intro cur insert copy heap seen _ h1; omega
  | succ fuel ih =>
    intro cur insert copy heap seen hrem _
    simp only [walkLoop]
    cases hn : nodeAt doc cur with
    | none => simp
    | some curNode =>
      simp only []
      cases hpc : processCur apply mem oldInsert curNode insert copy ctxt heap with
      | fault f =>
        simp only []
        intro h
        simp only [Result.fault.injEq] at h
        subst h
        exact processCur_settles apply mem oldInsert curNode insert copy ctxt heap (ha _ _ _) hpc
      | ok o =>
        cases o with
        | none => simp
        | some st =>
          obtain ⟨copy1, ctxt1, heap1⟩ := st
          obtain ⟨e1, _⟩ := processCur_preserves apply mem hp oldInsert curNode insert copy ctxt
            heap hins copy1 ctxt1 heap1 hpc
          subst e1
          simp only []
          cases hs : skipToNext doc content heap1 cur curNode insert copy1 with
          | fault f =>
            simp only []
            intro h
            simp only [Result.fault.injEq] at h
            subst h
            exact skipToNext_settles doc content heap1 cur curNode insert copy1 hs
          | ok nxt =>
            obtain ⟨cur1, insert1⟩ := nxt
            simp only []
            cases cur1 with
            | none => rw [walkLoop_none]; simp
            | some nx =>
              obtain ⟨⟨m, hm⟩, hlt⟩ := skipToNext_spec doc content heap1 cur curNode insert copy1
                nx insert1 hn hs
              have h1 := hrem curNode hn
              have h2 := remaining_pos doc nx m hm
              exact ih nx insert1 copy1 heap1 _ (fun _ _ => by omega) (by omega)

theorem defaultBody_settles
    (process : xsltTransformContext → xmlNode → Heap → Result State) (mem : Allocator)
    (node : xmlNode) (ctxt : xsltTransformContext) (heap : Heap)
    (h : process ctxt node heap ≠ .fault .outOfFuel) :
    defaultBody process mem node ctxt heap ≠ .fault .outOfFuel := by
  unfold defaultBody
  split
  · exact h
  · exact h
  · exact h
  · split
    · simp
    · split <;> simp
  · split <;> simp
  · simp

/-- The loop of the built-in rule ends when each call on a child does. -/
theorem defaultLoop_settles
    (process : xsltTransformContext → xmlNode → Heap → Result State) (mem : Allocator)
    (hp : ∀ ctxt node heap ctxt1 heap1, process ctxt node heap = .ok (ctxt1, heap1) →
      ctxt1 = ctxt ∧ Heap.Extends heap heap1)
    (ctxt : xsltTransformContext) :
    ∀ (nodes : List xmlNode) (heap : Heap),
      (∀ c ∈ nodes, ∀ heap, process ctxt c heap ≠ .fault .outOfFuel) →
      defaultLoop process mem nodes ctxt heap ≠ .fault .outOfFuel := by
  intro nodes
  induction nodes with
  | nil => intro heap _; simp [defaultLoop]
  | cons node rest ih =>
    intro heap hc
    unfold defaultLoop
    cases hb : defaultBody process mem node ctxt heap with
    | ok st =>
      obtain ⟨ctxt1, heap1⟩ := st
      obtain ⟨e1, _⟩ := defaultBody_preserves process mem hp _ _ _ _ _ hb
      subst e1
      simp only []
      exact ih heap1 (fun c hc1 => hc c (List.mem_cons_of_mem _ hc1))
    | fault f =>
      simp only []
      intro h
      simp only [Result.fault.injEq] at h
      subst h
      exact defaultBody_settles process mem node ctxt heap (hc node (List.mem_cons_self _ _) heap) hb

/-- The built-in rule does not run out of fuel when the calls on the children
do not. -/
theorem default_settles_of (mem : Allocator) (node : xmlNode)
    (ih : ∀ c ∈ node.children, ∀ (fuel : Nat) (ctxt : xsltTransformContext) (heap : Heap),
      (styleDoc ctxt).size + 3 * c.height ≤ fuel →
      xsltProcessOneNode fuel mem ctxt c heap ≠ .fault .outOfFuel)
    (fuel : Nat) (ctxt : xsltTransformContext) (heap : Heap)
    (hf : (styleDoc ctxt).size + 3 * node.height ≤ fuel + 2) :
    xsltDefaultProcessOneNode fuel mem ctxt node heap ≠ .fault .outOfFuel := by
  have hs := size_pos (styleDoc ctxt)
  obtain ⟨d, cs⟩ := node
  simp only [xmlNode.height] at hf
  obtain ⟨f, rfl⟩ : ∃ f, fuel = f + 1 := ⟨fuel - 1, by omega⟩
  have hloop : defaultLoop (xsltProcessOneNode f mem) mem (xmlNode.mk d cs).children ctxt heap
      ≠ .fault .outOfFuel := by
    apply defaultLoop_settles _ mem (run_preserves mem f).2.2 ctxt
    intro c hc heap1
    have hc1 : c ∈ cs := hc
    have := height_le_heightList hc1
    exact ih c hc f ctxt heap1 (by omega)
  unfold xsltDefaultProcessOneNode
  split
  · exact hloop
  · exact hloop
  · exact hloop
  · simp

theorem height_pos (n : xmlNode) : 1 ≤ n.height := by
  cases n with
  | mk d cs => simp [xmlNode.height]

/-- The call of `xsltApplyTemplates` made by the walker does not run out of
fuel when the calls on the children of the source node do not. -/
theorem dispatch_settles_of (mem : Allocator) (node : xmlNode)
    (ih : ∀ c ∈ node.children, ∀ (fuel : Nat) (ctxt : xsltTransformContext) (heap : Heap),
      (styleDoc ctxt).size + 3 * c.height ≤ fuel →
      xsltProcessOneNode fuel mem ctxt c heap ≠ .fault .outOfFuel)
    (fuel : Nat) (ctxt : xsltTransformContext) (inst : xmlNode) (heap : Heap)
    (hf : (styleDoc ctxt).size + 3 * node.height ≤ fuel + 1) :
    dispatch fuel mem node ctxt inst heap ≠ .fault .outOfFuel := by
  have hs := size_pos (styleDoc ctxt)
  have hh := height_pos node
  obtain ⟨f, rfl⟩ : ∃ f, fuel = f + 1 := ⟨fuel - 1, by omega⟩
  have := default_settles_of mem node ih f ctxt heap (by omega)
  cases hsel : xmlGetNsProp inst "select" XSLT_NAMESPACE with
  | some v => simp [dispatch, xsltApplyTemplates, hsel]
  | none =>
    cases hd : xsltDefaultProcessOneNode f mem ctxt node heap with
    | ok st => simp [dispatch, xsltApplyTemplates, hsel, hd]
    | fault g =>
      rw [hd] at this
      simpa [dispatch, xsltApplyTemplates, hsel, hd] using this

theorem dispatch_preserves (fuel : Nat) (mem : Allocator) (node : xmlNode) :
    ∀ c inst h c1 h1, dispatch fuel mem node c inst h = .ok (c1, h1) →
      c1 = c ∧ Heap.Extends h h1 := by
  intro c inst h c1 h1 hd
  refine ⟨?_, dispatch_extends fuel mem _ c inst h c1 h1 hd⟩
  unfold dispatch at hd
  split at hd
  · rename_i c2 h2 happ
    have := ((run_preserves mem fuel).2.1 _ _ _ _ _ _ happ).1
    simp only [Result.ok.injEq, Prod.mk.injEq] at hd
    rw [← hd.1, this]
    rfl
  · cases hd

/-- The walk over the template content does not run out of iterations when the
calls on the children of the source node do not run out of fuel. -/
theorem templateWalk_settles_of (mem : Allocator) (node : xmlNode)
    (ih : ∀ c ∈ node.children, ∀ (fuel : Nat) (ctxt : xsltTransformContext) (heap : Heap),
      (styleDoc ctxt).size + 3 * c.height ≤ fuel →
      xsltProcessOneNode fuel mem ctxt c heap ≠ .fault .outOfFuel)
    (fuel : Nat) (ctxt : xsltTransformContext) (heap : Heap) (template : xsltTemplate)
    (hf : (styleDoc ctxt).size + 3 * node.height ≤ fuel + 1) :
    templateWalk fuel mem ctxt node heap template ≠ .fault .outOfFuel := by
  have hs := size_pos (styleDoc ctxt)
  have hh := height_pos node
  unfold templateWalk
  cases hc : template.content with
  | none => rw [walkLoop_none]; simp
  | some c0 =>
    apply walkLoop_settles (dispatch fuel mem node) mem (styleDoc ctxt) (some c0)
      ctxt.insert ctxt (dispatch_preserves fuel mem node)
    · intro insert inst heap1
      exact dispatch_settles_of mem node ih fuel _ inst heap1 (by
        have : styleDoc { ctxt with insert := insert } = styleDoc ctxt := rfl
        rw [this]; omega)
    · rfl
    · intro n hn
      have := remaining_le_size (styleDoc ctxt) c0 n hn
      omega
    · omega

/-- With `size of the stylesheet document + 3 * height of the source node`
units of fuel, `xsltProcessOneNode` does not run out of fuel. -/
theorem process_settles (mem : Allocator) : ∀ (node : xmlNode) (fuel : Nat)
    (ctxt : xsltTransformContext) (heap : Heap),
    (styleDoc ctxt).size + 3 * node.height ≤ fuel →
    xsltProcessOneNode fuel mem ctxt node heap ≠ .fault .outOfFuel := by
  intro node
  induction node using xmlNode.induct with
  | h d cs ih =>
    intro fuel ctxt heap hf
    have ih1 : ∀ c ∈ (xmlNode.mk d cs).children, ∀ (fuel : Nat) (ctxt : xsltTransformContext)
        (heap : Heap), (styleDoc ctxt).size + 3 * c.height ≤ fuel →
        xsltProcessOneNode fuel mem ctxt c heap ≠ .fault .outOfFuel := ih
    have hs := size_pos (styleDoc ctxt)
    have hh := height_pos (xmlNode.mk d cs)
    obtain ⟨f, rfl⟩ : ∃ f, fuel = f + 1 := ⟨fuel - 1, by omega⟩
    cases ht : xsltGetTemplate ctxt.style (.mk d cs) with
    | none =>
      rw [xsltProcessOneNode_default f mem ctxt _ heap ht]
      exact default_settles_of mem _ ih1 f ctxt heap (by omega)
    | some template =>
      rw [xsltProcessOneNode_template f mem ctxt _ heap template ht]
      have hw := templateWalk_settles_of mem _ ih1 f ctxt heap template (by omega)
      cases hr : templateWalk f mem ctxt (.mk d cs) heap template with
      | ok r => simp
      | fault g =>
        rw [hr] at hw
        simpa using hw

theorem templateWalk_settles (mem : Allocator) (node : xmlNode) (fuel : Nat)
    (ctxt : xsltTransformContext) (heap : Heap) (template : xsltTemplate)
    (hf : (styleDoc ctxt).size + 3 * node.height ≤ fuel + 1) :
    templateWalk fuel mem ctxt node heap template ≠ .fault .outOfFuel :=
  templateWalk_settles_of mem node (fun c _ => process_settles mem c) fuel ctxt heap template hf

/-- The loop of the built-in rule calls `process` on members of the list only. -/
theorem defaultLoop_congr (p1 p2 : xsltTransformContext → xmlNode → Heap → Result State)
    (mem : Allocator) : ∀ (nodes : List xmlNode),
    (∀ c ∈ nodes, ∀ ctxt heap, p1 ctxt c heap = p2 ctxt c heap) →
    ∀ ctxt heap, defaultLoop p1 mem nodes ctxt heap = defaultLoop p2 mem nodes ctxt heap := by
  intro nodes
  induction nodes with
  | nil => intro _ ctxt heap; simp [defaultLoop]
  | cons node rest ih =>
    intro h ctxt heap
    have hb : defaultBody p1 mem node ctxt heap = defaultBody p2 mem node ctxt heap := by
      simp only [defaultBody, h node (List.mem_cons_self _ _)]
    unfold defaultLoop
    rw [hb]
    cases defaultBody p2 mem node ctxt heap with
    | ok st => exact ih (fun c hc => h c (List.mem_cons_of_mem _ hc)) _ _
    | fault f => rfl

theorem defaultBody_mono (p1 p2 : xsltTransformContext → xmlNode → Heap → Result State)
    (mem : Allocator)
    (h : ∀ ctxt node heap, p1 ctxt node heap ≠ .fault .outOfFuel →
      p2 ctxt node heap = p1 ctxt node heap)
    (node : xmlNode) (ctxt : xsltTransformContext) (heap : Heap)
    (hne : defaultBody p1 mem node ctxt heap ≠ .fault .outOfFuel) :
    defaultBody p2 mem node ctxt heap = defaultBody p1 mem node ctxt heap := by
  unfold defaultBody at hne ⊢
  split
  · rename_i ht
    simp only [ht] at hne
    exact h _ _ _ hne
  · rename_i ht
    simp only [ht] at hne
    exact h _ _ _ hne
  · rename_i ht
    simp only [ht] at hne
    exact h _ _ _ hne
  · rfl
  · rfl
  · rfl

theorem defaultLoop_mono (p1 p2 : xsltTransformContext → xmlNode → Heap → Result State)
    (mem : Allocator)
    (h : ∀ ctxt node heap, p1 ctxt node heap ≠ .fault .outOfFuel →
      p2 ctxt node heap = p1 ctxt node heap) :
    ∀ (nodes : List xmlNode) (ctxt : xsltTransformContext) (heap : Heap),
      defaultLoop p1 mem nodes ctxt heap ≠ .fault .outOfFuel →
      defaultLoop p2 mem nodes ctxt heap = defaultLoop p1 mem nodes ctxt heap := by
  intro nodes
  induction nodes with
  | nil => intro ctxt heap _; simp [defaultLoop]
  | cons node rest ih =>
    intro ctxt heap hne
    unfold defaultLoop at hne ⊢
    cases hb : defaultBody p1 mem node ctxt heap with
    | ok st =>
      rw [defaultBody_mono p1 p2 mem h node ctxt heap (by rw [hb]; simp), hb]
      rw [hb] at hne
      exact ih _ _ hne
    | fault f =>
      rw [hb] at hne
      rw [defaultBody_mono p1 p2 mem h node ctxt heap (by rw [hb]; exact hne), hb]

theorem processCur_mono (a1 a2 : xsltTransformContext → xmlNode → Heap → Result State)
    (mem : Allocator)
    (h : ∀ ctxt node heap, a1 ctxt node heap ≠ .fault .outOfFuel →
      a2 ctxt node heap = a1 ctxt node heap)
    (oldInsert : Option Nat) (curNode : xmlNode) (insert copy : Option Nat)
    (ctxt : xsltTransformContext) (heap : Heap)
    (hne : processCur a1 mem oldInsert curNode insert copy ctxt heap ≠ .fault .outOfFuel) :
    processCur a2 mem oldInsert curNode insert copy ctxt heap
      = processCur a1 mem oldInsert curNode insert copy ctxt heap := by
  unfold processCur at hne ⊢
  split
  · split
    · rename_i h1 h2
      simp only [h1, h2, if_true] at hne
      have : a1 { ctxt with insert := insert } curNode heap ≠ .fault .outOfFuel := by
        intro hc
        rw [hc] at hne
        exact hne rfl
      rw [h _ _ _ this]
    · rfl
  · rfl

theorem walkLoop_mono (a1 a2 : xsltTransformContext → xmlNode → Heap → Result State)
    (mem : Allocator)
    (h : ∀ ctxt node heap, a1 ctxt node heap ≠ .fault .outOfFuel →
      a2 ctxt node heap = a1 ctxt node heap)
    (doc : xmlNode) (content : Option xmlNodePtr) (oldInsert : Option Nat) :
    ∀ (fuel : Nat) (cur : Option xmlNodePtr) (insert copy : Option Nat)
      (ctxt : xsltTransformContext) (heap : Heap) (seen : List (xmlNodePtr × Option Nat)),
      walkLoop a1 mem doc content oldInsert fuel cur insert copy ctxt heap seen
        ≠ .fault .outOfFuel →
      walkLoop a2 mem doc content oldInsert (fuel + 1) cur insert copy ctxt heap seen
        = walkLoop a1 mem doc content oldInsert fuel cur insert copy ctxt heap seen := by
  intro fuel
  induction fuel with
  | zero =>
    intro cur insert copy ctxt heap seen hne
    cases cur with
    | none => rw [walkLoop_none, walkLoop_none]
    | some cur => simp [walkLoop] at hne
  | succ fuel ih =>
    intro cur insert copy ctxt heap seen hne
    cases cur with
    | none => rw [walkLoop_none, walkLoop_none]
    | some cur =>
      rw [walkLoop] at hne ⊢
      rw [walkLoop]
      cases hn : nodeAt doc cur with
      | none => rfl
      | some curNode =>
        simp only [hn] at hne ⊢
        cases hpc : processCur a1 mem oldInsert curNode insert copy ctxt heap with
        | fault f =>
          rw [hpc] at hne
          simp only [] at hne
          have hf : f ≠ .outOfFuel := fun e => hne (by rw [e])
          rw [processCur_mono a1 a2 mem h oldInsert curNode insert copy ctxt heap
            (by rw [hpc]; simpa using hf), hpc]
        | ok o =>
          rw [processCur_mono a1 a2 mem h oldInsert curNode insert copy ctxt heap
            (by rw [hpc]; simp), hpc]
          rw [hpc] at hne
          cases o with
          | none => rfl
          | some st =>
            obtain ⟨copy1, ctxt1, heap1⟩ := st
            simp only [] at hne ⊢
            cases hs : skipToNext doc content heap1 cur curNode insert copy1 with
            | fault f => rfl
            | ok nxt =>
              obtain ⟨cur1, insert1⟩ := nxt
              rw [hs] at hne
              exact ih _ _ _ _ _ _ hne

/-- More fuel does not change a result reached without running out of fuel. -/
theorem run_mono (mem : Allocator) : ∀ fuel : Nat,
    (∀ ctxt node heap, xsltDefaultProcessOneNode fuel mem ctxt node heap ≠ .fault .outOfFuel →
      xsltDefaultProcessOneNode (fuel + 1) mem ctxt node heap
        = xsltDefaultProcessOneNode fuel mem ctxt node heap) ∧
    (∀ ctxt node inst heap,
      xsltApplyTemplates fuel mem ctxt node inst heap ≠ .fault .outOfFuel →
      xsltApplyTemplates (fuel + 1) mem ctxt node inst heap
        = xsltApplyTemplates fuel mem ctxt node inst heap) ∧
    (∀ ctxt node heap, xsltProcessOneNode fuel mem ctxt node heap ≠ .fault .outOfFuel →
      xsltProcessOneNode (fuel + 1) mem ctxt node heap
        = xsltProcessOneNode fuel mem ctxt node heap) := by
  intro fuel
  induction fuel with
  | zero =>
    refine ⟨?_, ?_, ?_⟩
    · intro ctxt node heap h
      simp [xsltDefaultProcessOneNode] at h
    · intro ctxt node inst heap h
      simp [xsltApplyTemplates] at h
    · intro ctxt node heap h
      simp [xsltProcessOneNode] at h
  | succ fuel ih =>
    obtain ⟨ihD, ihA, ihP⟩ := ih
    refine ⟨?_, ?_, ?_⟩
    · intro ctxt node heap hne
      rw [xsltDefaultProcessOneNode] at hne ⊢
      rw [xsltDefaultProcessOneNode]
      split
      · rename_i ht
        simp only [ht] at hne
        exact defaultLoop_mono _ _ mem ihP _ _ _ hne
      · rename_i ht
        simp only [ht] at hne
        exact defaultLoop_mono _ _ mem ihP _ _ _ hne
      · rename_i ht
        simp only [ht] at hne
        exact defaultLoop_mono _ _ mem ihP _ _ _ hne
      · rfl
    · intro ctxt node inst heap hne
      cases ctxt with
      | none => simp [xsltApplyTemplates]
      | some c =>
        cases node with
        | none => simp [xsltApplyTemplates]
        | some n =>
          cases inst with
          | none => simp [xsltApplyTemplates]
          | some i =>
            cases hsel : xmlGetNsProp i "select" XSLT_NAMESPACE with
            | some v => simp [xsltApplyTemplates, hsel]
            | none =>
              have hd : xsltDefaultProcessOneNode fuel mem c n heap ≠ .fault .outOfFuel := by
                intro hc
                apply hne
                simp [xsltApplyTemplates, hsel, hc]
              simp only [xsltApplyTemplates, hsel, ihD c n heap hd]
    · intro ctxt node heap hne
      cases ht : xsltGetTemplate ctxt.style node with
      | none =>
        rw [xsltProcessOneNode_default _ mem ctxt node heap ht] at hne ⊢
        rw [xsltProcessOneNode_default _ mem ctxt node heap ht]
        exact ihD _ _ _ hne
      | some template =>
        rw [xsltProcessOneNode_template _ mem ctxt node heap template ht] at hne ⊢
        rw [xsltProcessOneNode_template _ mem ctxt node heap template ht]
        have hw : templateWalk fuel mem ctxt node heap template ≠ .fault .outOfFuel := by
          intro hc
          apply hne
          rw [hc]
        have hd : ∀ c inst h, dispatch fuel mem node c inst h ≠ .fault .outOfFuel →
            dispatch (fuel + 1) mem node c inst h = dispatch fuel mem node c inst h := by
          intro c inst h hn
          have : xsltApplyTemplates fuel mem (some c) (some node) (some inst) h
              ≠ .fault .outOfFuel := by
            intro hc
            apply hn
            simp only [dispatch, hc]
          simp only [dispatch, ihA _ _ _ _ this]
        have := walkLoop_mono (dispatch fuel mem node) (dispatch (fuel + 1) mem node) mem hd
          (styleDoc ctxt) template.content ctxt.insert fuel template.content ctxt.insert none
          ctxt heap [] hw
        have e : templateWalk (fuel + 1) mem ctxt node heap template
            = templateWalk fuel mem ctxt node heap template := this
        rw [e]

theorem process_mono_add (mem : Allocator) (ctxt : xsltTransformContext) (node : xmlNode)
    (heap : Heap) (fuel : Nat)
    (h : xsltProcessOneNode fuel mem ctxt node heap ≠ .fault .outOfFuel) :
    ∀ k : Nat, xsltProcessOneNode (fuel + k) mem ctxt node heap
      = xsltProcessOneNode fuel mem ctxt node heap := by
  intro k
  induction k with
  | zero => rfl
  | succ k ih =>
    have := (run_mono mem (fuel + k)).2.2 ctxt node heap (by rw [ih]; exact h)
    rw [← Nat.add_assoc, this, ih]

theorem defaultBodyLog_snd
    (pT : xsltTransformContext → xmlNode → Heap → List Event × Result State)
    (p : xsltTransformContext → xmlNode → Heap → Result State)
    (h : ∀ c n hp, (pT c n hp).2 = p c n hp)
    (mem : Allocator) (node : xmlNode) (ctxt : xsltTransformContext) (heap : Heap) :
    (defaultBodyLog pT mem node ctxt heap).2 = defaultBody p mem node ctxt heap := by
  unfold defaultBodyLog defaultBody
  split
  · exact h _ _ _
  · exact h _ _ _
  · exact h _ _ _
  · split
    · rfl
    · split <;> rfl
  · split <;> rfl
  · rfl

theorem defaultLoopLog_snd
    (pT : xsltTransformContext → xmlNode → Heap → List Event × Result State)
    (p : xsltTransformContext → xmlNode → Heap → Result State)
    (h : ∀ c n hp, (pT c n hp).2 = p c n hp) (mem : Allocator) :
    ∀ (nodes : List xmlNode) (ctxt : xsltTransformContext) (heap : Heap),
      (defaultLoopLog pT mem nodes ctxt heap).2 = defaultLoop p mem nodes ctxt heap := by
  intro nodes
  induction nodes with
  | nil => intro ctxt heap; rfl
  | cons node rest ih =>
    intro ctxt heap
    have hb := defaultBodyLog_snd pT p h mem node ctxt heap
    unfold defaultLoopLog defaultLoop
    rw [← hb]
    rcases hr : defaultBodyLog pT mem node ctxt heap with ⟨log, r⟩
    cases r with
    | ok st =>
      obtain ⟨c1, h1⟩ := st
      exact ih c1 h1
    | fault f => rfl

theorem processCurLog_snd
    (aT : xsltTransformContext → xmlNode → Heap → List Event × Result State)
    (a : xsltTransformContext → xmlNode → Heap → Result State)
    (h : ∀ c n hp, (aT c n hp).2 = a c n hp)
    (mem : Allocator) (oldInsert : Option Nat) (curNode : xmlNode) (insert copy : Option Nat)
    (ctxt : xsltTransformContext) (heap : Heap) :
    (processCurLog aT mem oldInsert curNode insert copy ctxt heap).2
      = processCur a mem oldInsert curNode insert copy ctxt heap := by
  unfold processCurLog processCur
  split
  · split
    · rw [← h]
      rcases aT { ctxt with insert := insert } curNode heap with ⟨log, r⟩
      cases r with
      | ok st => rfl
      | fault f => rfl
    · rfl
  · split
    · split <;> rfl
    · rfl

theorem walkLoopLog_snd
    (aT : xsltTransformContext → xmlNode → Heap → List Event × Result State)
    (a : xsltTransformContext → xmlNode → Heap → Result State)
    (h : ∀ c n hp, (aT c n hp).2 = a c n hp)
    (mem : Allocator) (doc : xmlNode) (content : Option xmlNodePtr) (oldInsert : Option Nat)
    (node : xmlNode) :
    ∀ (fuel : Nat) (cur : Option xmlNodePtr) (insert copy : Option Nat)
      (ctxt : xsltTransformContext) (heap : Heap) (seen : List (xmlNodePtr × Option Nat)),
      (walkLoopLog aT mem doc content oldInsert node fuel cur insert copy ctxt heap).2
        = walkState (walkLoop a mem doc content oldInsert fuel cur insert copy ctxt heap seen) := by
  intro fuel
  induction fuel with
  | zero =>
    intro cur insert copy ctxt heap seen
    cases cur with
    | none => simp [walkLoopLog, walkLoop, walkState]
    | some cur => simp [walkLoopLog, walkLoop, walkState]
  | succ fuel ih =>
    intro cur insert copy ctxt heap seen
    cases cur with
    | none => simp [walkLoopLog, walkLoop, walkState]
    | some cur =>
      rw [walkLoopLog, walkLoop]
      cases hn : nodeAt doc cur with
      | none => rfl
      | some curNode =>
        simp only []
        have hp := processCurLog_snd aT a h mem oldInsert curNode insert copy ctxt heap
        rw [← hp]
        rcases processCurLog aT mem oldInsert curNode insert copy ctxt heap with ⟨log, r⟩
        cases r with
        | fault f => rfl
        | ok o =>
          cases o with
          | none => rfl
          | some st =>
            obtain ⟨copy1, ctxt1, heap1⟩ := st
            simp only []
            cases skipToNext doc content heap1 cur curNode insert copy1 with
            | fault f => rfl
            | ok nxt =>
              obtain ⟨cur1, insert1⟩ := nxt
              exact ih cur1 insert1 copy1 ctxt1 heap1 _

/-- The functions with a record compute the results of the functions without:
the record is an addition, not a change. -/
theorem run_erasure (mem : Allocator) : ∀ fuel : Nat,
    (∀ ctxt node heap, (xsltDefaultProcessOneNodeLog fuel mem ctxt node heap).2
      = xsltDefaultProcessOneNode fuel mem ctxt node heap) ∧
    (∀ ctxt node inst heap, (xsltApplyTemplatesLog fuel mem ctxt node inst heap).2
      = xsltApplyTemplates fuel mem ctxt node inst heap) ∧
    (∀ ctxt node heap, (xsltProcessOneNodeLog fuel mem ctxt node heap).2
      = xsltProcessOneNode fuel mem ctxt node heap) := by
  intro fuel
  induction fuel with
  | zero =>
    refine ⟨?_, ?_, ?_⟩
    · intro ctxt node heap; rfl
    · intro ctxt node inst heap; rfl
    · intro ctxt node heap; rfl
  | succ fuel ih =>
    obtain ⟨ihD, ihA, ihP⟩ := ih
    refine ⟨?_, ?_, ?_⟩
    · intro ctxt node heap
      have hl := defaultLoopLog_snd (xsltProcessOneNodeLog fuel mem) (xsltProcessOneNode fuel mem)
        ihP mem node.children ctxt heap
      rw [xsltDefaultProcessOneNodeLog, xsltDefaultProcessOneNode]
      split
      · exact hl
      · exact hl
      · exact hl
      · rfl
    · intro ctxt node inst heap
      cases ctxt with
      | none => simp [xsltApplyTemplatesLog, xsltApplyTemplates]
      | some c =>
        cases node with
        | none => simp [xsltApplyTemplatesLog, xsltApplyTemplates]
        | some n =>
          cases inst with
          | none => simp [xsltApplyTemplatesLog, xsltApplyTemplates]
          | some i =>
            simp only [xsltApplyTemplatesLog, xsltApplyTemplates]
            cases xmlGetNsProp i "select" XSLT_NAMESPACE with
            | some v => rfl
            | none =>
              simp only []
              rw [← ihD c n heap]
              rcases xsltDefaultProcessOneNodeLog fuel mem c n heap with ⟨log, r⟩
              cases r with
              | ok st => rfl
              | fault f => rfl
    · intro ctxt node heap
      rw [xsltProcessOneNodeLog, xsltProcessOneNode]
      cases xsltGetTemplate ctxt.style node with
      | none => exact ihD ctxt node heap
      | some template =>
        simp only []
        have hw := walkLoopLog_snd
          (fun c inst h =>
            match xsltApplyTemplatesLog fuel mem (some c) (some node) (some inst) h with
            | (log, .ok (c1, h1)) => (log, .ok (c1.getD c, h1))
            | (log, .fault f) => (log, .fault f))
          (fun c inst h =>
            match xsltApplyTemplates fuel mem (some c) (some node) (some inst) h with
            | .ok (c1, h1) => .ok (c1.getD c, h1)
            | .fault f => .fault f)
          (by
            intro c n hp
            simp only []
            rw [← ihA (some c) (some node) (some n) hp]
            rcases xsltApplyTemplatesLog fuel mem (some c) (some node) (some n) hp with ⟨log, r⟩
            cases r with
            | ok st => rfl
            | fault f => rfl)
          mem (styleDoc ctxt) template.content ctxt.insert node fuel template.content ctxt.insert
          none ctxt heap []
        rw [hw]
        cases walkLoop
          (fun c inst h =>
            match xsltApplyTemplates fuel mem (some c) (some node) (some inst) h with
            | .ok (c1, h1) => .ok (c1.getD c, h1)
            | .fault f => .fault f)
          mem (styleDoc ctxt) template.content ctxt.insert fuel template.content ctxt.insert
          none ctxt heap [] with
        | ok r => rfl
        | fault f => rfl

theorem defaultLoopLog_node
    (pT : xsltTransformContext → xmlNode → Heap → List Event × Result State)
    (p : xsltTransformContext → xmlNode → Heap → Result State)
    (herase : ∀ c n hp, (pT c n hp).2 = p c n hp)
    (hp : ∀ ctxt node heap ctxt1 heap1, p ctxt node heap = .ok (ctxt1, heap1) →
      ctxt1 = ctxt ∧ Heap.Extends heap heap1)
    (hlog : ∀ c n h, ∀ e ∈ (pT c n h).1, e.ctxt.node = c.node) (mem : Allocator) :
    ∀ (nodes : List xmlNode) (ctxt : xsltTransformContext) (heap : Heap),
      ∀ e ∈ (defaultLoopLog pT mem nodes ctxt heap).1, e.ctxt.node = ctxt.node := by
  intro nodes
  induction nodes with
  | nil => intro ctxt heap e he; simp [defaultLoopLog] at he
  | cons node rest ih =>
    intro ctxt heap e he
    have hbody : ∀ e ∈ (defaultBodyLog pT mem node ctxt heap).1, e.ctxt.node = ctxt.node := by
      intro e he
      unfold defaultBodyLog at he
      split at he
      · exact hlog _ _ _ e he
      · exact hlog _ _ _ e he
      · exact hlog _ _ _ e he
      · split at he
        · simp at he
        · split at he <;> simp at he
      · split at he <;> simp at he
      · simp at he
    have hsnd := defaultBodyLog_snd pT p herase mem node ctxt heap
    unfold defaultLoopLog at he
    rcases hr : defaultBodyLog pT mem node ctxt heap with ⟨log, r⟩
    rw [hr] at he hbody hsnd
    cases r with
    | ok st =>
      obtain ⟨c1, h1⟩ := st
      simp only [List.mem_cons, List.mem_append] at he
      obtain ⟨e1, _⟩ := defaultBody_preserves p mem hp node ctxt heap c1 h1 hsnd.symm
      rcases he with he | he | he
      · rw [he]
      · exact hbody e he
      · rw [← e1]
        exact ih c1 h1 e he
    | fault f =>
      simp only [List.mem_cons] at he
      rcases he with he | he
      · rw [he]
      · exact hbody e he

theorem walkLoopLog_node
    (aT : xsltTransformContext → xmlNode → Heap → List Event × Result State)
    (a : xsltTransformContext → xmlNode → Heap → Result State)
    (herase : ∀ c n hp, (aT c n hp).2 = a c n hp)
    (ha : ∀ ctxt inst heap ctxt1 heap1, a ctxt inst heap = .ok (ctxt1, heap1) →
      ctxt1 = ctxt ∧ Heap.Extends heap heap1)
    (hlog : ∀ c n h, ∀ e ∈ (aT c n h).1, e.ctxt.node = c.node)
    (mem : Allocator) (doc : xmlNode) (content : Option xmlNodePtr) (oldInsert : Option Nat)
    (node : xmlNode) :
    ∀ (fuel : Nat) (cur : Option xmlNodePtr) (insert copy : Option Nat)
      (ctxt : xsltTransformContext) (heap : Heap), ctxt.insert = oldInsert →
      ∀ e ∈ (walkLoopLog aT mem doc content oldInsert node fuel cur insert copy ctxt heap).1,
        e.ctxt.node = ctxt.node := by
  intro fuel
  induction fuel with
  | zero =>
    intro cur insert copy ctxt heap _ e he
    cases cur <;> simp [walkLoopLog] at he
  | succ fuel ih =>
    intro cur insert copy ctxt heap hins e he
    cases cur with
    | none => simp [walkLoopLog] at he
    | some cur =>
      rw [walkLoopLog] at he
      cases hn : nodeAt doc cur with
      | none =>
        simp only [hn, List.mem_singleton] at he
        rw [he]
      | some curNode =>
        simp only [hn] at he
        have hcur : ∀ e ∈ (processCurLog aT mem oldInsert curNode insert copy ctxt heap).1,
            e.ctxt.node = ctxt.node := by
          intro e he
          unfold processCurLog at he
          split at he
          · split at he
            · have hl := hlog { ctxt with insert := insert } curNode heap
              rcases hr : aT { ctxt with insert := insert } curNode heap with ⟨log, r⟩
              rw [hr] at he hl
              cases r with
              | ok st => exact hl e he
              | fault f => exact hl e he
            · simp at he
          · split at he
            · split at he <;> simp at he
            · simp at he
        have hsnd := processCurLog_snd aT a herase mem oldInsert curNode insert copy ctxt heap
        rcases hr : processCurLog aT mem oldInsert curNode insert copy ctxt heap with ⟨log, r⟩
        rw [hr] at he hcur hsnd
        cases r with
        | fault f =>
          simp only [List.mem_cons] at he
          rcases he with he | he
          · rw [he]
          · exact hcur e he
        | ok o =>
          cases o with
          | none =>
            simp only [List.mem_cons] at he
            rcases he with he | he
            · rw [he]
            · exact hcur e he
          | some st =>
            obtain ⟨copy1, ctxt1, heap1⟩ := st
            obtain ⟨e1, _⟩ := processCur_preserves a mem ha oldInsert curNode insert copy ctxt
              heap hins copy1 ctxt1 heap1 hsnd.symm
            simp only [] at he
            cases hs : skipToNext doc content heap1 cur curNode insert copy1 with
            | fault f =>
              simp only [hs, List.mem_cons] at he
              rcases he with he | he
              · rw [he]
              · exact hcur e he
            | ok nxt =>
              obtain ⟨cur1, insert1⟩ := nxt
              simp only [hs, List.mem_cons, List.mem_append] at he
              rcases he with he | he | he
              · rw [he]
              · exact hcur e he
              · rw [← e1]
                exact ih cur1 insert1 copy1 ctxt1 heap1 (by rw [e1]; exact hins) e he

/-- At every recorded moment of a call of one of the three functions the
current node of the context is the one of the context the call received. -/
theorem run_log_node (mem : Allocator) : ∀ fuel : Nat,
    (∀ ctxt node heap, ∀ e ∈ (xsltDefaultProcessOneNodeLog fuel mem ctxt node heap).1,
      e.ctxt.node = ctxt.node) ∧
    (∀ ctxt node inst heap, ∀ e ∈ (xsltApplyTemplatesLog fuel mem (some ctxt) node inst heap).1,
      e.ctxt.node = ctxt.node) ∧
    (∀ ctxt node heap, ∀ e ∈ (xsltProcessOneNodeLog fuel mem ctxt node heap).1,
      e.ctxt.node = ctxt.node) := by
  intro fuel
  induction fuel with
  | zero =>
    refine ⟨?_, ?_, ?_⟩
    · intro ctxt node heap e he
      simp [xsltDefaultProcessOneNodeLog] at he
    · intro ctxt node inst heap e he
      simp [xsltApplyTemplatesLog] at he
    · intro ctxt node heap e he
      simp [xsltProcessOneNodeLog] at he
  | succ fuel ih =>
    obtain ⟨ihD, ihA, ihP⟩ := ih
    refine ⟨?_, ?_, ?_⟩
    · intro ctxt node heap e he
      have hl := defaultLoopLog_node (xsltProcessOneNodeLog fuel mem) (xsltProcessOneNode fuel mem)
        (run_erasure mem fuel).2.2 (run_preserves mem fuel).2.2 ihP mem node.children ctxt heap
      rw [xsltDefaultProcessOneNodeLog] at he
      split at he
      · simp only [List.mem_cons] at he
        rcases he with he | he
        · rw [he]
        · exact hl e he
      · simp only [List.mem_cons] at he
        rcases he with he | he
        · rw [he]
        · exact hl e he
      · simp only [List.mem_cons] at he
        rcases he with he | he
        · rw [he]
        · exact hl e he
      · simp only [List.mem_singleton] at he
        rw [he]
    · intro ctxt node inst heap e he
      cases node with
      | none => simp [xsltApplyTemplatesLog] at he
      | some n =>
        cases inst with
        | none => simp [xsltApplyTemplatesLog] at he
        | some i =>
          simp only [xsltApplyTemplatesLog] at he
          cases hsel : xmlGetNsProp i "select" XSLT_NAMESPACE with
          | some v =>
            simp only [hsel, List.mem_singleton] at he
            rw [he]
          | none =>
            simp only [hsel] at he
            have hd := ihD ctxt n heap
            rcases hr : xsltDefaultProcessOneNodeLog fuel mem ctxt n heap with ⟨log, r⟩
            rw [hr] at he hd
            cases r with
            | ok st =>
              simp only [List.mem_cons] at he
              rcases he with he | he
              · rw [he]
              · exact hd e he
            | fault f =>
              simp only [List.mem_cons] at he
              rcases he with he | he
              · rw [he]
              · exact hd e he
    · intro ctxt node heap e he
      rw [xsltProcessOneNodeLog] at he
      cases ht : xsltGetTemplate ctxt.style node with
      | none =>
        simp only [ht, List.mem_cons] at he
        rcases he with he | he
        · rw [he]
        · exact ihD ctxt node heap e he
      | some template =>
        simp only [ht, List.mem_cons] at he
        rcases he with he | he
        · rw [he]
        · refine walkLoopLog_node _ (dispatch fuel mem node) ?_ (dispatch_preserves fuel mem node)
            ?_ mem (styleDoc ctxt) template.content ctxt.insert node fuel template.content
            ctxt.insert none ctxt heap rfl e he
          · intro c n hp
            simp only [dispatch]
            rw [← (run_erasure mem fuel).2.1 (some c) (some node) (some n) hp]
            rcases xsltApplyTemplatesLog fuel mem (some c) (some node) (some n) hp with ⟨log, r⟩
            cases r with
            | ok st => rfl
            | fault f => rfl
          · intro c n hp e he
            have ha := ihA c (some node) (some n) hp
            rcases hr : xsltApplyTemplatesLog fuel mem (some c) (some node) (some n) hp
              with ⟨log, r⟩
            rw [hr] at he ha
            cases r with
            | ok st => exact ha e he
            | fault f => exact ha e he

theorem xsltApplyStylesheet_start (fuel : Nat) (mem : Allocator) (style : xsltStylesheet)
    (doc : xmlNode) :
    xsltApplyStylesheet fuel mem (some style) (some doc)
      = match driverStart mem style doc with
        | none => .ok none
        | some (ctxt, root, res) =>
          match xsltProcessOneNode fuel mem ctxt root res.nodes with
          | .fault f => .fault f
          | .ok (ctxt3, heap) => .ok (some (finalize style ctxt3 { res with nodes := heap }).2) := by
  unfold xsltApplyStylesheet driverStart
  cases xsltNewTransformContext mem with
  | none => rfl
  | some ctxt0 =>
    simp only []
    cases outputShell mem style { ctxt0 with style := some style } with
    | none => rfl
    | some sh =>
      obtain ⟨ctxt1, res0⟩ := sh
      simp only []
      cases xmlDocGetRootElement doc with
      | none => rfl
      | some root => rfl

theorem driverStart_node (mem : Allocator) (style : xsltStylesheet) (doc : xmlNode)
    (ctxt : xsltTransformContext) (root : xmlNode) (res : xmlDoc)
    (h : driverStart mem style doc = some (ctxt, root, res)) :
    xmlDocGetRootElement doc = some root ∧ ctxt.node = some root := by
  unfold driverStart at h
  cases hc : xsltNewTransformContext mem with
  | none => simp [hc] at h
  | some ctxt0 =>
    simp only [hc] at h
    cases hs : outputShell mem style { ctxt0 with style := some style } with
    | none => simp [hs] at h
    | some sh =>
      obtain ⟨ctxt1, res0⟩ := sh
      simp only [hs] at h
      cases hroot : xmlDocGetRootElement doc with
      | none => simp [hroot] at h
      | some root1 =>
        simp only [hroot, Option.some.injEq, Prod.mk.injEq] at h
        obtain ⟨e1, e2, _⟩ := h
        subst e1; subst e2
        exact ⟨rfl, rfl⟩

theorem outputShell_html (mem : Allocator) (style : xsltStylesheet)
    (ctxt ctxt1 : xsltTransformContext) (res0 : xmlDoc) (hm : style.method = some "html")
    (h : outputShell mem style ctxt = some (ctxt1, res0)) :
    htmlNewDoc mem style.doctypePublic style.doctypeSystem = some res0 ∧
    ctxt1 = { ctxt with type := XSLT_OUTPUT_HTML } := by
  unfold outputShell at h
  cases hd : htmlNewDoc mem style.doctypePublic style.doctypeSystem with
  | none => simp [hm, xmlStrEqual, hd] at h
  | some r =>
    simp [hm, xmlStrEqual, hd] at h
    exact ⟨by rw [h.2], h.1.symm⟩

theorem driverStart_html (mem : Allocator) (style : xsltStylesheet) (doc : xmlNode)
    (ctxt : xsltTransformContext) (root : xmlNode) (res1 : xmlDoc)
    (hm : style.method = some "html")
    (h : driverStart mem style doc = some (ctxt, root, res1)) :
    ctxt.type = XSLT_OUTPUT_HTML ∧
    ∃ res0, htmlNewDoc mem style.doctypePublic style.doctypeSystem = some res0 ∧
      res1.intSubset = res0.intSubset := by
  unfold driverStart at h
  cases hc : xsltNewTransformContext mem with
  | none => simp [hc] at h
  | some ctxt0 =>
    simp only [hc] at h
    cases hs : outputShell mem style { ctxt0 with style := some style } with
    | none => simp [hs] at h
    | some sh =>
      obtain ⟨ctxt1, res0⟩ := sh
      simp only [hs] at h
      obtain ⟨h1, h2⟩ := outputShell_html mem style _ ctxt1 res0 hm hs
      cases hroot : xmlDocGetRootElement doc with
      | none => simp [hroot] at h
      | some root1 =>
        simp only [hroot, Option.some.injEq, Prod.mk.injEq] at h
        obtain ⟨e1, _, e3⟩ := h
        subst e1; subst e3
        exact ⟨by rw [h2], res0, h1, rfl⟩

/-! ## The claims -/

/-- C1 (code defect): both arguments are present, the output method is absent
and the source has the root element `a`, yet `xsltApplyStylesheet` returns no
document for the stylesheet
`<xsl:stylesheet><xsl:template match="a"><b/></xsl:template></xsl:stylesheet>`:
after copying the leaf `b` the walker climbs past the template, `insert`
becomes `NULL` and the next `insert->parent` is a `NULL` dereference.  This
holds for every amount of fuel from 2 on (with less the fuel runs out). -/
theorem leaf_template_run_faults :
    Runnable (some styleLeaf) (some sourceA) ∧
    ∀ n : Nat, xsltApplyStylesheet (n + 2) okMem (some styleLeaf) (some sourceA)
      = .fault .segfault :=
  ⟨⟨styleLeaf, sourceA, rfl, rfl, Or.inl rfl, rfl⟩, fun _ => rfl⟩

/-- C2 (code defect): the stylesheet `styleDoctype` has no output method (XML
output) and declares a public doctype identifier, the run succeeds and the
output document has the root element `x`, yet the returned document has no
internal subset. -/
theorem doctype_not_attached :
    styleDoctype.method = none ∧
    styleDoctype.doctypePublic = some "-//EXAMPLE//DTD X//EN" ∧
    xsltApplyStylesheet 4 okMem (some styleDoctype) (some sourceA) = .ok (some docDoctype) ∧
    outDocGetRootElement docDoctype.nodes = some (cell XML_ELEMENT_NODE "x" none (some 0) [2]) ∧
    docDoctype.intSubset = none := by
  refine ⟨rfl, rfl, ?_, ?_, rfl⟩
  · decide
  · decide

/-- C3 (counterexample): for the source `<a><b/>text<c/></a>` and a stylesheet
without templates the returned document has no root element at all; its only
node besides the document node is the copy of the text node. -/
theorem scenarioA_has_no_root_element :
    xsltApplyStylesheet 4 okMem (some styleEmpty) (some sourceA) = .ok (some docScenarioA) ∧
    outDocGetRootElement docScenarioA.nodes = none := by
  constructor
  · decide
  · decide

/-- C3 (amended): with a root element in the source, no template in the
stylesheet and no output method, once every allocation succeeds and the fuel
covers twice the height of the source root, `xsltApplyStylesheet` returns an
XML document without any element: the children of its document node are the
shallow copies, in document order, of the non-blank text nodes and CDATA
sections found below the source root (the reference sequence of the built-in
rule), and the document has no root element. -/
theorem no_templates_output (mem : Allocator) (style : xsltStylesheet)
    (doc root : xmlNode) (fuel : Nat)
    (hctx : mem.context = true) (hdoc : mem.document = true) (hcopy : ∀ d, mem.copy d = true)
    (hnt : style.templates = []) (hm : style.method = none)
    (hroot : xmlDocGetRootElement doc = some root) (hfuel : 2 * root.height ≤ fuel) :
    xsltApplyStylesheet fuel mem (some style) (some doc)
      = .ok (some { type := XML_DOCUMENT_NODE, version := style.version, seed := none,
                    charset := xmlCharEncoding.XML_CHAR_ENCODING_UTF8,
                    encoding := style.encoding, intSubset := none,
                    nodes := flatDocument XML_DOCUMENT_NODE (defaultReference root) }) ∧
    outDocGetRootElement (flatDocument XML_DOCUMENT_NODE (defaultReference root)) = none := by
  constructor
  · have h1 : 1 ≤ root.height := by cases root; simp [xmlNode.height]
    obtain ⟨f, rfl⟩ : ∃ f, fuel = f + 1 := ⟨fuel - 1, by omega⟩
    have hP := fun ctxt heap hst => (process_reference mem hcopy (some style) root
      (fun n _ => by simp [xsltGetTemplate, hnt]) ctxt heap f hst (by omega)).2
    simp only [xsltApplyStylesheet, xsltNewTransformContext, hctx, outputShell, hm, xmlNewDoc, hdoc,
      hroot]
    simp [hP, finalize_snd, appendNodes_docCell]
    cases style.encoding <;> simp
  · apply flatDocument_no_root
    intro d hd
    rcases defaultReference_types root d hd with h | h <;> simp [h]

/-- Witness of `no_templates_output` on scenario A. -/
theorem no_templates_output_witness :
    2 * rootA.height ≤ 4 ∧
    xsltApplyStylesheet 4 okMem (some styleEmpty) (some sourceA)
      = .ok (some { type := XML_DOCUMENT_NODE, version := styleEmpty.version, seed := none,
                    charset := xmlCharEncoding.XML_CHAR_ENCODING_UTF8,
                    encoding := styleEmpty.encoding, intSubset := none,
                    nodes := flatDocument XML_DOCUMENT_NODE (defaultReference rootA) }) ∧
    outDocGetRootElement (flatDocument XML_DOCUMENT_NODE (defaultReference rootA)) = none :=
  ⟨by decide, no_templates_output okMem styleEmpty sourceA rootA 4 rfl rfl (fun _ => rfl) rfl rfl
    rfl (by decide)⟩

/-- C4: default-rule equivalence.  When no template matches the node nor any of
its descendants and every copy succeeds, then, with fuel for twice the height
of the node, `xsltProcessOneNode` and `xsltDefaultProcessOneNode` both return
the context unchanged and the heap in which the reference sequence of the node
(`defaultReference`: copies of the non-blank text children and of the CDATA
children, the sequence of each element or document child, nothing else) has
been appended, in order, to the insertion point; when the node is not a
document, an HTML document or an element the heap is unchanged. -/
theorem default_rule_equivalence (mem : Allocator) (ctxt : xsltTransformContext)
    (node : xmlNode) (heap : Heap) (fuel : Nat)
    (hcopy : ∀ d, mem.copy d = true)
    (hnt : ∀ n ∈ node.subtree, xsltGetTemplate ctxt.style n = none)
    (hfuel : 2 * node.height ≤ fuel) :
    xsltProcessOneNode fuel mem ctxt node heap
      = .ok (ctxt, appendNodes heap ctxt.insert (defaultReference node)) ∧
    xsltDefaultProcessOneNode fuel mem ctxt node heap
      = .ok (ctxt, appendNodes heap ctxt.insert (defaultReference node)) ∧
    (node.type ≠ XML_DOCUMENT_NODE → node.type ≠ XML_HTML_DOCUMENT_NODE →
      node.type ≠ XML_ELEMENT_NODE →
      xsltProcessOneNode fuel mem ctxt node heap = .ok (ctxt, heap)) := by
  have h1 : 1 ≤ node.height := by cases node; simp [xmlNode.height]
  obtain ⟨f, rfl⟩ : ∃ f, fuel = f + 1 := ⟨fuel - 1, by omega⟩
  have hP := (process_reference mem hcopy ctxt.style node hnt ctxt heap f rfl (by omega)).2
  have hD := (process_reference mem hcopy ctxt.style node hnt ctxt heap (f + 1) rfl (by omega)).1
  refine ⟨hP, hD, ?_⟩
  intro t1 t2 t3
  rw [hP, defaultReference_of_not_container node t1 t2 t3]
  rfl

/-- Witness of `default_rule_equivalence` on the root element of scenario A,
with the empty stylesheet and the heap of an empty document. -/
theorem default_rule_equivalence_witness :
    2 * rootA.height ≤ 4 ∧
    xsltProcessOneNode 4 okMem (ctxtFor styleEmpty) rootA [docCell XML_DOCUMENT_NODE]
      = .ok (ctxtFor styleEmpty, appendNodes [docCell XML_DOCUMENT_NODE]
          (ctxtFor styleEmpty).insert (defaultReference rootA)) :=
  ⟨by decide, (default_rule_equivalence okMem (ctxtFor styleEmpty) rootA
    [docCell XML_DOCUMENT_NODE] 4 (fun _ => rfl) (fun _ _ => rfl) (by decide)).1⟩

/-- C5 (counterexample): the content `<x><y/> </x>` holds no instruction, yet
when the copy of `y` fails the walker returns at once: the subtree attached
under the document node is the copy of `x` alone, one node, while the content
without its blank text node has two. -/
theorem shape_not_mirrored_on_copy_failure :
    xsltApplyStylesheet 4 memFailY (some stylePlain) (some sourceA) = .ok (some docPlainFailY) ∧
    (subtreeOf docPlainFailY.nodes 2 1).size = 1 ∧ (prune contentXY).size = 2 := by
  refine ⟨?_, ?_, ?_⟩ <;> decide

/-- C5 (amended): shape mirroring.  For a template whose content is
literal-only (`plain`: no instruction, children only below nodes that are not
blank text and whose first child is not an entity declaration) and whose
content root has children, when every copy succeeds, the insertion point is a
cell `p` of the heap and the fuel covers the iterations of the walk,
`xsltProcessOneNode` returns the context unchanged and a heap in which one
child, the cell `heap.length`, has been appended to `p`, and the tree read back
from that cell is the content subtree with every whitespace-only text node
removed. -/
theorem shape_mirroring (mem : Allocator) (ctxt : xsltTransformContext) (node : xmlNode)
    (heap : Heap) (template : xsltTemplate) (c0 : xmlNodePtr) (t0 : xmlNode) (p fuel : Nat)
    (hcopy : ∀ d, mem.copy d = true)
    (htemplate : xsltGetTemplate ctxt.style node = some template)
    (hcontent : template.content = some c0)
    (hnode : nodeAt (styleDoc ctxt) c0 = some t0)
    (hplain : plain t0 = true) (hchildren : t0.children.isEmpty = false)
    (hins : ctxt.insert = some p) (hp : p < heap.length)
    (hfuel : visits t0 ≤ fuel) :
    xsltProcessOneNode (fuel + 1) mem ctxt node heap
      = .ok (ctxt,
          Heap.update heap p (fun c => { c with children := c.children ++ [heap.length] })
            ++ layout heap.length (some p) (prune t0)) ∧
    subtreeOf
      (Heap.update heap p (fun c => { c with children := c.children ++ [heap.length] })
        ++ layout heap.length (some p) (prune t0))
      (prune t0).height heap.length = prune t0 := by
  have hfacts : IS_XSLT_ELEM t0 = false ∧ IS_BLANK_NODE t0 = false ∧ descends t0 = true ∧
      plainList t0.children = true := by
    cases t0 with
    | mk d cs =>
      rw [plain] at hplain
      simp only [Bool.and_eq_true, Bool.not_eq_true', Bool.or_eq_true, List.isEmpty_iff]
        at hplain
      obtain ⟨⟨hx, hc⟩, hl⟩ := hplain
      rcases hc with h0 | ⟨hb, hd⟩
      · simp [xmlNode.children, h0] at hchildren
      · exact ⟨hx, hb, hd, hl⟩
  obtain ⟨hx, hb, hd, hl⟩ := hfacts
  have hroot : walkableRoot t0 = true := by
    simp only [walkableRoot, Bool.and_eq_true, Bool.not_eq_true']
    exact ⟨⟨⟨hx, hb⟩, hd⟩,
      walkableList_of_forall (fun c hc => walkable_of_plain c (plain_of_mem hl c hc))⟩
  constructor
  · rw [process_template_mirror mem hcopy ctxt node heap template c0 t0 fuel htemplate hcontent
      hnode hroot hfuel, hins]
    exact mirrorNode_plain _ _ t0 hplain hb p ctxt heap hp
  · have := subtreeOf_layout (prune t0) (prune t0).height (le_refl _)
      (Heap.update heap p (fun c => { c with children := c.children ++ [heap.length] })) []
      (some p)
    simpa [Heap.length_update] using this

/-- Witness of `shape_mirroring`: the content `<x><y/> </x>` on
`<a><b/>text<c/></a>` from an empty document. -/
theorem shape_mirroring_witness :
    plain contentXY = true ∧ contentXY.children.isEmpty = false ∧ visits contentXY ≤ 3 ∧
    xsltProcessOneNode (3 + 1) okMem (ctxtFor stylePlain) rootA [docCell XML_DOCUMENT_NODE]
      = .ok (ctxtFor stylePlain,
          Heap.update [docCell XML_DOCUMENT_NODE] 0
            (fun c => { c with children := c.children ++ [[docCell XML_DOCUMENT_NODE].length] })
            ++ layout [docCell XML_DOCUMENT_NODE].length (some 0) (prune contentXY)) ∧
    subtreeOf
      (Heap.update [docCell XML_DOCUMENT_NODE] 0
        (fun c => { c with children := c.children ++ [[docCell XML_DOCUMENT_NODE].length] })
        ++ layout [docCell XML_DOCUMENT_NODE].length (some 0) (prune contentXY))
      (prune contentXY).height [docCell XML_DOCUMENT_NODE].length = prune contentXY :=
  ⟨by decide, by decide, by decide,
   shape_mirroring okMem (ctxtFor stylePlain) rootA [docCell XML_DOCUMENT_NODE] templatePlain
     [0, 0, 0] contentXY 0 3 (fun _ => rfl) rfl rfl rfl (by decide) (by decide) rfl (by decide)
     (by decide)⟩

/-- C6: whitespace elision.  Whenever `xsltProcessOneNode` or
`xsltDefaultProcessOneNode` completes, no cell added to the heap is a text node
with blank content, and the cells that were there before keep their fields. -/
theorem whitespace_elision (fuel : Nat) (mem : Allocator) (ctxt : xsltTransformContext)
    (node : xmlNode) (heap : Heap) (ctxt1 : xsltTransformContext) (heap1 : Heap)
    (h : xsltProcessOneNode fuel mem ctxt node heap = .ok (ctxt1, heap1) ∨
         xsltDefaultProcessOneNode fuel mem ctxt node heap = .ok (ctxt1, heap1)) :
    (∀ (i : Nat) (c : outNode), heap.length ≤ i → heap1[i]? = some c →
      ¬ (c.data.type = XML_TEXT_NODE ∧ xsltIsBlank c.data.content = true)) ∧
    (∀ (i : Nat) (c : outNode), heap[i]? = some c →
      ∃ c1 : outNode, heap1[i]? = some c1 ∧ c1.data = c.data) := by
  have hext : Heap.Extends heap heap1 := by
    rcases h with h | h
    · exact ((run_preserves mem fuel).2.2 _ _ _ _ _ h).2
    · exact ((run_preserves mem fuel).1 _ _ _ _ _ h).2
  obtain ⟨_, h2, h3⟩ := hext
  refine ⟨fun i c hi hc => h3 i c hi hc, fun i c hc => ?_⟩
  obtain ⟨c1, hc1, hd, _⟩ := h2 i c hc
  exact ⟨c1, hc1, hd⟩

/-- Witness of `whitespace_elision`: the template content
`<x> <xsl:apply-templates/>t</x>` applied to `<a> <b/>text<![CDATA[ ]]></a>`;
the blank text nodes of the template and of the source leave no cell, and the
cell at index 2 is the copy of the text node "text". -/
theorem whitespace_elision_witness :
    xsltProcessOneNode 6 okMem (ctxtFor styleBlank) rootB [docCell XML_DOCUMENT_NODE]
      = .ok (ctxtFor styleBlank, heapBlank) ∧
    ¬ ((cell XML_TEXT_NODE "text" (some "text") (some 1) []).data.type = XML_TEXT_NODE ∧
       xsltIsBlank (cell XML_TEXT_NODE "text" (some "text") (some 1) []).data.content = true) :=
  ⟨rfl, (whitespace_elision 6 okMem (ctxtFor styleBlank) rootB [docCell XML_DOCUMENT_NODE]
    (ctxtFor styleBlank) heapBlank (Or.inl rfl)).1 2
    (cell XML_TEXT_NODE "text" (some "text") (some 1) []) (by decide) rfl⟩

/-- C8 (code defect): the walk leaves the content subtree.  The second template
of `sheetNested` has the leaf `<b/>` as content, the only node of its content
subtree.  Processing the source element `c`, reached through the
`apply-templates` of the first template with the insertion point at the copy
of `z` (cell 3), the walker visits `b`, then the third template element, the
following sibling of the parent of `b`, and its child `d`; the returned
document carries a copy of `d` below the copy of `b`. -/
theorem walk_leaves_content :
    contentPtrs sheetNested templateB.content = [[0, 1, 0]] ∧
    walkVisited (templateWalk 4 okMem { ctxtFor styleNested with insert := some 3 }
      (elem "c" []) heapXYZ templateB)
      = some [([0, 1, 0], some 3), ([2, 0], some 2), ([0, 2, 0], some 4)] ∧
    xsltApplyStylesheet 8 okMem (some styleNested) (some sourceAC) = .ok (some docNested) := by
  refine ⟨?_, ?_, ?_⟩ <;> decide

/-- C9 (code defect): the content `<x><xsl:if><b/></xsl:if><c/></x>` does not
produce `x` with the single child `c`.  No copy is made for `xsl:if`, yet the
walker descends to `b` with `insert = copy`, the copy of `x`, so that `b` is
copied below `x`; climbing back from `b` moves `insert` to the parent of the
copy of `x`, so that `c` is attached to the document node, beside `x`. -/
theorem instruction_children_are_walked :
    xsltApplyStylesheet 5 okMem (some styleIf) (some sourceA) = .ok (some docIf) := by
  decide

/-- C10 (code defect): invariant I1 fails on the content
`<x><xsl:if><b/></xsl:if><c/></x>`.  The trace of `(cur, insert)` shows `b`
processed with the copy of `x` (cell 1) as cursor although its template parent
`xsl:if` has no copy, and `c`, a child of `x`, processed with the entry
insertion point (cell 0) instead of the copy of `x`.  When the content root is
itself an instruction with children (`<xsl:if><b/></xsl:if>`), the cursor is
assigned from the local `copy` before any copy was made. -/
theorem insertion_cursor_mismatch :
    walkVisited (templateWalk 4 okMem (ctxtFor styleIf) rootA [docCell XML_DOCUMENT_NODE]
      (templateA (some [0, 0, 0])))
      = some [([0, 0, 0], some 0), ([0, 0, 0, 0], some 1), ([0, 0, 0, 0, 0], some 1),
              ([1, 0, 0, 0], some 0)] ∧
    walkHeap (templateWalk 4 okMem (ctxtFor styleIf) rootA [docCell XML_DOCUMENT_NODE]
      (templateA (some [0, 0, 0]))) = some docIf.nodes ∧
    ∀ n : Nat, xsltProcessOneNode (n + 2) okMem (ctxtFor styleIfRoot) rootA
      [docCell XML_DOCUMENT_NODE] = .fault .uninitialized := by
  refine ⟨?_, ?_, fun _ => rfl⟩ <;> decide

/-- C11: termination.  Fuel bounds both the iterations of the walk and the
depth of the calls.  With `size of the stylesheet document + 3 * height of the
source node` units of fuel, `xsltProcessOneNode` does not run out of fuel, and
its result is the one obtained with exactly that much fuel, so it does not
depend on the fuel; the walk over the template content it runs does not run
out of iterations; and the loop of the built-in rule, the only place from
which `xsltProcessOneNode` is entered again, calls it on the children of the
node only: two functions that agree on the children give the same loop. -/
theorem transformation_terminates (fuel : Nat) (mem : Allocator) (ctxt : xsltTransformContext)
    (node : xmlNode) (heap : Heap)
    (hfuel : (styleDoc ctxt).size + 3 * node.height ≤ fuel) :
    xsltProcessOneNode fuel mem ctxt node heap ≠ .fault .outOfFuel ∧
    xsltProcessOneNode fuel mem ctxt node heap
      = xsltProcessOneNode ((styleDoc ctxt).size + 3 * node.height) mem ctxt node heap ∧
    (∀ (template : xsltTemplate) (f : Nat), fuel = f + 1 →
      templateWalk f mem ctxt node heap template ≠ .fault .outOfFuel) ∧
    (∀ (p1 p2 : xsltTransformContext → xmlNode → Heap → Result State),
      (∀ c ∈ node.children, ∀ ctxt1 heap1, p1 ctxt1 c heap1 = p2 ctxt1 c heap1) →
      ∀ ctxt1 heap1, defaultLoop p1 mem node.children ctxt1 heap1
        = defaultLoop p2 mem node.children ctxt1 heap1) := by
  refine ⟨process_settles mem node fuel ctxt heap hfuel, ?_, ?_, ?_⟩
  · obtain ⟨k, rfl⟩ : ∃ k, fuel = (styleDoc ctxt).size + 3 * node.height + k :=
      ⟨fuel - ((styleDoc ctxt).size + 3 * node.height), by omega⟩
    exact process_mono_add mem ctxt node heap _
      (process_settles mem node _ ctxt heap (Nat.le_refl _)) k
  · intro template f hf
    exact templateWalk_settles mem node f ctxt heap template (by omega)
  · intro p1 p2 h
    exact defaultLoop_congr p1 p2 mem node.children h

/-- Witness of `transformation_terminates`: scenario E, the stylesheet of
six nodes with one template and the source root `a` of height 2, with 12
units of fuel. -/
theorem transformation_terminates_witness :
    (styleDoc (ctxtFor styleE)).size + 3 * rootA.height ≤ 12 ∧
    xsltProcessOneNode 12 okMem (ctxtFor styleE) rootA [docCell XML_DOCUMENT_NODE]
      ≠ .fault .outOfFuel ∧
    xsltProcessOneNode 12 okMem (ctxtFor styleE) rootA [docCell XML_DOCUMENT_NODE]
      = .ok (ctxtFor styleE, heapE) :=
  ⟨by decide,
   (transformation_terminates 12 okMem (ctxtFor styleE) rootA [docCell XML_DOCUMENT_NODE]
     (by decide)).1, rfl⟩

/-- C12: `xsltApplyTemplates` is a no-op when the context, the source node or
the instruction is absent; with all three present and no `select` attribute
found on the instruction (in particular when the instruction has no attribute
of that name) it has the effect of `xsltDefaultProcessOneNode` on the context
and the source node, the call costing one unit of fuel. -/
theorem apply_templates_default (fuel : Nat) (mem : Allocator)
    (ctxt : Option xsltTransformContext) (node inst : Option xmlNode) (heap : Heap) :
    ((ctxt = none ∨ node = none ∨ inst = none) →
      xsltApplyTemplates (fuel + 1) mem ctxt node inst heap = .ok (ctxt, heap)) ∧
    (∀ c n i, ctxt = some c → node = some n → inst = some i →
      xmlGetNsProp i "select" XSLT_NAMESPACE = none →
      xsltApplyTemplates (fuel + 1) mem ctxt node inst heap
        = match xsltDefaultProcessOneNode fuel mem c n heap with
          | .ok (c1, heap1) => .ok (some c1, heap1)
          | .fault f => .fault f) ∧
    (∀ i, inst = some i → (∀ a ∈ i.data.properties, a.name ≠ "select") →
      xmlGetNsProp i "select" XSLT_NAMESPACE = none) := by
  refine ⟨?_, ?_, ?_⟩
  · intro h
    cases ctxt <;> cases node <;> cases inst <;> simp_all [xsltApplyTemplates]
  · intro c n i hc hn hi hsel
    subst hc; subst hn; subst hi
    simp only [xsltApplyTemplates, hsel]
  · intro i _ h
    exact xmlGetNsProp_absent i _ _ h

/-- Witness of `apply_templates_default`: the instruction
`<xsl:apply-templates/>` on the root element of scenario A. -/
theorem apply_templates_default_witness :
    xmlGetNsProp instPlain "select" XSLT_NAMESPACE = none ∧
    xsltApplyTemplates (3 + 1) okMem (some (ctxtFor styleEmpty)) (some rootA) (some instPlain)
        [docCell XML_DOCUMENT_NODE]
      = (match xsltDefaultProcessOneNode 3 okMem (ctxtFor styleEmpty) rootA
            [docCell XML_DOCUMENT_NODE] with
          | .ok (c1, heap1) => .ok (some c1, heap1)
          | .fault f => .fault f) ∧
    xsltApplyTemplates (3 + 1) okMem none (some rootA) (some instPlain)
        [docCell XML_DOCUMENT_NODE] = .ok (none, [docCell XML_DOCUMENT_NODE]) :=
  ⟨by decide,
   (apply_templates_default 3 okMem (some (ctxtFor styleEmpty)) (some rootA) (some instPlain)
     [docCell XML_DOCUMENT_NODE]).2.1 (ctxtFor styleEmpty) rootA instPlain rfl rfl rfl
     (by decide),
   (apply_templates_default 3 okMem none (some rootA) (some instPlain)
     [docCell XML_DOCUMENT_NODE]).1 (Or.inl rfl)⟩

/-- C13: output flavour selection.  When `xsltApplyStylesheet` returns a
document, the method is absent, "xml" or "html"; for an absent method or "xml"
the document is the XML shell created with the declared version; for "html" it
is the HTML shell seeded with the public and system doctype identifiers, in
that order.  The character set is UTF-8 and the document node keeps the
flavour of the shell. -/
theorem output_flavour (fuel : Nat) (mem : Allocator) (style : xsltStylesheet) (doc : xmlNode)
    (res : xmlDoc)
    (h : xsltApplyStylesheet fuel mem (some style) (some doc) = .ok (some res)) :
    (style.method = none ∨ style.method = some "xml" ∨ style.method = some "html") ∧
    ((style.method = none ∨ style.method = some "xml") →
      res.type = XML_DOCUMENT_NODE ∧ res.version = style.version ∧ res.seed = none) ∧
    (style.method = some "html" →
      res.type = XML_HTML_DOCUMENT_NODE ∧
      res.seed = some (style.doctypePublic, style.doctypeSystem)) ∧
    res.charset = xmlCharEncoding.XML_CHAR_ENCODING_UTF8 ∧
    (∃ c : outNode, res.nodes[0]? = some c ∧ c.data.type = res.type) := by
  simp only [xsltApplyStylesheet] at h
  split at h
  · cases h
  · rename_i ctxt0 hctx
    split at h
    · cases h
    · rename_i ctxt1 res0 hshell
      split at h
      · cases h
      · rename_i root hroot
        split at h
        · cases h
        · rename_i ctxt3 heap hrun
          simp only [finalize_snd, Result.ok.injEq, Option.some.injEq] at h
          subst h
          have hext := ((run_preserves mem fuel).2.2 _ _ _ _ _ hrun).2
          have hcell : ∀ ty : xmlElementType, res0.nodes = [docCell ty] →
              ∃ c : outNode, heap[0]? = some c ∧ c.data.type = ty := by
            intro ty hn
            obtain ⟨c2, hc2, hd, _⟩ := hext.2.1 0 (docCell ty) (by simp [hn])
            exact ⟨c2, hc2, by rw [hd]; rfl⟩
          rcases outputShell_some mem style _ _ _ hshell with ⟨hm, hr⟩ | ⟨hm, hr⟩
          · subst hr
            refine ⟨?_, fun _ => ⟨rfl, rfl, rfl⟩, ?_, rfl, hcell XML_DOCUMENT_NODE rfl⟩
            · rcases hm with hm | hm
              · exact Or.inl hm
              · exact Or.inr (Or.inl hm)
            · intro h0
              rcases hm with hm | hm <;> simp [hm] at h0
          · subst hr
            refine ⟨Or.inr (Or.inr hm), ?_, fun _ => ⟨rfl, rfl⟩, rfl,
              hcell XML_HTML_DOCUMENT_NODE rfl⟩
            intro h0
            rcases h0 with h0 | h0 <;> simp [hm] at h0

/-- Witness of `output_flavour`: the method "html" yields the HTML shell seeded
with the two doctype identifiers. -/
theorem output_flavour_witness :
    xsltApplyStylesheet 4 okMem (some styleHtml) (some sourceA) = .ok (some docHtml) ∧
    docHtml.type = XML_HTML_DOCUMENT_NODE ∧
    docHtml.seed = some (styleHtml.doctypePublic, styleHtml.doctypeSystem) :=
  ⟨by decide,
   (output_flavour 4 okMem styleHtml sourceA docHtml (by decide)).2.2.1 rfl⟩

/-- C14 (counterexample): in scenario E the run driver calls
`xsltProcessOneNode` on the root element `a` with a context whose current node
is `a`; the record of that call shows `xsltProcessOneNode` and
`xsltDefaultProcessOneNode` entered for the children `b` and `c`, and the loop
of the built-in rule at the text child, with a context whose current node is
still `a`. -/
theorem current_node_is_root_for_children :
    driverStart okMem styleE sourceA = some (ctxtStartE, rootA, docStart) ∧
    (xsltProcessOneNodeLog 8 okMem ctxtStartE rootA docStart.nodes).2
      = xsltProcessOneNode 8 okMem ctxtStartE rootA docStart.nodes ∧
    logView (xsltProcessOneNodeLog 8 okMem ctxtStartE rootA docStart.nodes).1
      = [(.processEntry, some "a", "a"),
         (.walkIteration, some "a", "a"),
         (.walkIteration, some "a", "a"),
         (.walkIteration, some "a", "a"),
         (.applyEntry, some "a", "a"),
         (.defaultEntry, some "a", "a"),
         (.defaultIteration, some "a", "b"),
         (.processEntry, some "a", "b"),
         (.defaultEntry, some "a", "b"),
         (.defaultIteration, some "a", "text"),
         (.defaultIteration, some "a", "c"),
         (.processEntry, some "a", "c"),
         (.defaultEntry, some "a", "c")] :=
  ⟨rfl, rfl, by decide⟩

/-- C14 (amended): the current node of the context is set once, by the run
driver, to the root element of the source document, and is never rebound.  The
functions with a record compute what `xsltProcessOneNode`,
`xsltDefaultProcessOneNode` and `xsltApplyTemplates` compute, and at every
recorded moment of the run (each entry of one of the three functions, each
iteration of the two loops, whatever source node is being processed there, and
also when the run ends in a fault) the current node of the context is the root
element; more generally, at every recorded moment of a call of one of the
three functions the current node is the one of the context the call
received. -/
theorem current_node_never_rebound (fuel : Nat) (mem : Allocator) (style : xsltStylesheet)
    (doc : xmlNode) (ctxt : xsltTransformContext) (root : xmlNode) (res : xmlDoc)
    (hstart : driverStart mem style doc = some (ctxt, root, res)) :
    (xmlDocGetRootElement doc = some root ∧ ctxt.node = some root) ∧
    xsltApplyStylesheet fuel mem (some style) (some doc)
      = (match xsltProcessOneNode fuel mem ctxt root res.nodes with
         | .fault f => .fault f
         | .ok (ctxt3, heap) =>
           .ok (some (finalize style ctxt3 { res with nodes := heap }).2)) ∧
    (xsltProcessOneNodeLog fuel mem ctxt root res.nodes).2
      = xsltProcessOneNode fuel mem ctxt root res.nodes ∧
    (∀ e ∈ (xsltProcessOneNodeLog fuel mem ctxt root res.nodes).1, e.ctxt.node = some root) ∧
    (∀ (c : xsltTransformContext) (n : xmlNode) (source inst : Option xmlNode) (h : Heap),
      (∀ e ∈ (xsltProcessOneNodeLog fuel mem c n h).1, e.ctxt.node = c.node) ∧
      (∀ e ∈ (xsltDefaultProcessOneNodeLog fuel mem c n h).1, e.ctxt.node = c.node) ∧
      (∀ e ∈ (xsltApplyTemplatesLog fuel mem (some c) source inst h).1,
        e.ctxt.node = c.node) ∧
      (xsltProcessOneNodeLog fuel mem c n h).2 = xsltProcessOneNode fuel mem c n h ∧
      (xsltDefaultProcessOneNodeLog fuel mem c n h).2
        = xsltDefaultProcessOneNode fuel mem c n h ∧
      (xsltApplyTemplatesLog fuel mem (some c) source inst h).2
        = xsltApplyTemplates fuel mem (some c) source inst h) := by
  obtain ⟨hroot, hnode⟩ := driverStart_node mem style doc ctxt root res hstart
  refine ⟨⟨hroot, hnode⟩, ?_, (run_erasure mem fuel).2.2 _ _ _, ?_, ?_⟩
  · rw [xsltApplyStylesheet_start, hstart]
  · intro e he
    rw [(run_log_node mem fuel).2.2 ctxt root res.nodes e he, hnode]
  · intro c n source inst h
    exact ⟨(run_log_node mem fuel).2.2 c n h, (run_log_node mem fuel).1 c n h,
      (run_log_node mem fuel).2.1 c source inst h, (run_erasure mem fuel).2.2 c n h,
      (run_erasure mem fuel).1 c n h, (run_erasure mem fuel).2.1 (some c) source inst h⟩

/-- Witness of `current_node_never_rebound`: scenario E, in which the walker,
the dispatcher and the built-in rule are all at work. -/
theorem current_node_never_rebound_witness :
    driverStart okMem styleE sourceA = some (ctxtStartE, rootA, docStart) ∧
    (∀ e ∈ (xsltProcessOneNodeLog 8 okMem ctxtStartE rootA docStart.nodes).1,
      e.ctxt.node = some rootA) ∧
    (xsltProcessOneNodeLog 8 okMem ctxtStartE rootA docStart.nodes).1.length = 13 :=
  ⟨rfl,
   (current_node_never_rebound 8 okMem styleE sourceA ctxtStartE rootA docStart rfl).2.2.2.1,
   by decide⟩

/-- C15 (counterexample): the run for the stylesheet with output method "html"
and both doctype identifiers on `<a><b/>text<c/></a>` returns an HTML document
that has the root element `x` and whose internal subset is the one
`htmlNewDoc` gave it, not the subset named `x` that the injection would
create: the injection is not attempted for HTML output. -/
theorem html_run_has_no_injected_doctype :
    styleHtml.method = some "html" ∧
    styleHtml.doctypePublic = some "-//W3C//DTD HTML 4.01//EN" ∧
    xsltApplyStylesheet 4 okMem (some styleHtml) (some sourceA) = .ok (some docHtml) ∧
    outDocGetRootElement docHtml.nodes = some (cell XML_ELEMENT_NODE "x" none (some 0) [2]) ∧
    docHtml.intSubset
      ≠ some (xmlCreateIntSubset "x" styleHtml.doctypePublic styleHtml.doctypeSystem) ∧
    (htmlNewDoc okMem styleHtml.doctypePublic styleHtml.doctypeSystem).map
        (fun d => d.intSubset) = some docHtml.intSubset := by
  refine ⟨rfl, rfl, ?_, ?_, ?_, rfl⟩ <;> decide

/-- C15 (amended): for HTML output the finalizing step attempts no doctype
injection.  In every run with the output method "html" that returns a
document, the finalizing step is reached with an HTML context and returns the
document as the processing left it, so that the internal subset of the
returned document is the one `htmlNewDoc` created the document with, whatever
doctype identifiers the stylesheet declares; and at an HTML context the
finalizing step returns any document unchanged. -/
theorem html_doctype_not_injected (fuel : Nat) (mem : Allocator) (style : xsltStylesheet)
    (doc : xmlNode) (res : xmlDoc) (hm : style.method = some "html")
    (h : xsltApplyStylesheet fuel mem (some style) (some doc) = .ok (some res)) :
    (∃ (ctxt : xsltTransformContext) (root : xmlNode) (res1 res0 : xmlDoc) (heap : Heap),
      driverStart mem style doc = some (ctxt, root, res1) ∧
      htmlNewDoc mem style.doctypePublic style.doctypeSystem = some res0 ∧
      ctxt.type = XSLT_OUTPUT_HTML ∧
      xsltProcessOneNode fuel mem ctxt root res1.nodes = .ok (ctxt, heap) ∧
      res = (finalize style ctxt { res1 with nodes := heap }).2 ∧
      res = { res1 with nodes := heap } ∧
      res.intSubset = res0.intSubset) ∧
    (∀ (c : xsltTransformContext) (d : xmlDoc), c.type = XSLT_OUTPUT_HTML →
      (finalize style c d).2 = d) := by
  refine ⟨?_, fun c d _ => finalize_snd style c d⟩
  rw [xsltApplyStylesheet_start] at h
  cases hs : driverStart mem style doc with
  | none => simp [hs] at h
  | some st =>
    obtain ⟨ctxt, root, res1⟩ := st
    simp only [hs] at h
    obtain ⟨hty, res0, hnew, hsub⟩ := driverStart_html mem style doc ctxt root res1 hm hs
    cases hp : xsltProcessOneNode fuel mem ctxt root res1.nodes with
    | fault f => simp [hp] at h
    | ok st =>
      obtain ⟨ctxt3, heap⟩ := st
      simp only [hp, Result.ok.injEq, Option.some.injEq] at h
      obtain ⟨e1, _⟩ := (run_preserves mem fuel).2.2 _ _ _ _ _ hp
      subst e1
      refine ⟨ctxt3, root, res1, res0, heap, rfl, hnew, hty, hp, h.symm, ?_, ?_⟩
      · rw [← h, finalize_snd]
      · rw [← h, finalize_snd]
        exact hsub

/-- Witness of `html_doctype_not_injected`: the run for `styleHtml` on
`<a><b/>text<c/></a>`. -/
theorem html_doctype_not_injected_witness :
    styleHtml.method = some "html" ∧
    xsltApplyStylesheet 4 okMem (some styleHtml) (some sourceA) = .ok (some docHtml) ∧
    (∀ (c : xsltTransformContext) (d : xmlDoc), c.type = XSLT_OUTPUT_HTML →
      (finalize styleHtml c d).2 = d) :=
  ⟨rfl, by decide,
   (html_doctype_not_injected 4 okMem styleHtml sourceA docHtml rfl (by decide)).2⟩

/-- C16: copy failure in the walker.  When the walker stands on a template node
that is neither an instruction nor a blank text node and the shallow copy of
that node fails, the loop returns at once: the state is the context and the
heap with which the iteration started (nothing of the failed copy is linked)
and the trace ends with this node, no later node being processed.  Moreover
every return of `xsltProcessOneNode` hands back the insertion point it was
entered with, and the cells that were in the heap keep their fields and
parent. -/
theorem copy_failure_returns (apply : xsltTransformContext → xmlNode → Heap → Result State)
    (mem : Allocator) (doc : xmlNode) (content : Option xmlNodePtr) (oldInsert : Option Nat)
    (fuel : Nat) (cur : xmlNodePtr) (t : xmlNode) (insert copy : Option Nat)
    (ctxt : xsltTransformContext) (heap : Heap) (seen : List (xmlNodePtr × Option Nat))
    (hnode : nodeAt doc cur = some t) (hx : IS_XSLT_ELEM t = false)
    (hb : IS_BLANK_NODE t = false) (hfail : mem.copy t.data = false) :
    walkLoop apply mem doc content oldInsert (fuel + 1) (some cur) insert copy ctxt heap seen
      = .ok { ctxt := ctxt, heap := heap, visited := seen ++ [(cur, insert)] } ∧
    (∀ (fuel1 : Nat) (node : xmlNode) (ctxt0 ctxt1 : xsltTransformContext) (heap0 heap1 : Heap),
      xsltProcessOneNode fuel1 mem ctxt0 node heap0 = .ok (ctxt1, heap1) →
      ctxt1.insert = ctxt0.insert ∧
      ∀ (i : Nat) (c : outNode), heap0[i]? = some c →
        ∃ c1 : outNode, heap1[i]? = some c1 ∧ c1.data = c.data ∧ c1.parent = c.parent) := by
  constructor
  · simp [walkLoop, hnode, processCur, hx, hb, xmlCopyNode, hfail]
  · intro fuel1 node ctxt0 ctxt1 heap0 heap1 h
    obtain ⟨e1, e2⟩ := (run_preserves mem fuel1).2.2 _ _ _ _ _ h
    exact ⟨by rw [e1], e2.2.1⟩

/-- Witness of `copy_failure_returns`: scenario E when the copy of `y` fails;
the walker stands on `y` with the copy of `x` as cursor and returns the heap
holding the copy of `x` only. -/
theorem copy_failure_returns_witness :
    nodeAt sheetE [0, 0, 0, 0] = some nodeY ∧ memFailY.copy nodeY.data = false ∧
    walkLoop (dispatch 3 memFailY rootA) memFailY sheetE (some [0, 0, 0]) (some 0) (2 + 1)
        (some [0, 0, 0, 0]) (some 1) (some 1) (ctxtFor styleE) heapX [([0, 0, 0], some 0)]
      = .ok { ctxt := ctxtFor styleE, heap := heapX,
              visited := [([0, 0, 0], some 0)] ++ [([0, 0, 0, 0], some 1)] } :=
  ⟨rfl, by decide,
   (copy_failure_returns (dispatch 3 memFailY rootA) memFailY sheetE (some [0, 0, 0]) (some 0) 2
     [0, 0, 0, 0] nodeY (some 1) (some 1) (ctxtFor styleE) heapX [([0, 0, 0], some 0)] rfl
     (by decide) (by decide) (by decide)).1⟩

/-- C17: selection-based dispatch is not functional.  When the lookup of the
`select` attribute succeeds, `xsltApplyTemplates` returns the context and the
heap it was given: nothing is attached, no source node is processed (the
outcome needs no fuel beyond the call itself), no field of the context
changes.  Met by the walker, such an instruction leaves the state of the loop
as it was: the insertion point bound for the call is restored. -/
theorem select_dispatch_is_noop (fuel : Nat) (mem : Allocator) (ctxt : xsltTransformContext)
    (node inst : xmlNode) (heap : Heap) (value : String)
    (hsel : xmlGetNsProp inst "select" XSLT_NAMESPACE = some value) :
    xsltApplyTemplates (fuel + 1) mem (some ctxt) (some node) (some inst) heap
      = .ok (some ctxt, heap) ∧
    (∀ (insert copy : Option Nat), IS_XSLT_ELEM inst = true →
      IS_XSLT_NAME inst "apply-templates" = true →
      processCur (dispatch (fuel + 1) mem node) mem ctxt.insert inst insert copy ctxt heap
        = .ok (some (copy, ctxt, heap))) := by
  have h1 : ∀ c : xsltTransformContext,
      xsltApplyTemplates (fuel + 1) mem (some c) (some node) (some inst) heap
        = .ok (some c, heap) := by
    intro c
    simp only [xsltApplyTemplates, hsel]
  refine ⟨h1 ctxt, ?_⟩
  intro insert copy hx hn
  simp only [processCur, hx, hn, if_true, dispatch, h1, Option.getD_some]

/-- Witness of `select_dispatch_is_noop`: the instruction
`<xsl:apply-templates xsl:select="b"/>` on the root element of scenario A, with
no fuel left for any further call. -/
theorem select_dispatch_is_noop_witness :
    xmlGetNsProp instSelect "select" XSLT_NAMESPACE = some "b" ∧
    xsltApplyTemplates (0 + 1) okMem (some (ctxtFor styleEmpty)) (some rootA) (some instSelect)
        [docCell XML_DOCUMENT_NODE]
      = .ok (some (ctxtFor styleEmpty), [docCell XML_DOCUMENT_NODE]) :=
  ⟨by decide, (select_dispatch_is_noop 0 okMem (ctxtFor styleEmpty) rootA instSelect
    [docCell XML_DOCUMENT_NODE] "b" (by decide)).1⟩

/-- C18: insertion-point frame.  Whenever `xsltProcessOneNode`,
`xsltDefaultProcessOneNode` or `xsltApplyTemplates` returns, whatever the exit
path, the `insert` field of the context is the one it had at entry. -/
theorem insertion_point_frame (fuel : Nat) (mem : Allocator) (heap heap1 : Heap)
    (node : xmlNode) (source inst : Option xmlNode) (ctxt ctxt1 : xsltTransformContext)
    (h : xsltProcessOneNode fuel mem ctxt node heap = .ok (ctxt1, heap1) ∨
         xsltDefaultProcessOneNode fuel mem ctxt node heap = .ok (ctxt1, heap1) ∨
         xsltApplyTemplates fuel mem (some ctxt) source inst heap
           = .ok (some ctxt1, heap1)) :
    ctxt1.insert = ctxt.insert := by
  rcases h with h | h | h
  · rw [((run_preserves mem fuel).2.2 _ _ _ _ _ h).1]
  · rw [((run_preserves mem fuel).1 _ _ _ _ _ h).1]
  · have := ((run_preserves mem fuel).2.1 _ _ _ _ _ _ h).1
    simp only [Option.some.injEq] at this
    rw [this]

/-- Witness of `insertion_point_frame`: scenario E, in which the walker binds
the insertion point to the copy of `y` for the dispatcher call and restores
it. -/
theorem insertion_point_frame_witness :
    xsltProcessOneNode 5 okMem (ctxtFor styleE) rootA [docCell XML_DOCUMENT_NODE]
      = .ok (ctxtFor styleE, heapE) ∧
    (ctxtFor styleE).insert = (ctxtFor styleE).insert :=
  ⟨rfl, insertion_point_frame 5 okMem [docCell XML_DOCUMENT_NODE] heapE rootA none none
    (ctxtFor styleE) (ctxtFor styleE) (Or.inl rfl)⟩

/-- C19 (counterexample): for the source `<a><![CDATA[ ]]></a>` and a
stylesheet without templates, when the copy of the CDATA section fails the
built-in rule reports the failure and goes on: the returned document holds no
copy of the CDATA section. -/
theorem cdata_copy_failure :
    xsltApplyStylesheet 4 memFailCdata (some styleEmpty) (some sourceCdata)
      = .ok (some docEmpty) := by
  decide

/-- C19 (amended): blank CDATA is not stripped.  A CDATA section is never a
blank node, whatever its content.  Met as a child by the loop of the built-in
rule, or met in template content by the walker (outside the instruction
namespace), it is copied and, the copy succeeding, handed to `xmlAddChild`
under the insertion cursor, so that the copy becomes the last child of the
cursor. -/
theorem blank_cdata_is_copied (mem : Allocator) (t : xmlNode)
    (hty : t.type = XML_CDATA_SECTION_NODE) (hcopy : mem.copy t.data = true) :
    IS_BLANK_NODE t = false ∧
    (∀ (process : xsltTransformContext → xmlNode → Heap → Result State) (rest : List xmlNode)
      (ctxt : xsltTransformContext) (heap : Heap),
      defaultLoop process mem (t :: rest) ctxt heap
        = defaultLoop process mem rest ctxt
            (xmlAddChild (heap ++ [{ data := t.data, parent := none, children := [] }])
              ctxt.insert heap.length)) ∧
    (∀ (apply : xsltTransformContext → xmlNode → Heap → Result State)
      (oldInsert insert copy : Option Nat) (ctxt : xsltTransformContext) (heap : Heap),
      IS_XSLT_ELEM t = false →
      processCur apply mem oldInsert t insert copy ctxt heap
        = .ok (some (some heap.length, ctxt,
            xmlAddChild (heap ++ [{ data := t.data, parent := none, children := [] }])
              insert heap.length))) ∧
    (∀ (heap : Heap) (p : Nat), p < heap.length →
      xmlAddChild (heap ++ [{ data := t.data, parent := none, children := [] }]) (some p)
          heap.length
        = Heap.update heap p (fun c => { c with children := c.children ++ [heap.length] })
          ++ [{ data := t.data, parent := some p, children := [] }]) := by
  have hb : IS_BLANK_NODE t = false := by simp [IS_BLANK_NODE, hty]
  refine ⟨hb, ?_, ?_, ?_⟩
  · intro process rest ctxt heap
    rw [defaultLoop]
    simp [defaultBody, hty, xmlCopyNode, hcopy]
  · intro apply oldInsert insert copy ctxt heap hx
    simp [processCur, hx, hb, xmlCopyNode, hcopy]
  · intro heap p hp
    exact xmlAddChild_append heap t.data p hp

/-- Witness of `blank_cdata_is_copied`: the CDATA section holding a single
space, as only child, under the document node of an empty document. -/
theorem blank_cdata_is_copied_witness :
    (cdata " ").type = XML_CDATA_SECTION_NODE ∧ xsltIsBlank (cdata " ").data.content = true ∧
    IS_BLANK_NODE (cdata " ") = false ∧
    defaultLoop (xsltProcessOneNode 1 okMem) okMem (cdata " " :: []) (ctxtFor styleEmpty)
        [docCell XML_DOCUMENT_NODE]
      = defaultLoop (xsltProcessOneNode 1 okMem) okMem [] (ctxtFor styleEmpty)
          (xmlAddChild ([docCell XML_DOCUMENT_NODE]
              ++ [{ data := (cdata " ").data, parent := none, children := [] }])
            (ctxtFor styleEmpty).insert [docCell XML_DOCUMENT_NODE].length) :=
  ⟨rfl, by decide, (blank_cdata_is_copied okMem (cdata " ") rfl rfl).1,
   (blank_cdata_is_copied okMem (cdata " ") rfl rfl).2.1 (xsltProcessOneNode 1 okMem) []
     (ctxtFor styleEmpty) [docCell XML_DOCUMENT_NODE]⟩

end LibXslt
